import Mathlib

/-!
NoSweatConfigFileParser: a shallow embedding and its verified properties.

The header `NoSweatConfigFileParser.hpp` implements a typed configuration store
that is filled from a default configuration file (`<type> <key> = <value>`
declarations) and then updated from a user configuration file.

Modelling conventions.

* `std::string` is `Str`, the list of the characters (bytes) of the string.
* `std::string::size_type` is `Nat`; the one place where unsigned arithmetic
  wraps (`npos + 1 = 0`, `0 - 1 = npos`) is written with `size_add` and
  `size_sub`, which work modulo `2 ^ 64`.
* `std::map<std::string, std::pair<T, T>>` is a partial function
  `Str → Option (T × T)`; `find(key) == end()` is `m key = none`.
* A file is seen through `FileSystem`: a path is mapped to `none` when the
  stream cannot be opened and otherwise to the successive values that
  `std::getline` stores in `current_line` while `file_stream.good()` holds
  (the pieces of the file content between line feeds, including the empty
  piece after a final line feed).
* `float` and `std::stof` belong to the C++ runtime and are a parameter
  (`FloatLib`) of the whole development.
-/

namespace NoSweat

/-! ## Strings and `size_type` -/

/-- A `std::string`, as the list of its characters. -/
abbrev Str := List Char

/-- The value `std::string::npos`, the largest `size_type` (64 bit). -/
def npos : Nat := 18446744073709551615

/-- Addition of `size_type` values (wraps modulo `2 ^ 64`). -/
def size_add (a b : Nat) : Nat := (a + b) % 18446744073709551616

/-- Subtraction of `size_type` values (wraps modulo `2 ^ 64`). -/
def size_sub (a b : Nat) : Nat := (a + 18446744073709551616 - b % 18446744073709551616) % 18446744073709551616

/-- The call `str.find_first_of(chars)`: index of the first character of `str` that occurs in
`chars`, or `npos`. -/
def find_first_of (str chars : Str) : Nat :=
  let i := str.findIdx (fun c => decide (c ∈ chars))
  if i < str.length then i else npos

/-- The call `str.find_first_not_of(chars)`: index of the first character of `str` that does not
occur in `chars`, or `npos`. -/
def find_first_not_of (str chars : Str) : Nat :=
  let i := str.findIdx (fun c => decide (c ∉ chars))
  if i < str.length then i else npos

/-- The call `str.find_last_not_of(chars)`: index of the last character of `str` that does not
occur in `chars`, or `npos`. -/
def find_last_not_of (str chars : Str) : Nat :=
  let j := str.reverse.findIdx (fun c => decide (c ∉ chars))
  if j < str.length then str.length - 1 - j else npos

/-- The call `str.find(sub)`: index of the first occurrence of the string `sub` in `str`,
or `npos`. -/
def find (str sub : Str) : Nat :=
  let i := str.tails.findIdx (fun t => decide (sub <+: t))
  if i < str.length + 1 then i else npos

/-- The call `str.substr(pos, n)`: the characters `[pos, pos + min(n, size - pos))`.
(The C++ function throws for `pos > size`; no call of the parser does that.) -/
def substr (str : Str) (pos n : Nat) : Str :=
  (str.drop pos).take (min n (str.length - pos))

/-- The call `str.erase(pos, n)`: removes `min(n, size - pos)` characters from index `pos` on. -/
def erase (str : Str) (pos n : Nat) : Str :=
  str.take pos ++ str.drop (pos + min n (str.length - pos))

/-- The characters removed by `trim`: space, horizontal tab, new line, carriage return,
vertical tab and form feed. -/
def whitespace_chars : Str := [' ', '\t', '\n', '\r', '\x0b', '\x0c']

/-- Two-sided whitespace trimming (`NoSweat::trim`). -/
def trim (str : Str) : Str :=
  -- Remove leading spaces.
  let str1 := erase str 0 (find_first_not_of str whitespace_chars)
  -- Remove trailing spaces.
  erase str1 (size_add (find_last_not_of str1 whitespace_chars) 1) npos

/-- Returns true if `str` starts with `sub` (`NoSweat::starts_with`). -/
def starts_with (str sub : Str) : Bool :=
  let length := sub.length
  if length = 0 then true
  else if substr str 0 length = sub then true
  else false

/-! ## The C++ runtime: `std::stoi`, `::tolower`, `float` -/

/-- The predicate `isspace` of the C locale, used by `strtol` to skip leading blanks. -/
def isspace (c : Char) : Bool := decide (c ∈ [' ', '\t', '\n', '\x0b', '\x0c', '\r'])

/-- The predicate `isdigit`. -/
def isdigit (c : Char) : Bool := decide ('0' ≤ c ∧ c ≤ '9')

/-- The value of a decimal digit. -/
def digit_value (c : Char) : Nat := c.toNat - 48

/-- Smallest `int` (32 bit). -/
def INT_MIN : Int := -2147483648

/-- Largest `int` (32 bit). -/
def INT_MAX : Int := 2147483647

/-- The call `std::stoi(value)` (base 10): skips leading white space, reads an optional sign and
the longest run of decimal digits, and ignores what follows. `none` stands for the two
exceptions the parser catches: `std::invalid_argument` (no digit could be read) and
`std::out_of_range` (the number read is not an `int`). -/
def stoi (value : Str) : Option Int :=
  let s1 := value.dropWhile isspace
  let negative := s1.head? = some '-'
  let s2 := if s1.head? = some '-' ∨ s1.head? = some '+' then s1.tail else s1
  let digits := s2.takeWhile isdigit
  if digits = [] then none
  else
    let magnitude : Nat := digits.foldl (fun acc c => 10 * acc + digit_value c) 0
    let n : Int := if negative then - (magnitude : Int) else (magnitude : Int)
    if INT_MIN ≤ n ∧ n ≤ INT_MAX then some n else none

/-- The function `::tolower` of the C locale. -/
def tolower (c : Char) : Char := c.toLower

/-- The part of the C++ runtime that deals with `float`: the type of `float` values, the value
`0.0`, and `std::stof`, with `none` for the exceptions `std::invalid_argument` and
`std::out_of_range`. -/
structure FloatLib where
  /-- The values of type `float`. -/
  F : Type
  /-- The value `0.0`. -/
  zero : F
  /-- The call `std::stof(value)`. -/
  stof : Str → Option F

/-! ## The configuration store -/

/-- The file system as the parser sees it: `none` when the stream cannot be opened, otherwise
the lines delivered by the `getline` loop. -/
abbrev FileSystem := Str → Option (List Str)

/-- The data members of `class NoSweatConfigFileParser`. The first component of each pair is the
default value and the second one the user set value. -/
structure NoSweatConfigFileParser (L : FloatLib) where
  /-- Path of the default configuration file. -/
  default_config_file_ : Str
  /-- Path of the configuration file. -/
  config_file_ : Str
  /-- The `int` values. -/
  integer_config_values_ : Str → Option (Int × Int)
  /-- The `float` values. -/
  float_config_values_ : Str → Option (L.F × L.F)
  /-- The `std::string` values. -/
  string_config_values_ : Str → Option (Str × Str)
  /-- The `bool` values. -/
  bool_config_values_ : Str → Option (Bool × Bool)

/-- Accepted types of configuration variables (with the additional space). -/
def accepted_value_types_ : List Str :=
  [['i', 'n', 't', ' '], ['f', 'l', 'o', 'a', 't', ' '], ['s', 't', 'r', 'i', 'n', 'g', ' '],
   ['b', 'o', 'o', 'l', ' ']]

/-- The assignment characters `":="`. -/
def accepted_assignment_operators_ : Str := [':', '=']

/-- Case-insensitive accepted names for the boolean value true. -/
def accepted_boolean_true_values_ : List Str :=
  [['t', 'r', 'u', 'e'], ['y', 'e', 's'], ['y'], ['o', 'n'], ['1'], ['r', 'i', 'g', 'h', 't']]

/-- Case-insensitive accepted names for the boolean value false. -/
def accepted_boolean_false_values_ : List Str :=
  [['f', 'a', 'l', 's', 'e'], ['n', 'o'], ['n'], ['o', 'f', 'f'], ['0'], ['w', 'r', 'o', 'n', 'g']]

/-- The assignment `m[key] = v` of `std::map`. -/
def map_assign {V : Type} (m : Str → Option V) (key : Str) (v : V) : Str → Option V :=
  fun k => if k = key then some v else m k

/-- The assignment `m[key].second = v` of a `std::map` of pairs; `operator[]` creates the entry
`dflt` when the key is missing. -/
def map_assign_second {V : Type} (m : Str → Option (V × V)) (dflt : V × V) (key : Str) (v : V) :
    Str → Option (V × V) :=
  fun k => if k = key then some (((m key).getD dflt).1, v) else m k

variable {L : FloatLib}

/-- The state of a parser object whose members are default constructed, apart from the path of
the default configuration file. -/
def NoSweatConfigFileParser.init (L : FloatLib) (default_config_file : Str) :
    NoSweatConfigFileParser L where
  default_config_file_ := default_config_file
  config_file_ := []
  integer_config_values_ := fun _ => none
  float_config_values_ := fun _ => none
  string_config_values_ := fun _ => none
  bool_config_values_ := fun _ => none

/-- Returns true if the key has not been taken yet. Checks key/value maps. -/
def is_key_available (s : NoSweatConfigFileParser L) (key : Str) : Bool :=
  if (s.integer_config_values_ key).isSome then false
  else if (s.float_config_values_ key).isSome then false
  else if (s.string_config_values_ key).isSome then false
  else if (s.bool_config_values_ key).isSome then false
  else true

/-- The conversion of a value to `bool` shared by `add_default_bool_value` and
`set_bool_value`: lower case the value, look it up in the false names, then in the true names;
`none` is the branch that returns without storing anything. -/
def bool_of_value (value : Str) : Option Bool :=
  let value := value.map tolower
  if value ∈ accepted_boolean_false_values_ then some false
  else if value ∈ accepted_boolean_true_values_ then some true
  else none

/-- Convert the string value to `int` and add it to the default key/value map. -/
def add_default_integer_value (s : NoSweatConfigFileParser L) (key value : Str) :
    NoSweatConfigFileParser L :=
  if ¬ is_key_available s key then s
  else match stoi value with
    | none => s
    | some int_value =>
      { s with integer_config_values_ :=
          map_assign s.integer_config_values_ key (int_value, int_value) }

/-- Convert the string value to `float` and add it to the default key/value map. -/
def add_default_float_value (s : NoSweatConfigFileParser L) (key value : Str) :
    NoSweatConfigFileParser L :=
  if ¬ is_key_available s key then s
  else match L.stof value with
    | none => s
    | some float_value =>
      { s with float_config_values_ :=
          map_assign s.float_config_values_ key (float_value, float_value) }

/-- Add the string value to the default key/value map. -/
def add_default_string_value (s : NoSweatConfigFileParser L) (key value : Str) :
    NoSweatConfigFileParser L :=
  if ¬ is_key_available s key then s
  else { s with string_config_values_ := map_assign s.string_config_values_ key (value, value) }

/-- Convert the string value to `bool` and add it to the default key/value map. -/
def add_default_bool_value (s : NoSweatConfigFileParser L) (key value : Str) :
    NoSweatConfigFileParser L :=
  if ¬ is_key_available s key then s
  else match bool_of_value value with
    | none => s
    | some bool_value =>
      { s with bool_config_values_ :=
          map_assign s.bool_config_values_ key (bool_value, bool_value) }

/-- Set an already existing `int` key to a value. If the key does not exist, nothing happens. -/
def set_integer_value (s : NoSweatConfigFileParser L) (key value : Str) :
    NoSweatConfigFileParser L :=
  if (s.integer_config_values_ key).isNone then s
  else match stoi value with
    | none => s
    | some int_value =>
      { s with integer_config_values_ :=
          map_assign_second s.integer_config_values_ (0, 0) key int_value }

/-- Set an already existing `float` key to a value. -/
def set_float_value (s : NoSweatConfigFileParser L) (key value : Str) :
    NoSweatConfigFileParser L :=
  if (s.float_config_values_ key).isNone then s
  else match L.stof value with
    | none => s
    | some float_value =>
      { s with float_config_values_ :=
          map_assign_second s.float_config_values_ (L.zero, L.zero) key float_value }

/-- Set an already existing `std::string` key to a value. -/
def set_string_value (s : NoSweatConfigFileParser L) (key value : Str) :
    NoSweatConfigFileParser L :=
  if (s.string_config_values_ key).isNone then s
  else { s with string_config_values_ :=
          map_assign_second s.string_config_values_ ([], []) key value }

/-- Set an already existing `bool` key to a value. -/
def set_bool_value (s : NoSweatConfigFileParser L) (key value : Str) :
    NoSweatConfigFileParser L :=
  if (s.bool_config_values_ key).isNone then s
  else match bool_of_value value with
    | none => s
    | some bool_value =>
      { s with bool_config_values_ :=
          map_assign_second s.bool_config_values_ (false, false) key bool_value }

/-- Set a given key to value. Searches all maps and determines the type automatically. -/
def set_value (s : NoSweatConfigFileParser L) (key value : Str) : NoSweatConfigFileParser L :=
  if (s.integer_config_values_ key).isSome then set_integer_value s key value
  else if (s.float_config_values_ key).isSome then set_float_value s key value
  else if (s.string_config_values_ key).isSome then set_string_value s key value
  else if (s.bool_config_values_ key).isSome then set_bool_value s key value
  else s

/-- The body of the `getline` loop of `parse_default_config_file`, for one line. -/
def parse_default_config_file_line (s : NoSweatConfigFileParser L) (line : Str) :
    NoSweatConfigFileParser L :=
  let current_line := trim line
  -- Check if the trimmed line starts with a value keyword.
  let starts_with_value_type := accepted_value_types_.any (fun type => starts_with current_line type)
  if ¬ starts_with_value_type then s
  else
    -- Split at the first equals sign, or colon, if it has none, skip the line.
    let index := find_first_of current_line accepted_assignment_operators_
    if index = npos ∨ index = size_sub current_line.length 1 then s
    else
      let type_and_key := trim (substr current_line 0 index)
      let value := trim (substr current_line (size_add index 1) npos)
      if type_and_key.length = 0 ∨ value.length = 0 then s
      else
        let index := find type_and_key [' ']
        let type := trim (substr type_and_key 0 index)
        let key := trim (substr type_and_key (size_add index 1) npos)
        if type = ['i', 'n', 't'] then add_default_integer_value s key value
        else if type = ['f', 'l', 'o', 'a', 't'] then add_default_float_value s key value
        else if type = ['s', 't', 'r', 'i', 'n', 'g'] then add_default_string_value s key value
        else if type = ['b', 'o', 'o', 'l'] then add_default_bool_value s key value
        else s

/-- The function `parse_default_config_file`: every line of the default configuration file goes
through the loop body; a file that cannot be opened only produces a warning. -/
def parse_default_config_file (fs : FileSystem) (s : NoSweatConfigFileParser L) :
    NoSweatConfigFileParser L :=
  match fs s.default_config_file_ with
  | some lines => lines.foldl parse_default_config_file_line s
  | none => s

/-- The body of the `getline` loop of `read_config_file`, for one line. -/
def read_config_file_line (s : NoSweatConfigFileParser L) (line : Str) :
    NoSweatConfigFileParser L :=
  let current_line := trim line
  let index := find_first_of current_line ['=', ':']
  if index = npos ∨ index = 0 ∨ index = size_sub current_line.length 1 then s
  else
    let key := trim (substr current_line 0 index)
    let value := trim (substr current_line (size_add index 1) npos)
    -- If the type is given in the user configuration file it will be enforced.
    let starts_with_value_type :=
      accepted_value_types_.any (fun type => starts_with current_line type)
    let index := find_first_of key [' ', '\t']
    let enforce_type := if starts_with_value_type then substr key 0 index else []
    let key := if starts_with_value_type then trim (erase key 0 index) else key
    if enforce_type ≠ [] then
      if enforce_type = ['i', 'n', 't'] then set_integer_value s key value
      else if enforce_type = ['f', 'l', 'o', 'a', 't'] then set_float_value s key value
      else if enforce_type = ['s', 't', 'r', 'i', 'n', 'g'] then set_string_value s key value
      else if enforce_type = ['b', 'o', 'o', 'l'] then set_bool_value s key value
      else s
    else set_value s key value

/-- The function `read_config_file`: records the path, then sends every line of the file through
the loop body; a file that cannot be opened only produces a warning. -/
def read_config_file (fs : FileSystem) (s : NoSweatConfigFileParser L) (config_file : Str) :
    NoSweatConfigFileParser L :=
  let s := { s with config_file_ := config_file }
  match fs s.config_file_ with
  | some lines => lines.foldl read_config_file_line s
  | none => s

/-- The constructor taking only the path of the default configuration file. -/
def NoSweatConfigFileParser.new1 (L : FloatLib) (fs : FileSystem) (default_config_file : Str) :
    NoSweatConfigFileParser L :=
  parse_default_config_file fs (NoSweatConfigFileParser.init L default_config_file)

/-- The constructor taking the paths of the default configuration file and of the normal
configuration file; it parses them both. -/
def NoSweatConfigFileParser.new2 (L : FloatLib) (fs : FileSystem)
    (default_config_file config_file : Str) : NoSweatConfigFileParser L :=
  read_config_file fs
    (parse_default_config_file fs (NoSweatConfigFileParser.init L default_config_file))
    config_file

/-- The accessor `get_int`. -/
def get_int (s : NoSweatConfigFileParser L) (key : Str) : Int :=
  if (s.integer_config_values_ key).isNone then 0
  else ((s.integer_config_values_ key).getD (0, 0)).2

/-- The accessor `get_float`. -/
def get_float (s : NoSweatConfigFileParser L) (key : Str) : L.F :=
  if (s.float_config_values_ key).isNone then L.zero
  else ((s.float_config_values_ key).getD (L.zero, L.zero)).2

/-- The accessor `get_string`. -/
def get_string (s : NoSweatConfigFileParser L) (key : Str) : Str :=
  if (s.string_config_values_ key).isNone then []
  else ((s.string_config_values_ key).getD ([], [])).2

/-- The accessor `get_bool`. -/
def get_bool (s : NoSweatConfigFileParser L) (key : Str) : Bool :=
  if (s.bool_config_values_ key).isNone then false
  else ((s.bool_config_values_ key).getD (false, false)).2

/-! ## Derived definitions used to state the properties -/

/-- The four value types. -/
inductive VType where
  | int | float | string | bool
  deriving DecidableEq, Repr

/-- The keyword of a value type. -/
def VType.name : VType → Str
  | .int => ['i', 'n', 't']
  | .float => ['f', 'l', 'o', 'a', 't']
  | .string => ['s', 't', 'r', 'i', 'n', 'g']
  | .bool => ['b', 'o', 'o', 'l']

/-- Whether `key` is a key of the map of type `T`. -/
def holds (s : NoSweatConfigFileParser L) (T : VType) (key : Str) : Bool :=
  match T with
  | .int => (s.integer_config_values_ key).isSome
  | .float => (s.float_config_values_ key).isSome
  | .string => (s.string_config_values_ key).isSome
  | .bool => (s.bool_config_values_ key).isSome

/-- The map in which `set_value` finds `key`: the first one, in the order integer, float,
string, boolean, that holds the key. -/
def key_type (s : NoSweatConfigFileParser L) (key : Str) : Option VType :=
  if holds s .int key then some .int
  else if holds s .float key then some .float
  else if holds s .string key then some .string
  else if holds s .bool key then some .bool
  else none

/-- Whether the conversion of `value` to the type `T` fails (the setter returns early). -/
def conversion_fails (L : FloatLib) (T : VType) (value : Str) : Bool :=
  match T with
  | .int => (stoi value).isNone
  | .float => (L.stof value).isNone
  | .string => false
  | .bool => (bool_of_value value).isNone

/-- Every key is a key of at most one of the four maps. -/
def KeysDisjoint (s : NoSweatConfigFileParser L) : Prop :=
  ∀ (key : Str) (T M : VType), holds s T key = true → holds s M key = true → T = M

/-- The shape of a registered key: not empty, unchanged by `trim`, free of `':'` and `'='`. -/
def KeyShaped (key : Str) : Prop :=
  key ≠ [] ∧ trim key = key ∧ ':' ∉ key ∧ '=' ∉ key

/-- Every key of every map has the shape of a registered key. -/
def KeysShaped (s : NoSweatConfigFileParser L) : Prop :=
  ∀ (key : Str) (T : VType), holds s T key = true → KeyShaped key

/-- The type dispatch at the end of the loop body of `parse_default_config_file`. -/
def default_dispatch (s : NoSweatConfigFileParser L) (type key value : Str) :
    NoSweatConfigFileParser L :=
  if type = ['i', 'n', 't'] then add_default_integer_value s key value
  else if type = ['f', 'l', 'o', 'a', 't'] then add_default_float_value s key value
  else if type = ['s', 't', 'r', 'i', 'n', 'g'] then add_default_string_value s key value
  else if type = ['b', 'o', 'o', 'l'] then add_default_bool_value s key value
  else s

/-- The `type`, `key` and `value` that the loop body of `parse_default_config_file` extracts
from a line; `none` when the line is skipped before the type dispatch. -/
def default_tokens (line : Str) : Option (Str × Str × Str) :=
  let current_line := trim line
  if ¬ accepted_value_types_.any (fun type => starts_with current_line type) then none
  else
    let index := find_first_of current_line accepted_assignment_operators_
    if index = npos ∨ index = size_sub current_line.length 1 then none
    else
      let type_and_key := trim (substr current_line 0 index)
      let value := trim (substr current_line (size_add index 1) npos)
      if type_and_key.length = 0 ∨ value.length = 0 then none
      else
        let index := find type_and_key [' ']
        some (trim (substr type_and_key 0 index),
          trim (substr type_and_key (size_add index 1) npos), value)

/-- The type dispatch at the end of the loop body of `read_config_file`. -/
def overlay_dispatch (s : NoSweatConfigFileParser L) (enforce_type key value : Str) :
    NoSweatConfigFileParser L :=
  if enforce_type ≠ [] then
    if enforce_type = ['i', 'n', 't'] then set_integer_value s key value
    else if enforce_type = ['f', 'l', 'o', 'a', 't'] then set_float_value s key value
    else if enforce_type = ['s', 't', 'r', 'i', 'n', 'g'] then set_string_value s key value
    else if enforce_type = ['b', 'o', 'o', 'l'] then set_bool_value s key value
    else s
  else set_value s key value

/-- The `enforce_type`, `key` and `value` that the loop body of `read_config_file` extracts from
a line; `none` when the line is skipped. -/
def overlay_tokens (line : Str) : Option (Str × Str × Str) :=
  let current_line := trim line
  let index := find_first_of current_line ['=', ':']
  if index = npos ∨ index = 0 ∨ index = size_sub current_line.length 1 then none
  else
    let key := trim (substr current_line 0 index)
    let value := trim (substr current_line (size_add index 1) npos)
    let starts_with_value_type :=
      accepted_value_types_.any (fun type => starts_with current_line type)
    let index := find_first_of key [' ', '\t']
    some (if starts_with_value_type then substr key 0 index else [],
      if starts_with_value_type then trim (erase key 0 index) else key, value)

/-- Membership in `whitespace_chars`, as a boolean test. -/
def is_whitespace (c : Char) : Bool := decide (c ∈ whitespace_chars)

/-- The string without its longest prefix and its longest suffix of whitespace characters. -/
def strip (str : Str) : Str := (str.dropWhile is_whitespace).rdropWhile is_whitespace

/-- The integer denoted by an optionally signed decimal literal: the digits are read in
positional notation. `none` when the text is not of the form sign, then one or more digits, or
when the integer is not in the range of a 32 bit `int`. -/
def int_literal_value (v : Str) : Option Int :=
  let negative := v.head? = some '-'
  let digits := if v.head? = some '-' ∨ v.head? = some '+' then v.tail else v
  if digits ≠ [] ∧ digits.all isdigit then
    let magnitude : Nat := Nat.ofDigits 10 (digits.reverse.map digit_value)
    let n : Int := if negative then - (magnitude : Int) else (magnitude : Int)
    if -2147483648 ≤ n ∧ n ≤ 2147483647 then some n else none
  else none

/-- A small instance of the `float` runtime, used to evaluate examples: a value is a decimal
number kept as its digits and the number of digits after the point, and the conversion reads an
optional sign, digits, and an optional fractional part. -/
def decimal_lib : FloatLib where
  F := Int × Nat
  zero := (0, 0)
  stof := fun value =>
    let s1 := value.dropWhile isspace
    let negative := s1.head? = some '-'
    let s2 := if s1.head? = some '-' ∨ s1.head? = some '+' then s1.tail else s1
    let int_part := s2.takeWhile isdigit
    let rest := s2.dropWhile isdigit
    let frac_part := if rest.head? = some '.' then rest.tail.takeWhile isdigit else []
    if int_part = [] ∧ frac_part = [] then none
    else
      let magnitude : Nat := (int_part ++ frac_part).foldl (fun acc c => 10 * acc + digit_value c) 0
      some (if negative then - (magnitude : Int) else (magnitude : Int), frac_part.length)

/-- The store after a sequence of calls of `read_config_file`; each call comes with the file
system as it is at that moment and with the path passed to it. -/
def read_config_files (s : NoSweatConfigFileParser L) (calls : List (FileSystem × Str)) :
    NoSweatConfigFileParser L :=
  calls.foldl (fun s call => read_config_file call.1 s call.2) s

/-- A line that fails the shape of a declaration: its trimmed text does not start with one of
the four type tokens, or contains neither `':'` nor `'='`, or has its first `':'` or `'='` as
its final character. -/
def malformed_declaration (line : Str) : Bool :=
  !(accepted_value_types_.any (fun type => decide (type <+: trim line)))
    || (trim line).all (fun c => decide (c ∉ [':', '=']))
    || decide (((trim line).dropWhile (fun c => decide (c ∉ [':', '=']))).length = 1)

/-- One assignment `m[key].second = value` made by a setter: the map is given by the
constructor. -/
inductive Assignment (L : FloatLib) where
  | int (key : Str) (value : Int)
  | float (key : Str) (value : L.F)
  | string (key : Str) (value : Str)
  | bool (key : Str) (value : Bool)

/-- The store after an assignment, if there is one. -/
def assign (s : NoSweatConfigFileParser L) : Option (Assignment L) → NoSweatConfigFileParser L
  | none => s
  | some (.int key value) =>
    { s with integer_config_values_ :=
        map_assign_second s.integer_config_values_ (0, 0) key value }
  | some (.float key value) =>
    { s with float_config_values_ :=
        map_assign_second s.float_config_values_ (L.zero, L.zero) key value }
  | some (.string key value) =>
    { s with string_config_values_ :=
        map_assign_second s.string_config_values_ ([], []) key value }
  | some (.bool key value) =>
    { s with bool_config_values_ :=
        map_assign_second s.bool_config_values_ (false, false) key value }

/-- The assignment that the setter of type `T` makes for `key` and `value`: none when the map
does not hold the key or the value does not convert. -/
def setter_effect (s : NoSweatConfigFileParser L) (T : VType) (key value : Str) :
    Option (Assignment L) :=
  match T with
  | .int => if (s.integer_config_values_ key).isNone then none
      else (stoi value).map (Assignment.int key)
  | .float => if (s.float_config_values_ key).isNone then none
      else (L.stof value).map (Assignment.float key)
  | .string => if (s.string_config_values_ key).isNone then none
      else some (Assignment.string key value)
  | .bool => if (s.bool_config_values_ key).isNone then none
      else (bool_of_value value).map (Assignment.bool key)

/-- The assignment that one overlay line makes on a store. -/
def overlay_effect (s : NoSweatConfigFileParser L) (line : Str) : Option (Assignment L) :=
  match overlay_tokens line with
  | none => none
  | some (enforce_type, key, value) =>
    if enforce_type ≠ [] then
      if enforce_type = ['i', 'n', 't'] then setter_effect s .int key value
      else if enforce_type = ['f', 'l', 'o', 'a', 't'] then setter_effect s .float key value
      else if enforce_type = ['s', 't', 'r', 'i', 'n', 'g'] then setter_effect s .string key value
      else if enforce_type = ['b', 'o', 'o', 'l'] then setter_effect s .bool key value
      else none
    else
      match key_type s key with
      | some T => setter_effect s T key value
      | none => none

/-- The value of an overlay line that targets `key` with the type prefix of `T` or with no
type prefix and whose value converts to `T`; none for every other line. -/
def targeting_value (L : FloatLib) (T : VType) (key line : Str) : Option Str :=
  match overlay_tokens line with
  | none => none
  | some (enforce_type, k, value) =>
    if k = key ∧ (enforce_type = T.name ∨ enforce_type = []) ∧
        conversion_fails L T value = false then some value
    else none

/-- The value of the last line of a file that targets `key` as `targeting_value` says. -/
def last_targeting_value (L : FloatLib) (T : VType) (key : Str) (lines : List Str) :
    Option Str :=
  lines.foldl (fun acc line =>
    match targeting_value L T key line with
    | some value => some value
    | none => acc) none

/-- The update of one map by an assignment `m[key].second = value`, if there is one. -/
def map_update {V : Type} (dflt : V × V) (m : Str → Option (V × V)) (a : Option (Str × V)) :
    Str → Option (V × V) :=
  match a with
  | none => m
  | some (key, value) => map_assign_second m dflt key value

/-- The value that the last assignment to `key` in a list of assignments gives it. -/
def last_assigned {V : Type} (key : Str) (assignments : List (Option (Str × V))) : Option V :=
  assignments.foldl (fun acc a =>
    match a with
    | some (k, value) => if k = key then some value else acc
    | none => acc) none

/-- The key and value of an assignment to the integer map. -/
def Assignment.int_part : Assignment L → Option (Str × Int)
  | .int key value => some (key, value)
  | _ => none

/-- The key and value of an assignment to the float map. -/
def Assignment.float_part : Assignment L → Option (Str × L.F)
  | .float key value => some (key, value)
  | _ => none

/-- The key and value of an assignment to the string map. -/
def Assignment.string_part : Assignment L → Option (Str × Str)
  | .string key value => some (key, value)
  | _ => none

/-- The key and value of an assignment to the boolean map. -/
def Assignment.bool_part : Assignment L → Option (Str × Bool)
  | .bool key value => some (key, value)
  | _ => none

/-- The check of the loop body of `parse_default_config_file` that the trimmed line starts
with a value keyword. -/
def passes_type_check (line : Str) : Bool :=
  accepted_value_types_.any (fun type => starts_with (trim line) type)

/-- The check of the loop body of `parse_default_config_file` that the trimmed line has an
assignment character and that the first one is not its final character. -/
def passes_assignment_check (line : Str) : Bool :=
  !decide (find_first_of (trim line) accepted_assignment_operators_ = npos ∨
    find_first_of (trim line) accepted_assignment_operators_ = size_sub (trim line).length 1)

/-- The local variable `type_and_key` of the loop body of `parse_default_config_file`, after
its `trim`. -/
def default_type_and_key (line : Str) : Str :=
  trim (substr (trim line) 0 (find_first_of (trim line) accepted_assignment_operators_))

/-- The local variable `value` of the loop body of `parse_default_config_file`, after its
`trim`. -/
def default_value (line : Str) : Str :=
  trim (substr (trim line)
    (size_add (find_first_of (trim line) accepted_assignment_operators_) 1) npos)

/-- The local variable `type` of the loop body of `parse_default_config_file`, after its
`trim`. -/
def default_type (line : Str) : Str :=
  trim (substr (default_type_and_key line) 0 (find (default_type_and_key line) [' ']))

/-- The local variable `key` of the loop body of `parse_default_config_file`, after its
`trim`. -/
def default_key (line : Str) : Str :=
  trim (substr (default_type_and_key line)
    (size_add (find (default_type_and_key line) [' ']) 1) npos)

/-- The value type with the given keyword. -/
def VType.of_name (type : Str) : Option VType :=
  if type = ['i', 'n', 't'] then some .int
  else if type = ['f', 'l', 'o', 'a', 't'] then some .float
  else if type = ['s', 't', 'r', 'i', 'n', 'g'] then some .string
  else if type = ['b', 'o', 'o', 'l'] then some .bool
  else none

/-- The type and value of a line of the default file that declares `key` with a value that
converts to the declared type; none for every other line. -/
def effective_declaration (L : FloatLib) (key line : Str) : Option (VType × Str) :=
  match default_tokens line with
  | none => none
  | some (type, k, value) =>
    if k = key then
      match VType.of_name type with
      | some T => if conversion_fails L T value then none else some (T, value)
      | none => none
    else none

/-! ## The loop bodies in terms of tokens and dispatch -/

set_option maxRecDepth 1000000

theorem parse_default_config_file_line_eq (s : NoSweatConfigFileParser L) (line : Str) :
    parse_default_config_file_line s line =
      match default_tokens line with
      | none => s
      | some (type, key, value) => default_dispatch s type key value := by
  unfold parse_default_config_file_line default_tokens default_dispatch
  simp only []
  split_ifs <;> simp_all

theorem read_config_file_line_eq (s : NoSweatConfigFileParser L) (line : Str) :
    read_config_file_line s line =
      match overlay_tokens line with
      | none => s
      | some (enforce_type, key, value) => overlay_dispatch s enforce_type key value := by
  unfold read_config_file_line overlay_tokens overlay_dispatch
  simp only []
  split_ifs <;> simp_all

/-! ## Registration of default values -/

theorem is_key_available_eq_true (s : NoSweatConfigFileParser L) (key : Str) :
    is_key_available s key = true ↔ ∀ T, holds s T key = false := by
  unfold is_key_available
  constructor
  · intro h T
    cases T <;> simp only [holds] <;> split_ifs at h <;> simp_all
  · intro h
    have h1 := h .int
    have h2 := h .float
    have h3 := h .string
    have h4 := h .bool
    simp only [holds] at h1 h2 h3 h4
    simp [h1, h2, h3, h4]

theorem is_key_available_eq_false (s : NoSweatConfigFileParser L) (key : Str) :
    is_key_available s key = false ↔ ∃ T, holds s T key = true := by
  rw [← Bool.not_eq_true, is_key_available_eq_true]
  simp

theorem default_dispatch_of_taken (s : NoSweatConfigFileParser L) (type key value : Str)
    (h : is_key_available s key = false) : default_dispatch s type key value = s := by
  simp [default_dispatch, add_default_integer_value, add_default_float_value,
    add_default_string_value, add_default_bool_value, h]

/-- The maps of `default_dispatch s type key value` at a key other than `key`. -/
theorem default_dispatch_of_ne (s : NoSweatConfigFileParser L) (type key value k : Str)
    (h : k ≠ key) :
    (default_dispatch s type key value).integer_config_values_ k = s.integer_config_values_ k ∧
    (default_dispatch s type key value).float_config_values_ k = s.float_config_values_ k ∧
    (default_dispatch s type key value).string_config_values_ k = s.string_config_values_ k ∧
    (default_dispatch s type key value).bool_config_values_ k = s.bool_config_values_ k := by
  unfold default_dispatch add_default_integer_value add_default_float_value
    add_default_string_value add_default_bool_value
  split_ifs <;> (try split) <;> simp [map_assign, h]

/-- A taken key keeps its four map entries through any declaration. -/
theorem default_dispatch_frame (s : NoSweatConfigFileParser L) (type key value k : Str)
    (h : is_key_available s k = false) :
    (default_dispatch s type key value).integer_config_values_ k = s.integer_config_values_ k ∧
    (default_dispatch s type key value).float_config_values_ k = s.float_config_values_ k ∧
    (default_dispatch s type key value).string_config_values_ k = s.string_config_values_ k ∧
    (default_dispatch s type key value).bool_config_values_ k = s.bool_config_values_ k := by
  by_cases hk : k = key
  · subst hk
    rw [default_dispatch_of_taken s type k value h]
    exact ⟨rfl, rfl, rfl, rfl⟩
  · exact default_dispatch_of_ne s type key value k hk

theorem default_dispatch_paths (s : NoSweatConfigFileParser L) (type key value : Str) :
    (default_dispatch s type key value).default_config_file_ = s.default_config_file_ ∧
    (default_dispatch s type key value).config_file_ = s.config_file_ := by
  unfold default_dispatch add_default_integer_value add_default_float_value
    add_default_string_value add_default_bool_value
  split_ifs <;> (try split) <;> simp

/-- A key held after a declaration was held before it or is the declared key. -/
theorem default_dispatch_holds (s : NoSweatConfigFileParser L) (type key value k : Str)
    (T : VType) (h : holds (default_dispatch s type key value) T k = true) :
    holds s T k = true ∨ (k = key ∧ is_key_available s key = true) := by
  by_cases hk : k = key
  · subst hk
    cases ha : is_key_available s k
    · rw [default_dispatch_of_taken s type k value ha] at h
      exact Or.inl h
    · exact Or.inr ⟨rfl, rfl⟩
  · left
    obtain ⟨h1, h2, h3, h4⟩ := default_dispatch_of_ne s type key value k hk
    cases T <;> simp only [holds] at h ⊢ <;> simp_all

/-- A declaration puts its key in at most one map. -/
theorem default_dispatch_holds_key (s : NoSweatConfigFileParser L) (type key value : Str)
    (ha : is_key_available s key = true) (T M : VType)
    (hT : holds (default_dispatch s type key value) T key = true)
    (hM : holds (default_dispatch s type key value) M key = true) : T = M := by
  rw [is_key_available_eq_true] at ha
  have h1 := ha .int
  have h2 := ha .float
  have h3 := ha .string
  have h4 := ha .bool
  simp only [holds] at h1 h2 h3 h4
  revert hT hM
  unfold default_dispatch add_default_integer_value add_default_float_value
    add_default_string_value add_default_bool_value
  split_ifs <;> (try split) <;> cases T <;> cases M <;> simp [holds, map_assign, h1, h2, h3, h4]

theorem default_dispatch_disjoint (s : NoSweatConfigFileParser L) (type key value : Str)
    (hd : KeysDisjoint s) : KeysDisjoint (default_dispatch s type key value) := by
  intro k T M hT hM
  rcases default_dispatch_holds s type key value k T hT with h1 | ⟨rfl, ha⟩
  · have hav : is_key_available s k = false := (is_key_available_eq_false s k).2 ⟨T, h1⟩
    obtain ⟨e1, e2, e3, e4⟩ := default_dispatch_frame s type key value k hav
    apply hd k T M h1
    cases M <;> simp only [holds] at hM ⊢ <;> simp_all
  · exact default_dispatch_holds_key s type k value ha T M hT hM

/-! ## The setters -/

theorem map_assign_second_isSome {V : Type} (m : Str → Option (V × V)) (dflt : V × V)
    (key k : Str) (v : V) (h : m key ≠ none) :
    (map_assign_second m dflt key v k).isSome = (m k).isSome := by
  unfold map_assign_second
  split_ifs with hk
  · subst hk
    cases hm : m k <;> simp_all
  · rfl

theorem map_assign_second_fst {V : Type} (m : Str → Option (V × V)) (dflt : V × V)
    (key k : Str) (v : V) (h : m key ≠ none) :
    (map_assign_second m dflt key v k).map Prod.fst = (m k).map Prod.fst := by
  unfold map_assign_second
  split_ifs with hk
  · subst hk
    cases hm : m k <;> simp_all
  · rfl

/-- No setter adds or removes a key. -/
theorem overlay_dispatch_keys (s : NoSweatConfigFileParser L) (et key value k : Str) :
    ((overlay_dispatch s et key value).integer_config_values_ k).isSome
      = (s.integer_config_values_ k).isSome ∧
    ((overlay_dispatch s et key value).float_config_values_ k).isSome
      = (s.float_config_values_ k).isSome ∧
    ((overlay_dispatch s et key value).string_config_values_ k).isSome
      = (s.string_config_values_ k).isSome ∧
    ((overlay_dispatch s et key value).bool_config_values_ k).isSome
      = (s.bool_config_values_ k).isSome := by
  unfold overlay_dispatch set_value set_integer_value set_float_value set_string_value
    set_bool_value
  split_ifs with h1 h2 h3 h4 h5 h6 h7 h8 h9 <;> (try split) <;>
    simp only [and_self, true_and, and_true] <;>
    apply map_assign_second_isSome <;> simp_all [Option.isNone_iff_eq_none]

theorem overlay_dispatch_holds (s : NoSweatConfigFileParser L) (et key value k : Str)
    (T : VType) : holds (overlay_dispatch s et key value) T k = holds s T k := by
  obtain ⟨h1, h2, h3, h4⟩ := overlay_dispatch_keys s et key value k
  cases T <;> simp only [holds] <;> assumption

/-- No setter changes a default value (the first component of a pair). -/
theorem overlay_dispatch_fst (s : NoSweatConfigFileParser L) (et key value k : Str) :
    ((overlay_dispatch s et key value).integer_config_values_ k).map Prod.fst
      = (s.integer_config_values_ k).map Prod.fst ∧
    ((overlay_dispatch s et key value).float_config_values_ k).map Prod.fst
      = (s.float_config_values_ k).map Prod.fst ∧
    ((overlay_dispatch s et key value).string_config_values_ k).map Prod.fst
      = (s.string_config_values_ k).map Prod.fst ∧
    ((overlay_dispatch s et key value).bool_config_values_ k).map Prod.fst
      = (s.bool_config_values_ k).map Prod.fst := by
  unfold overlay_dispatch set_value set_integer_value set_float_value set_string_value
    set_bool_value
  split_ifs with h1 h2 h3 h4 h5 h6 h7 h8 h9 <;> (try split) <;>
    simp only [and_self, true_and, and_true] <;>
    apply map_assign_second_fst <;> simp_all [Option.isNone_iff_eq_none]

theorem overlay_dispatch_paths (s : NoSweatConfigFileParser L) (et key value : Str) :
    (overlay_dispatch s et key value).default_config_file_ = s.default_config_file_ ∧
    (overlay_dispatch s et key value).config_file_ = s.config_file_ := by
  unfold overlay_dispatch set_value set_integer_value set_float_value set_string_value
    set_bool_value
  split_ifs <;> (try split) <;> simp

/-- The maps of `overlay_dispatch s et key value` at a key other than `key`. -/
theorem overlay_dispatch_of_ne (s : NoSweatConfigFileParser L) (et key value k : Str)
    (h : k ≠ key) :
    (overlay_dispatch s et key value).integer_config_values_ k = s.integer_config_values_ k ∧
    (overlay_dispatch s et key value).float_config_values_ k = s.float_config_values_ k ∧
    (overlay_dispatch s et key value).string_config_values_ k = s.string_config_values_ k ∧
    (overlay_dispatch s et key value).bool_config_values_ k = s.bool_config_values_ k := by
  unfold overlay_dispatch set_value set_integer_value set_float_value set_string_value
    set_bool_value
  split_ifs <;> (try split) <;> simp [map_assign_second, h]

/-- A setter called for a key that its map does not hold changes nothing. -/
theorem overlay_dispatch_typed_missing (s : NoSweatConfigFileParser L) (T : VType)
    (key value : Str) (h : holds s T key = false) :
    overlay_dispatch s T.name key value = s := by
  cases T <;> simp [holds] at h <;>
    simp [overlay_dispatch, VType.name, set_integer_value, set_float_value, set_string_value,
      set_bool_value, h]

/-- A line whose key is in no map changes nothing. -/
theorem overlay_dispatch_missing (s : NoSweatConfigFileParser L) (et key value : Str)
    (h : ∀ T, holds s T key = false) : overlay_dispatch s et key value = s := by
  have h1 := h .int
  have h2 := h .float
  have h3 := h .string
  have h4 := h .bool
  simp only [holds] at h1 h2 h3 h4
  unfold overlay_dispatch set_value set_integer_value set_float_value set_string_value
    set_bool_value
  split_ifs <;> simp_all

/-- A value that fails to convert to the type under which the key is found changes nothing. -/
theorem overlay_dispatch_conversion_fails (s : NoSweatConfigFileParser L) (T : VType)
    (et key value : Str) (hk : key_type s key = some T) (het : et = [] ∨ et = T.name)
    (hf : conversion_fails L T value = true) : overlay_dispatch s et key value = s := by
  rcases het with rfl | rfl
  · revert hk
    unfold key_type overlay_dispatch set_value set_integer_value set_float_value set_string_value
      set_bool_value
    simp only [holds]
    cases T <;>
      simp only [conversion_fails, Option.isNone_iff_eq_none, Bool.false_eq_true] at hf <;>
      split_ifs <;> simp_all
  · cases T <;>
      simp only [conversion_fails, Option.isNone_iff_eq_none, Bool.false_eq_true] at hf <;>
      simp [overlay_dispatch, VType.name, set_integer_value, set_float_value, set_string_value,
        set_bool_value, hf]

theorem get_int_overlay_dispatch (s : NoSweatConfigFileParser L) (key value : Str) (n : Int)
    (hk : key_type s key = some .int) (hv : stoi value = some n) :
    get_int (overlay_dispatch s [] key value) key = n := by
  revert hk
  unfold key_type overlay_dispatch set_value set_integer_value get_int
  simp only [holds]
  split_ifs <;> simp_all [map_assign_second]

theorem get_float_overlay_dispatch (s : NoSweatConfigFileParser L) (key value : Str) (x : L.F)
    (hk : key_type s key = some .float) (hv : L.stof value = some x) :
    get_float (overlay_dispatch s [] key value) key = x := by
  revert hk
  unfold key_type overlay_dispatch set_value set_float_value get_float
  simp only [holds]
  split_ifs <;> simp_all [map_assign_second]

theorem get_string_overlay_dispatch (s : NoSweatConfigFileParser L) (key value : Str)
    (hk : key_type s key = some .string) :
    get_string (overlay_dispatch s [] key value) key = value := by
  revert hk
  unfold key_type overlay_dispatch set_value set_string_value get_string
  simp only [holds]
  split_ifs <;> simp_all [map_assign_second]

theorem get_bool_overlay_dispatch (s : NoSweatConfigFileParser L) (key value : Str) (b : Bool)
    (hk : key_type s key = some .bool) (hv : bool_of_value value = some b) :
    get_bool (overlay_dispatch s [] key value) key = b := by
  revert hk
  unfold key_type overlay_dispatch set_value set_bool_value get_bool
  simp only [holds]
  split_ifs <;> simp_all [map_assign_second]

/-- In a store with disjoint maps the map that holds a key is its `key_type`. -/
theorem key_type_of_holds (s : NoSweatConfigFileParser L) (hd : KeysDisjoint s) (key : Str)
    (T : VType) (h : holds s T key = true) : key_type s key = some T := by
  unfold key_type
  split_ifs with h1 h2 h3 h4
  · rw [hd key T .int h h1]
  · rw [hd key T .float h h2]
  · rw [hd key T .string h h3]
  · rw [hd key T .bool h h4]
  · cases T <;> simp_all

theorem holds_of_key_type (s : NoSweatConfigFileParser L) (key : Str) (T : VType)
    (h : key_type s key = some T) : holds s T key = true := by
  unfold key_type at h
  split_ifs at h <;> simp_all

/-! ## Whole files -/

theorem read_config_file_line_keys (s : NoSweatConfigFileParser L) (line k : Str) :
    ((read_config_file_line s line).integer_config_values_ k).isSome
      = (s.integer_config_values_ k).isSome ∧
    ((read_config_file_line s line).float_config_values_ k).isSome
      = (s.float_config_values_ k).isSome ∧
    ((read_config_file_line s line).string_config_values_ k).isSome
      = (s.string_config_values_ k).isSome ∧
    ((read_config_file_line s line).bool_config_values_ k).isSome
      = (s.bool_config_values_ k).isSome := by
  rw [read_config_file_line_eq]
  split
  · exact ⟨rfl, rfl, rfl, rfl⟩
  · exact overlay_dispatch_keys s _ _ _ k

theorem read_config_file_line_fst (s : NoSweatConfigFileParser L) (line k : Str) :
    ((read_config_file_line s line).integer_config_values_ k).map Prod.fst
      = (s.integer_config_values_ k).map Prod.fst ∧
    ((read_config_file_line s line).float_config_values_ k).map Prod.fst
      = (s.float_config_values_ k).map Prod.fst ∧
    ((read_config_file_line s line).string_config_values_ k).map Prod.fst
      = (s.string_config_values_ k).map Prod.fst ∧
    ((read_config_file_line s line).bool_config_values_ k).map Prod.fst
      = (s.bool_config_values_ k).map Prod.fst := by
  rw [read_config_file_line_eq]
  split
  · exact ⟨rfl, rfl, rfl, rfl⟩
  · exact overlay_dispatch_fst s _ _ _ k

theorem read_config_file_line_paths (s : NoSweatConfigFileParser L) (line : Str) :
    (read_config_file_line s line).default_config_file_ = s.default_config_file_ ∧
    (read_config_file_line s line).config_file_ = s.config_file_ := by
  rw [read_config_file_line_eq]
  split
  · exact ⟨rfl, rfl⟩
  · exact overlay_dispatch_paths s _ _ _

theorem foldl_read_config_file_line_keys (lines : List Str) (s : NoSweatConfigFileParser L)
    (k : Str) :
    ((lines.foldl read_config_file_line s).integer_config_values_ k).isSome
      = (s.integer_config_values_ k).isSome ∧
    ((lines.foldl read_config_file_line s).float_config_values_ k).isSome
      = (s.float_config_values_ k).isSome ∧
    ((lines.foldl read_config_file_line s).string_config_values_ k).isSome
      = (s.string_config_values_ k).isSome ∧
    ((lines.foldl read_config_file_line s).bool_config_values_ k).isSome
      = (s.bool_config_values_ k).isSome := by
  induction lines generalizing s with
  | nil => exact ⟨rfl, rfl, rfl, rfl⟩
  | cons line rest ih =>
    obtain ⟨a1, a2, a3, a4⟩ := ih (read_config_file_line s line)
    obtain ⟨b1, b2, b3, b4⟩ := read_config_file_line_keys s line k
    simp only [List.foldl_cons]
    exact ⟨a1.trans b1, a2.trans b2, a3.trans b3, a4.trans b4⟩

theorem foldl_read_config_file_line_fst (lines : List Str) (s : NoSweatConfigFileParser L)
    (k : Str) :
    ((lines.foldl read_config_file_line s).integer_config_values_ k).map Prod.fst
      = (s.integer_config_values_ k).map Prod.fst ∧
    ((lines.foldl read_config_file_line s).float_config_values_ k).map Prod.fst
      = (s.float_config_values_ k).map Prod.fst ∧
    ((lines.foldl read_config_file_line s).string_config_values_ k).map Prod.fst
      = (s.string_config_values_ k).map Prod.fst ∧
    ((lines.foldl read_config_file_line s).bool_config_values_ k).map Prod.fst
      = (s.bool_config_values_ k).map Prod.fst := by
  induction lines generalizing s with
  | nil => exact ⟨rfl, rfl, rfl, rfl⟩
  | cons line rest ih =>
    obtain ⟨a1, a2, a3, a4⟩ := ih (read_config_file_line s line)
    obtain ⟨b1, b2, b3, b4⟩ := read_config_file_line_fst s line k
    simp only [List.foldl_cons]
    exact ⟨a1.trans b1, a2.trans b2, a3.trans b3, a4.trans b4⟩

/-- The store `read_config_file` works on: the given store with the path recorded. -/
theorem read_config_file_eq (fs : FileSystem) (s : NoSweatConfigFileParser L)
    (config_file : Str) :
    read_config_file fs s config_file =
      match fs config_file with
      | some lines => lines.foldl read_config_file_line { s with config_file_ := config_file }
      | none => { s with config_file_ := config_file } := by
  unfold read_config_file
  rfl

theorem read_config_file_keys (fs : FileSystem) (s : NoSweatConfigFileParser L)
    (config_file k : Str) :
    ((read_config_file fs s config_file).integer_config_values_ k).isSome
      = (s.integer_config_values_ k).isSome ∧
    ((read_config_file fs s config_file).float_config_values_ k).isSome
      = (s.float_config_values_ k).isSome ∧
    ((read_config_file fs s config_file).string_config_values_ k).isSome
      = (s.string_config_values_ k).isSome ∧
    ((read_config_file fs s config_file).bool_config_values_ k).isSome
      = (s.bool_config_values_ k).isSome := by
  rw [read_config_file_eq]
  split
  · exact foldl_read_config_file_line_keys _ _ k
  · exact ⟨rfl, rfl, rfl, rfl⟩

theorem read_config_file_fst (fs : FileSystem) (s : NoSweatConfigFileParser L)
    (config_file k : Str) :
    ((read_config_file fs s config_file).integer_config_values_ k).map Prod.fst
      = (s.integer_config_values_ k).map Prod.fst ∧
    ((read_config_file fs s config_file).float_config_values_ k).map Prod.fst
      = (s.float_config_values_ k).map Prod.fst ∧
    ((read_config_file fs s config_file).string_config_values_ k).map Prod.fst
      = (s.string_config_values_ k).map Prod.fst ∧
    ((read_config_file fs s config_file).bool_config_values_ k).map Prod.fst
      = (s.bool_config_values_ k).map Prod.fst := by
  rw [read_config_file_eq]
  split
  · exact foldl_read_config_file_line_fst _ _ k
  · exact ⟨rfl, rfl, rfl, rfl⟩

theorem parse_default_config_file_line_frame (s : NoSweatConfigFileParser L) (line k : Str)
    (h : is_key_available s k = false) :
    (parse_default_config_file_line s line).integer_config_values_ k
      = s.integer_config_values_ k ∧
    (parse_default_config_file_line s line).float_config_values_ k
      = s.float_config_values_ k ∧
    (parse_default_config_file_line s line).string_config_values_ k
      = s.string_config_values_ k ∧
    (parse_default_config_file_line s line).bool_config_values_ k
      = s.bool_config_values_ k := by
  rw [parse_default_config_file_line_eq]
  split
  · exact ⟨rfl, rfl, rfl, rfl⟩
  · exact default_dispatch_frame s _ _ _ k h

theorem is_key_available_congr (s s' : NoSweatConfigFileParser L) (k : Str)
    (h1 : s'.integer_config_values_ k = s.integer_config_values_ k)
    (h2 : s'.float_config_values_ k = s.float_config_values_ k)
    (h3 : s'.string_config_values_ k = s.string_config_values_ k)
    (h4 : s'.bool_config_values_ k = s.bool_config_values_ k) :
    is_key_available s' k = is_key_available s k := by
  unfold is_key_available
  rw [h1, h2, h3, h4]

theorem foldl_parse_default_config_file_line_frame (lines : List Str)
    (s : NoSweatConfigFileParser L) (k : Str) (h : is_key_available s k = false) :
    (lines.foldl parse_default_config_file_line s).integer_config_values_ k
      = s.integer_config_values_ k ∧
    (lines.foldl parse_default_config_file_line s).float_config_values_ k
      = s.float_config_values_ k ∧
    (lines.foldl parse_default_config_file_line s).string_config_values_ k
      = s.string_config_values_ k ∧
    (lines.foldl parse_default_config_file_line s).bool_config_values_ k
      = s.bool_config_values_ k := by
  induction lines generalizing s with
  | nil => exact ⟨rfl, rfl, rfl, rfl⟩
  | cons line rest ih =>
    simp only [List.foldl_cons]
    generalize hs' : parse_default_config_file_line s line = s'
    obtain ⟨b1, b2, b3, b4⟩ := parse_default_config_file_line_frame s line k h
    rw [hs'] at b1 b2 b3 b4
    have h' : is_key_available s' k = false :=
      (is_key_available_congr s s' k b1 b2 b3 b4).trans h
    obtain ⟨a1, a2, a3, a4⟩ := ih s' h'
    exact ⟨a1.trans b1, a2.trans b2, a3.trans b3, a4.trans b4⟩

theorem keysDisjoint_init (default_config_file : Str) :
    KeysDisjoint (NoSweatConfigFileParser.init L default_config_file) := by
  unfold KeysDisjoint
  intro k T M hT
  cases T <;> simp [holds, NoSweatConfigFileParser.init] at hT

theorem parse_default_config_file_line_disjoint (s : NoSweatConfigFileParser L) (line : Str)
    (hd : KeysDisjoint s) : KeysDisjoint (parse_default_config_file_line s line) := by
  rw [parse_default_config_file_line_eq]
  split
  · exact hd
  · exact default_dispatch_disjoint s _ _ _ hd

theorem foldl_parse_default_config_file_line_disjoint (lines : List Str)
    (s : NoSweatConfigFileParser L) (hd : KeysDisjoint s) :
    KeysDisjoint (lines.foldl parse_default_config_file_line s) := by
  induction lines generalizing s with
  | nil => exact hd
  | cons line rest ih =>
    simp only [List.foldl_cons]
    have hd' := parse_default_config_file_line_disjoint s line hd
    generalize parse_default_config_file_line s line = s' at hd'
    exact ih s' hd'

/-- The store built by the one-argument constructor, as a fold over the lines of the file. -/
theorem new1_eq (L : FloatLib) (fs : FileSystem) (default_config_file : Str)
    (lines : List Str) (h : fs default_config_file = some lines) :
    NoSweatConfigFileParser.new1 L fs default_config_file =
      lines.foldl parse_default_config_file_line
        (NoSweatConfigFileParser.init L default_config_file) := by
  unfold NoSweatConfigFileParser.new1 parse_default_config_file
  simp [NoSweatConfigFileParser.init, h]

theorem new1_disjoint (L : FloatLib) (fs : FileSystem) (default_config_file : Str) :
    KeysDisjoint (NoSweatConfigFileParser.new1 L fs default_config_file) := by
  cases h : fs default_config_file with
  | none =>
    have e : NoSweatConfigFileParser.new1 L fs default_config_file
        = NoSweatConfigFileParser.init L default_config_file := by
      unfold NoSweatConfigFileParser.new1 parse_default_config_file
      simp [NoSweatConfigFileParser.init, h]
    rw [e]
    exact keysDisjoint_init _
  | some lines =>
    rw [new1_eq L fs default_config_file lines h]
    exact foldl_parse_default_config_file_line_disjoint _ _ (keysDisjoint_init _)

/-! ## String searches and `trim` -/

theorem take_findIdx {α : Type} (p : α → Bool) (l : List α) :
    l.take (l.findIdx p) = l.takeWhile (fun x => !p x) := by
  induction l with
  | nil => rfl
  | cons a l ih =>
    rw [List.findIdx_cons, List.takeWhile_cons]
    cases h : p a <;> simp [ih]

theorem drop_findIdx {α : Type} (p : α → Bool) (l : List α) :
    l.drop (l.findIdx p) = l.dropWhile (fun x => !p x) := by
  induction l with
  | nil => rfl
  | cons a l ih =>
    rw [List.findIdx_cons, List.dropWhile_cons]
    cases h : p a <;> simp [ih]

theorem not_whitespace_fun :
    (fun x => !decide (x ∉ whitespace_chars)) = is_whitespace := by
  funext x
  simp [is_whitespace]

theorem substr_zero (str : Str) (n : Nat) : substr str 0 n = str.take n := by
  unfold substr
  simp only [List.drop_zero, Nat.sub_zero]
  rw [List.take_eq_take]
  omega

theorem substr_npos (str : Str) (pos : Nat) (h : str.length ≤ npos) :
    substr str pos npos = str.drop pos := by
  unfold substr
  apply List.take_of_length_le
  rw [List.length_drop]
  unfold npos at *
  omega

theorem erase_zero (str : Str) (n : Nat) : erase str 0 n = str.drop n := by
  unfold erase
  simp only [List.take_zero, List.nil_append, Nat.zero_add, Nat.sub_zero]
  rcases Nat.le_total n str.length with h | h
  · rw [Nat.min_eq_left h]
  · rw [Nat.min_eq_right h, List.drop_of_length_le h, List.drop_of_length_le (Nat.le_refl _)]

theorem erase_npos (str : Str) (pos : Nat) (h : str.length ≤ npos) :
    erase str pos npos = str.take pos := by
  unfold erase
  have : str.drop (pos + min npos (str.length - pos)) = [] := by
    apply List.drop_of_length_le
    unfold npos at *
    omega
  rw [this, List.append_nil]

theorem find_first_not_of_whitespace (str : Str) (h : str.length ≤ npos) :
    erase str 0 (find_first_not_of str whitespace_chars) = str.dropWhile is_whitespace := by
  rw [erase_zero]
  unfold find_first_not_of
  simp only []
  split_ifs with hi
  · rw [drop_findIdx, not_whitespace_fun]
  · have hlen : str.findIdx (fun c => decide (c ∉ whitespace_chars)) = str.length :=
      Nat.le_antisymm (List.findIdx_le_length _) (Nat.le_of_not_lt hi)
    rw [List.drop_of_length_le h]
    symm
    rw [List.dropWhile_eq_nil_iff]
    intro x hx
    have := (List.findIdx_eq_length.1 hlen) x hx
    simpa [is_whitespace] using this

theorem erase_find_last_not_of_whitespace (str : Str) (h : str.length ≤ npos) :
    erase str (size_add (find_last_not_of str whitespace_chars) 1) npos
      = str.rdropWhile is_whitespace := by
  rw [erase_npos _ _ h]
  unfold find_last_not_of
  simp only []
  have hrd : str.rdropWhile is_whitespace
      = (str.reverse.drop (str.reverse.findIdx (fun c => decide (c ∉ whitespace_chars)))).reverse := by
    rw [drop_findIdx, not_whitespace_fun]
    rfl
  have hle : str.reverse.findIdx (fun c => decide (c ∉ whitespace_chars)) ≤ str.length := by
    have := @List.findIdx_le_length _ (fun c => decide (c ∉ whitespace_chars)) str.reverse
    simpa using this
  rw [hrd]
  generalize str.reverse.findIdx (fun c => decide (c ∉ whitespace_chars)) = j at hle ⊢
  split_ifs with hj
  · have e : size_add (str.length - 1 - j) 1 = str.length - j := by
      unfold size_add
      unfold npos at h
      omega
    rw [e, List.drop_reverse, List.reverse_reverse]
  · have e : size_add npos 1 = 0 := by decide
    have hj' : j = str.length := by omega
    rw [e, hj', List.drop_reverse, List.reverse_reverse]
    simp

theorem length_dropWhile_le {α : Type} (p : α → Bool) (l : List α) :
    (l.dropWhile p).length ≤ l.length :=
  (List.dropWhile_suffix p).length_le

/-- On every string that C++ can hold, `trim` removes the longest whitespace prefix and the
longest whitespace suffix. -/
theorem trim_eq_strip (str : Str) (h : str.length ≤ npos) : trim str = strip str := by
  unfold trim strip
  simp only []
  rw [find_first_not_of_whitespace str h]
  exact erase_find_last_not_of_whitespace _ (Nat.le_trans (length_dropWhile_le _ _) h)

/-! ## Removing a whitespace prefix and suffix -/

theorem rdropWhile_append_of_exists {α : Type} (p : α → Bool) (a b : List α)
    (h : ∃ x ∈ b, p x = false) : (a ++ b).rdropWhile p = a ++ b.rdropWhile p := by
  unfold List.rdropWhile
  rw [List.reverse_append, List.dropWhile_append]
  have hne : (List.dropWhile p b.reverse).isEmpty = false := by
    rw [Bool.eq_false_iff]
    intro he
    rw [List.isEmpty_iff, List.dropWhile_eq_nil_iff] at he
    obtain ⟨x, hx, hpx⟩ := h
    have := he x (List.mem_reverse.2 hx)
    simp [hpx] at this
  simp [hne]

theorem rdropWhile_append_of_all {α : Type} (p : α → Bool) (a w : List α)
    (h : ∀ x ∈ w, p x = true) : (a ++ w).rdropWhile p = a.rdropWhile p := by
  unfold List.rdropWhile
  rw [List.reverse_append, List.dropWhile_append_of_pos]
  intro x hx
  exact h x (List.mem_reverse.1 hx)

theorem dropWhile_eq_self_iff_head {α : Type} (p : α → Bool) (l : List α) :
    l.dropWhile p = l ↔ ∀ c, l.head? = some c → p c = false := by
  cases l with
  | nil => simp
  | cons a l =>
    rw [List.dropWhile_cons]
    cases h : p a
    · simp [h]
    · simp only [h, if_true, List.head?_cons, Option.some.injEq, forall_eq']
      constructor
      · intro e
        have := (@List.dropWhile_suffix _ l p).length_le
        rw [e] at this
        simp at this
      · intro e
        simp at e

theorem rdropWhile_eq_self_iff_getLast {α : Type} (p : α → Bool) (l : List α) :
    l.rdropWhile p = l ↔ ∀ c, l.getLast? = some c → p c = false := by
  unfold List.rdropWhile
  rw [List.reverse_eq_iff, dropWhile_eq_self_iff_head, List.head?_reverse]

theorem dropWhile_rdropWhile_comm {α : Type} (p : α → Bool) (l : List α) :
    (l.rdropWhile p).dropWhile p = (l.dropWhile p).rdropWhile p := by
  by_cases hall : ∀ x ∈ l, p x = true
  · rw [List.rdropWhile_eq_nil_iff.2 hall, List.dropWhile_eq_nil_iff.2 hall]
    rfl
  · have hy : l.dropWhile p ≠ [] := fun e => hall (List.dropWhile_eq_nil_iff.1 e)
    obtain ⟨c, y, hcy⟩ := List.exists_cons_of_ne_nil hy
    have hpc : p c = false := by
      have := List.head?_dropWhile_not p l
      rw [hcy] at this
      simpa using this
    have hdec : l = l.takeWhile p ++ c :: y := by
      rw [← hcy, List.takeWhile_append_dropWhile]
    have hr : l.rdropWhile p = l.takeWhile p ++ (c :: y).rdropWhile p := by
      conv_lhs => rw [hdec]
      exact rdropWhile_append_of_exists p _ _ ⟨c, List.mem_cons_self _ _, hpc⟩
    have hpre : (c :: y).rdropWhile p <+: c :: y := List.rdropWhile_prefix p _
    have hne : (c :: y).rdropWhile p ≠ [] := by
      intro e
      have := List.rdropWhile_eq_nil_iff.1 e c (List.mem_cons_self _ _)
      simp [hpc] at this
    obtain ⟨c', t, ht⟩ := List.exists_cons_of_ne_nil hne
    have hc' : c' = c := by
      rw [ht] at hpre
      obtain ⟨u, hu⟩ := hpre
      simp at hu
      exact hu.1
    subst hc'
    rw [hr, hcy, ht, List.dropWhile_append_of_pos (fun a ha => List.mem_takeWhile_imp ha),
      List.dropWhile_cons_of_neg (by simp [hpc])]

theorem strip_eq_nil_iff (s : Str) : strip s = [] ↔ ∀ c ∈ s, is_whitespace c = true := by
  unfold strip
  rw [List.rdropWhile_eq_nil_iff]
  constructor
  · intro h c hc
    by_contra hn
    have hne : s.dropWhile is_whitespace ≠ [] := by
      intro e
      exact hn (List.dropWhile_eq_nil_iff.1 e c hc)
    obtain ⟨d, y, hdy⟩ := List.exists_cons_of_ne_nil hne
    have hd : is_whitespace d = false := by
      have := List.head?_dropWhile_not is_whitespace s
      rw [hdy] at this
      simpa using this
    have := h d (by rw [hdy]; exact List.mem_cons_self _ _)
    simp [hd] at this
  · intro h c hc
    exact h c ((List.dropWhile_sublist _).subset hc)

theorem strip_ne_nil_iff (s : Str) : strip s ≠ [] ↔ ∃ c ∈ s, is_whitespace c = false := by
  rw [Ne, strip_eq_nil_iff]
  simp

theorem strip_subset (s : Str) : ∀ c ∈ strip s, c ∈ s := by
  intro c hc
  unfold strip at hc
  exact (List.dropWhile_sublist _).subset ((List.rdropWhile_prefix _ _).sublist.subset hc)

theorem length_strip_le (s : Str) : (strip s).length ≤ s.length := by
  unfold strip
  exact Nat.le_trans (List.rdropWhile_prefix _ _).length_le (length_dropWhile_le _ _)

theorem strip_rdropWhile (s : Str) : strip (s.rdropWhile is_whitespace) = strip s := by
  unfold strip
  rw [dropWhile_rdropWhile_comm, List.rdropWhile_idempotent]

theorem strip_dropWhile (s : Str) : strip (s.dropWhile is_whitespace) = strip s := by
  unfold strip
  rw [List.dropWhile_idempotent]

theorem strip_strip (s : Str) : strip (strip s) = strip s := by
  conv_lhs => unfold strip
  rw [show strip s = (s.dropWhile is_whitespace).rdropWhile is_whitespace from rfl,
    dropWhile_rdropWhile_comm, List.dropWhile_idempotent, List.rdropWhile_idempotent]

theorem strip_append_left (w s : Str) (h : ∀ c ∈ w, is_whitespace c = true) :
    strip (w ++ s) = strip s := by
  unfold strip
  rw [List.dropWhile_append_of_pos h]

theorem strip_append_right (s w : Str) (h : ∀ c ∈ w, is_whitespace c = true) :
    strip (s ++ w) = strip s := by
  unfold strip
  rw [← dropWhile_rdropWhile_comm, rdropWhile_append_of_all _ _ _ h, dropWhile_rdropWhile_comm]

theorem strip_eq_self_iff (s : Str) :
    strip s = s ↔ s.dropWhile is_whitespace = s ∧ s.rdropWhile is_whitespace = s := by
  constructor
  · intro h
    have h1 : s.dropWhile is_whitespace = s := by
      apply (List.dropWhile_suffix _).eq_of_length
      apply Nat.le_antisymm (length_dropWhile_le _ _)
      have : (strip s).length ≤ (s.dropWhile is_whitespace).length :=
        (List.rdropWhile_prefix _ _).length_le
      rw [h] at this
      exact this
    refine ⟨h1, ?_⟩
    unfold strip at h
    rw [h1] at h
    exact h
  · rintro ⟨h1, h2⟩
    unfold strip
    rw [h1, h2]

theorem trim_trim (s : Str) (h : s.length ≤ npos) : trim (trim s) = trim s := by
  rw [trim_eq_strip s h, trim_eq_strip _ (Nat.le_trans (length_strip_le s) h), strip_strip]

/-! ## Splitting a line at the assignment character -/

theorem find_first_of_append (chars a b : Str) (op : Char) (ha : ∀ c ∈ a, c ∉ chars)
    (hop : op ∈ chars) : find_first_of (a ++ op :: b) chars = a.length := by
  unfold find_first_of
  have h1 : a.findIdx (fun c => decide (c ∈ chars)) = a.length :=
    List.findIdx_eq_length_of_false (fun x hx => by simpa using ha x hx)
  have h2 : (a ++ op :: b).findIdx (fun c => decide (c ∈ chars)) = a.length := by
    rw [List.findIdx_append, h1, List.findIdx_cons]
    simp [hop]
  simp only [h2, List.length_append, List.length_cons]
  rw [if_pos (by omega)]

theorem find_first_of_eq_npos (chars s : Str) (h : ∀ c ∈ s, c ∉ chars) :
    find_first_of s chars = npos := by
  unfold find_first_of
  have h1 : s.findIdx (fun c => decide (c ∈ chars)) = s.length :=
    List.findIdx_eq_length_of_false (fun x hx => by simpa using h x hx)
  simp [h1]

theorem findIdx_tails_single (c : Char) (s : Str) :
    s.tails.findIdx (fun t => decide ([c] <+: t)) =
      if s.findIdx (fun x => decide (x ∈ [c])) < s.length
      then s.findIdx (fun x => decide (x ∈ [c])) else s.length + 1 := by
  induction s with
  | nil => simp [List.findIdx_cons]
  | cons x s ih =>
    rw [List.tails_cons, List.findIdx_cons, List.findIdx_cons, ih]
    by_cases hx : x = c
    · subst hx
      simp
    · have h1 : decide ([c] <+: x :: s) = false := by
        simp only [decide_eq_false_iff_not]
        rintro ⟨t, ht⟩
        simp at ht
        exact hx ht.1.symm
      have h2 : decide (x ∈ [c]) = false := by simp [hx]
      rw [h1, h2]
      simp only [cond_false, List.length_cons, Nat.add_lt_add_iff_right]
      split_ifs <;> rfl

/-- Searching for a one-character string is searching for the character. -/
theorem find_single (c : Char) (s : Str) : find s [c] = find_first_of s [c] := by
  unfold find find_first_of
  simp only []
  rw [findIdx_tails_single]
  split_ifs with h1 h2 h3
  · rfl
  · omega
  · omega
  · rfl

theorem starts_with_iff (str sub : Str) : starts_with str sub = true ↔ sub <+: str := by
  unfold starts_with
  simp only []
  split_ifs with h1 h2
  · have : sub = [] := List.eq_nil_of_length_eq_zero h1
    simp [this]
  · simp only [true_iff]
    rw [substr_zero] at h2
    rw [← h2]
    exact List.take_prefix _ _
  · simp only [Bool.false_eq_true, false_iff]
    intro hp
    apply h2
    rw [substr_zero]
    exact (List.prefix_iff_eq_take.1 hp).symm

theorem size_add_one (n : Nat) (h : n < npos) : size_add n 1 = n + 1 := by
  unfold size_add
  unfold npos at h
  omega

theorem size_sub_one (n : Nat) (h0 : 0 < n) (h : n ≤ npos) : size_sub n 1 = n - 1 := by
  unfold size_sub
  unfold npos at h
  omega

/-- The pieces that both parsers cut out of a line `A ++ op :: rest` whose first assignment
character is `op`. -/
theorem split_at_assignment (chars A rest : Str) (op : Char) (hop : op ∈ chars)
    (hA : ∀ c ∈ A, c ∉ chars) (hne : A ≠ [])
    (hhead : ∀ c, A.head? = some c → is_whitespace c = false)
    (hrest : ∃ c ∈ rest, is_whitespace c = false)
    (hlen : (A ++ op :: rest).length ≤ npos) :
    trim (A ++ op :: rest) = A ++ op :: rest.rdropWhile is_whitespace ∧
    find_first_of (trim (A ++ op :: rest)) chars = A.length ∧
    A.length ≠ npos ∧ A.length ≠ 0 ∧
    A.length ≠ size_sub (trim (A ++ op :: rest)).length 1 ∧
    trim (substr (trim (A ++ op :: rest)) 0 A.length) = strip A ∧
    trim (substr (trim (A ++ op :: rest)) (size_add A.length 1) npos) = strip rest := by
  have hlen' : A.length + (rest.length + 1) ≤ npos := by
    simpa [List.length_append] using hlen
  have hr : rest.rdropWhile is_whitespace ≠ [] := by
    intro e
    obtain ⟨c, hc, hw⟩ := hrest
    have := List.rdropWhile_eq_nil_iff.1 e c hc
    simp [hw] at this
  have hrl : (rest.rdropWhile is_whitespace).length ≤ rest.length :=
    (List.rdropWhile_prefix _ _).length_le
  have hrpos : 0 < (rest.rdropWhile is_whitespace).length := List.length_pos.2 hr
  have hcl : trim (A ++ op :: rest) = A ++ op :: rest.rdropWhile is_whitespace := by
    rw [trim_eq_strip _ hlen]
    unfold strip
    have hd : (A ++ op :: rest).dropWhile is_whitespace = A ++ op :: rest := by
      rw [dropWhile_eq_self_iff_head]
      intro c hc
      apply hhead c
      cases A with
      | nil => exact absurd rfl hne
      | cons a A => simpa using hc
    rw [hd]
    obtain ⟨c, hc, hw⟩ := hrest
    rw [rdropWhile_append_of_exists _ _ _ ⟨c, List.mem_cons_of_mem _ hc, hw⟩]
    congr 1
    exact rdropWhile_append_of_exists _ [op] rest ⟨c, hc, hw⟩
  have hAl : A.length ≠ 0 := fun e => hne (List.eq_nil_of_length_eq_zero e)
  rw [hcl]
  refine ⟨rfl, find_first_of_append chars A _ op hA hop, ?_, hAl, ?_, ?_, ?_⟩
  · omega
  · rw [size_sub_one _ (by simp) (by simp only [List.length_append, List.length_cons]; omega)]
    simp only [List.length_append, List.length_cons]
    omega
  · rw [substr_zero, List.take_left' rfl]
    exact trim_eq_strip A (by omega)
  · rw [size_add_one _ (by omega),
      substr_npos _ _ (by simp only [List.length_append, List.length_cons]; omega)]
    have : (A ++ op :: rest.rdropWhile is_whitespace).drop (A.length + 1)
        = rest.rdropWhile is_whitespace := by
      rw [show A ++ op :: rest.rdropWhile is_whitespace
        = (A ++ [op]) ++ rest.rdropWhile is_whitespace by simp]
      exact List.drop_left' (by simp)
    rw [this, trim_eq_strip _ (by omega), strip_rdropWhile]

/-! ## The tokens of well-shaped lines -/

theorem name_not_assignment (T : VType) (chars : Str)
    (h : chars = accepted_assignment_operators_ ∨ chars = ['=', ':']) :
    ∀ c ∈ T.name ++ [' '], c ∉ chars := by
  rcases h with rfl | rfl <;> cases T <;> decide

theorem name_head (T : VType) (mid : Str) :
    ∀ c, (T.name ++ ' ' :: mid).head? = some c → is_whitespace c = false := by
  cases T <;> simp [VType.name] <;> decide

theorem name_space_mem (T : VType) : T.name ++ [' '] ∈ accepted_value_types_ := by
  cases T <;> decide

theorem strip_name (T : VType) : strip T.name = T.name := by
  cases T <;> decide

/-- The part of a declaration before the assignment character, trimmed. -/
theorem strip_name_space (T : VType) (mid : Str) (hk : strip mid ≠ []) :
    strip (T.name ++ ' ' :: mid) = T.name ++ ' ' :: mid.rdropWhile is_whitespace := by
  unfold strip
  rw [(dropWhile_eq_self_iff_head _ _).2 (name_head T mid)]
  obtain ⟨c, hc, hw⟩ := (strip_ne_nil_iff mid).1 hk
  rw [show T.name ++ ' ' :: mid = (T.name ++ [' ']) ++ mid by simp,
    rdropWhile_append_of_exists _ _ _ ⟨c, hc, hw⟩]
  simp

theorem any_starts_with_name (T : VType) (tail : Str) :
    accepted_value_types_.any (fun type => starts_with (T.name ++ ' ' :: tail) type) = true := by
  rw [List.any_eq_true]
  refine ⟨T.name ++ [' '], name_space_mem T, ?_⟩
  rw [starts_with_iff]
  exact ⟨tail, by simp⟩

/-- The tokens of a declaration line: the keyword, the trimmed text up to the first assignment
character, and the trimmed text after it. -/
theorem default_tokens_of_declaration (T : VType) (mid rest : Str) (op : Char)
    (hop : op ∈ accepted_assignment_operators_)
    (hmid : ∀ c ∈ mid, c ∉ accepted_assignment_operators_)
    (hk : strip mid ≠ []) (hv : strip rest ≠ [])
    (hlen : (T.name ++ ' ' :: (mid ++ op :: rest)).length ≤ npos) :
    default_tokens (T.name ++ ' ' :: (mid ++ op :: rest))
      = some (T.name, strip mid, strip rest) := by
  have hassoc : T.name ++ ' ' :: (mid ++ op :: rest) = (T.name ++ ' ' :: mid) ++ op :: rest := by
    simp
  have hA : ∀ c ∈ T.name ++ ' ' :: mid, c ∉ accepted_assignment_operators_ := by
    intro c hc
    rw [show T.name ++ ' ' :: mid = (T.name ++ [' ']) ++ mid by simp, List.mem_append] at hc
    rcases hc with hc | hc
    · exact name_not_assignment T _ (Or.inl rfl) c hc
    · exact hmid c hc
  have hne : T.name ++ ' ' :: mid ≠ [] := by simp
  rw [hassoc] at hlen ⊢
  obtain ⟨h1, h2, h3, _, h5, h6, h7⟩ := split_at_assignment accepted_assignment_operators_
    (T.name ++ ' ' :: mid) rest op hop hA hne (name_head T mid) ((strip_ne_nil_iff rest).1 hv) hlen
  have hlen' : T.name.length + (mid.length + 1) + (rest.length + 1) ≤ npos := by
    have := hlen
    simp only [List.length_append, List.length_cons] at this
    omega
  have hml : (mid.rdropWhile is_whitespace).length ≤ mid.length :=
    (List.rdropWhile_prefix _ _).length_le
  have hany : accepted_value_types_.any
      (fun type => starts_with (trim ((T.name ++ ' ' :: mid) ++ op :: rest)) type) = true := by
    rw [h1, List.append_assoc]
    exact any_starts_with_name T _
  have hsp : find (T.name ++ ' ' :: mid.rdropWhile is_whitespace) [' '] = T.name.length := by
    rw [find_single]
    apply find_first_of_append
    · cases T <;> decide
    · simp
  have hTl : T.name.length < npos := by cases T <;> decide
  unfold default_tokens
  simp only []
  rw [if_neg (not_not.2 hany), h2, if_neg (not_or.2 ⟨h3, h5⟩), h6, h7, strip_name_space T mid hk,
    if_neg (by simp [hv]), hsp, substr_zero, List.take_left' rfl,
    size_add_one _ hTl,
    substr_npos _ _ (by simp only [List.length_append, List.length_cons]; omega)]
  have hdrop : (T.name ++ ' ' :: mid.rdropWhile is_whitespace).drop (T.name.length + 1)
      = mid.rdropWhile is_whitespace := by
    rw [show T.name ++ ' ' :: mid.rdropWhile is_whitespace
      = (T.name ++ [' ']) ++ mid.rdropWhile is_whitespace by simp]
    exact List.drop_left' (by simp)
  rw [hdrop, trim_eq_strip (mid.rdropWhile is_whitespace) (by omega), strip_rdropWhile,
    trim_eq_strip T.name (Nat.le_of_lt hTl), strip_name]

/-- The tokens of an overlay line that does not begin with a type keyword: no enforced type,
the trimmed text before the first assignment character, the trimmed text after it. -/
theorem overlay_tokens_of_assignment (A rest : Str) (op : Char) (hop : op ∈ ['=', ':'])
    (hA : ∀ c ∈ A, c ∉ ['=', ':']) (hne : A ≠ [])
    (hhead : ∀ c, A.head? = some c → is_whitespace c = false)
    (hrest : ∃ c ∈ rest, is_whitespace c = false)
    (hlen : (A ++ op :: rest).length ≤ npos)
    (hnot : ∀ type ∈ accepted_value_types_, ¬ type <+: A ++ op :: rest) :
    overlay_tokens (A ++ op :: rest) = some ([], strip A, strip rest) := by
  obtain ⟨h1, h2, h3, h4, h5, h6, h7⟩ :=
    split_at_assignment ['=', ':'] A rest op hop hA hne hhead hrest hlen
  have hany : accepted_value_types_.any
      (fun type => starts_with (trim (A ++ op :: rest)) type) = false := by
    rw [List.any_eq_false]
    intro type ht hs
    rw [starts_with_iff, h1] at hs
    apply hnot type ht
    refine hs.trans ?_
    obtain ⟨u, hu⟩ := List.rdropWhile_prefix is_whitespace rest
    exact ⟨u, by rw [List.append_assoc, List.cons_append, hu]⟩
  unfold overlay_tokens
  simp only []
  rw [h2, if_neg (not_or.2 ⟨h3, not_or.2 ⟨h4, h5⟩⟩), h6, h7, hany]
  simp

/-- The tokens of an overlay line that begins with a type keyword and a space. -/
theorem overlay_tokens_of_typed (T : VType) (mid rest : Str) (op : Char)
    (hop : op ∈ ['=', ':']) (hmid : ∀ c ∈ mid, c ∉ ['=', ':'])
    (hk : strip mid ≠ []) (hv : strip rest ≠ [])
    (hlen : (T.name ++ ' ' :: (mid ++ op :: rest)).length ≤ npos) :
    overlay_tokens (T.name ++ ' ' :: (mid ++ op :: rest))
      = some (T.name, strip mid, strip rest) := by
  have hassoc : T.name ++ ' ' :: (mid ++ op :: rest) = (T.name ++ ' ' :: mid) ++ op :: rest := by
    simp
  have hA : ∀ c ∈ T.name ++ ' ' :: mid, c ∉ ['=', ':'] := by
    intro c hc
    rw [show T.name ++ ' ' :: mid = (T.name ++ [' ']) ++ mid by simp, List.mem_append] at hc
    rcases hc with hc | hc
    · exact name_not_assignment T _ (Or.inr rfl) c hc
    · exact hmid c hc
  have hne : T.name ++ ' ' :: mid ≠ [] := by simp
  rw [hassoc] at hlen ⊢
  obtain ⟨h1, h2, h3, h4, h5, h6, h7⟩ := split_at_assignment ['=', ':']
    (T.name ++ ' ' :: mid) rest op hop hA hne (name_head T mid) ((strip_ne_nil_iff rest).1 hv) hlen
  have hlen' : T.name.length + (mid.length + 1) + (rest.length + 1) ≤ npos := by
    have := hlen
    simp only [List.length_append, List.length_cons] at this
    omega
  have hml : (mid.rdropWhile is_whitespace).length ≤ mid.length :=
    (List.rdropWhile_prefix _ _).length_le
  have hany : accepted_value_types_.any
      (fun type => starts_with (trim ((T.name ++ ' ' :: mid) ++ op :: rest)) type) = true := by
    rw [h1, List.append_assoc]
    exact any_starts_with_name T _
  have hsp : find_first_of (T.name ++ ' ' :: mid.rdropWhile is_whitespace) [' ', '\t']
      = T.name.length := by
    apply find_first_of_append
    · cases T <;> decide
    · simp
  unfold overlay_tokens
  simp only []
  rw [h2, if_neg (not_or.2 ⟨h3, not_or.2 ⟨h4, h5⟩⟩), h6, h7, hany, strip_name_space T mid hk,
    hsp]
  simp only [if_true]
  rw [substr_zero, List.take_left' rfl, erase_zero]
  have hdrop : (T.name ++ ' ' :: mid.rdropWhile is_whitespace).drop T.name.length
      = [' '] ++ mid.rdropWhile is_whitespace := by
    rw [List.drop_left' rfl]
    rfl
  have hb : ([' '] ++ mid.rdropWhile is_whitespace).length ≤ npos := by
    simp only [List.length_append, List.length_cons, List.length_nil]
    omega
  rw [hdrop, trim_eq_strip _ hb, strip_append_left _ _ (by decide), strip_rdropWhile]

/-! ## The shape of registered keys -/

/-- Either no character of `chars` occurs in `s`, or `s` splits at the first one. -/
theorem find_first_of_cases (s chars : Str) :
    (find_first_of s chars = npos ∧ ∀ c ∈ s, c ∉ chars) ∨
    ∃ a op b, s = a ++ op :: b ∧ op ∈ chars ∧ (∀ c ∈ a, c ∉ chars) ∧
      find_first_of s chars = a.length := by
  by_cases h : ∀ c ∈ s, c ∉ chars
  · exact Or.inl ⟨find_first_of_eq_npos chars s h, h⟩
  · right
    have hne : s.dropWhile (fun c => decide (c ∉ chars)) ≠ [] := by
      intro e
      apply h
      intro c hc
      simpa using List.dropWhile_eq_nil_iff.1 e c hc
    obtain ⟨op, b, hob⟩ := List.exists_cons_of_ne_nil hne
    have hop : op ∈ chars := by
      have := List.head?_dropWhile_not (fun c => decide (c ∉ chars)) s
      rw [hob] at this
      simpa using this
    have hs : s = s.takeWhile (fun c => decide (c ∉ chars)) ++ op :: b := by
      rw [← hob, List.takeWhile_append_dropWhile]
    have ha : ∀ c ∈ s.takeWhile (fun c => decide (c ∉ chars)), c ∉ chars := by
      intro c hc
      simpa using List.mem_takeWhile_imp hc
    refine ⟨_, op, b, hs, hop, ha, ?_⟩
    conv_lhs => rw [hs]
    exact find_first_of_append chars _ b op ha hop

theorem length_trim_le (s : Str) (h : s.length ≤ npos) : (trim s).length ≤ s.length := by
  rw [trim_eq_strip s h]
  exact length_strip_le s

/-- The key that the default parser extracts from a line is never empty, is trimmed, and
contains no assignment character. -/
theorem default_tokens_key_shaped (line type key value : Str) (hlen : line.length ≤ npos)
    (h : default_tokens line = some (type, key, value)) : KeyShaped key := by
  unfold default_tokens at h
  simp only [] at h
  split_ifs at h with h1 h2 h3
  have hcl : (trim line).length ≤ npos := Nat.le_trans (length_trim_le line hlen) hlen
  generalize trim line = cl at h h1 h2 h3 hcl
  rw [not_or] at h2
  rcases find_first_of_cases cl accepted_assignment_operators_ with ⟨hn, _⟩ | ⟨a, op, b, rfl, hop, ha, hi⟩
  · exact absurd hn h2.1
  have e1 : substr (a ++ op :: b) 0 a.length = a := by
    rw [substr_zero, List.take_left' rfl]
  rw [hi, e1] at h h3
  have hal : a.length ≤ npos := by
    have := hcl
    simp only [List.length_append, List.length_cons] at this
    omega
  rw [trim_eq_strip a hal] at h h3
  have htk : strip a ≠ [] := by
    intro e
    apply h3
    left
    rw [e]
    rfl
  have htl : (strip a).length ≤ npos := Nat.le_trans (length_strip_le a) hal
  have hmem : ∀ c ∈ strip a, c ∉ accepted_assignment_operators_ :=
    fun c hc => ha c (strip_subset a c hc)
  rw [find_single] at h
  simp only [Option.some.injEq, Prod.mk.injEq] at h
  obtain ⟨_, hkey, _⟩ := h
  rcases find_first_of_cases (strip a) [' '] with ⟨hn, _⟩ | ⟨x, sp, y, hxy, hsp, hx, hi'⟩
  · have e0 : size_add npos 1 = 0 := by decide
    rw [hn, e0, substr_zero, List.take_of_length_le htl, trim_eq_strip _ htl, strip_strip] at hkey
    subst hkey
    refine ⟨htk, ?_, ?_, ?_⟩
    · rw [trim_eq_strip _ htl, strip_strip]
    · intro hc
      exact hmem _ hc (by decide)
    · intro hc
      exact hmem _ hc (by decide)
  · have hsp' : sp = ' ' := by simpa using hsp
    subst hsp'
    have hxl : x.length + (y.length + 1) ≤ npos := by
      have := htl
      rw [hxy] at this
      simp only [List.length_append, List.length_cons] at this
      omega
    have hdrop : (strip a).drop (x.length + 1) = y := by
      rw [hxy, show x ++ ' ' :: y = (x ++ [' ']) ++ y by simp]
      exact List.drop_left' (by simp)
    rw [hi', size_add_one _ (by omega), substr_npos _ _ htl, hdrop,
      trim_eq_strip y (by omega)] at hkey
    subst hkey
    have hys : ∀ c ∈ y, c ∉ accepted_assignment_operators_ := by
      intro c hc
      apply hmem
      rw [hxy]
      simp [hc]
    have hlast : (strip a).rdropWhile is_whitespace = strip a :=
      ((strip_eq_self_iff _).1 (strip_strip a)).2
    rw [rdropWhile_eq_self_iff_getLast, hxy] at hlast
    refine ⟨?_, ?_, ?_, ?_⟩
    · rw [strip_ne_nil_iff]
      cases y with
      | nil =>
        have := hlast ' ' (by simp)
        exact absurd this (by decide)
      | cons c y' =>
        obtain ⟨l, hl⟩ : ∃ l, (c :: y').getLast? = some l := by
          cases hg : (c :: y').getLast? with
          | none => simp at hg
          | some l => exact ⟨l, rfl⟩
        refine ⟨l, List.mem_of_getLast?_eq_some hl, hlast l ?_⟩
        rw [← hl, show x ++ ' ' :: c :: y' = (x ++ [' ']) ++ (c :: y') by simp]
        exact List.getLast?_append_of_ne_nil _ (by simp)
    · rw [trim_eq_strip _ (Nat.le_trans (length_strip_le y) (by omega)), strip_strip]
    · intro hc
      exact hys _ (strip_subset y _ hc) (by decide)
    · intro hc
      exact hys _ (strip_subset y _ hc) (by decide)

theorem keysShaped_init (default_config_file : Str) :
    KeysShaped (NoSweatConfigFileParser.init L default_config_file) := by
  unfold KeysShaped
  intro k T hT
  cases T <;> simp [holds, NoSweatConfigFileParser.init] at hT

theorem parse_default_config_file_line_shaped (s : NoSweatConfigFileParser L) (line : Str)
    (hlen : line.length ≤ npos) (hs : KeysShaped s) :
    KeysShaped (parse_default_config_file_line s line) := by
  rw [parse_default_config_file_line_eq]
  cases ht : default_tokens line with
  | none => exact hs
  | some tkv =>
    obtain ⟨type, key, value⟩ := tkv
    simp only []
    unfold KeysShaped
    intro k T hT
    rcases default_dispatch_holds s type key value k T hT with h | ⟨rfl, _⟩
    · exact hs k T h
    · exact default_tokens_key_shaped line type k value hlen ht

theorem foldl_parse_default_config_file_line_shaped (lines : List Str)
    (s : NoSweatConfigFileParser L) (hlen : ∀ line ∈ lines, line.length ≤ npos)
    (hs : KeysShaped s) : KeysShaped (lines.foldl parse_default_config_file_line s) := by
  induction lines generalizing s with
  | nil => exact hs
  | cons line rest ih =>
    simp only [List.foldl_cons]
    have hs' := parse_default_config_file_line_shaped s line
      (hlen line (List.mem_cons_self _ _)) hs
    generalize parse_default_config_file_line s line = s' at hs'
    exact ih s' (fun l hl => hlen l (List.mem_cons_of_mem _ hl)) hs'

theorem new1_shaped (L : FloatLib) (fs : FileSystem) (default_config_file : Str)
    (hlen : ∀ lines, fs default_config_file = some lines → ∀ line ∈ lines, line.length ≤ npos) :
    KeysShaped (NoSweatConfigFileParser.new1 L fs default_config_file) := by
  cases h : fs default_config_file with
  | none =>
    have e : NoSweatConfigFileParser.new1 L fs default_config_file
        = NoSweatConfigFileParser.init L default_config_file := by
      unfold NoSweatConfigFileParser.new1 parse_default_config_file
      simp [NoSweatConfigFileParser.init, h]
    rw [e]
    exact keysShaped_init _
  | some lines =>
    rw [new1_eq L fs default_config_file lines h]
    exact foldl_parse_default_config_file_line_shaped _ _ (hlen lines h) (keysShaped_init _)

/-! ## `std::stoi` on integer literals -/

theorem foldl_digits (ds : List Char) (acc : Nat) :
    ds.foldl (fun acc c => 10 * acc + digit_value c) acc
      = acc * 10 ^ ds.length + Nat.ofDigits 10 (ds.reverse.map digit_value) := by
  induction ds generalizing acc with
  | nil => simp
  | cons d ds ih =>
    rw [List.foldl_cons, ih, List.reverse_cons, List.map_append, Nat.ofDigits_append]
    simp only [List.map_cons, List.map_nil, Nat.ofDigits_singleton, List.length_map,
      List.length_reverse, List.length_cons]
    ring

theorem isdigit_not_isspace (c : Char) (h : isdigit c = true) : isspace c = false := by
  unfold isdigit at h
  unfold isspace
  simp only [decide_eq_true_eq] at h
  simp only [decide_eq_false_iff_not, List.mem_cons, List.mem_singleton, not_or]
  have h48 : 48 ≤ c.toNat := by
    have := h.1
    rw [Char.le_def] at this
    exact this
  refine ⟨?_, ?_, ?_, ?_, ?_, ?_, ?_⟩ <;> (try (intro e; rw [e] at h48; revert h48; decide))
  exact List.not_mem_nil c

/-- The digits read by `std::stoi` when the text after the sign consists of digits only. -/
theorem stoi_digits (ds : List Char) (hne : ds ≠ []) (hall : ∀ c ∈ ds, isdigit c = true) :
    (ds.takeWhile isdigit ≠ []) ∧
    (ds.takeWhile isdigit).foldl (fun acc c => 10 * acc + digit_value c) 0
      = Nat.ofDigits 10 (ds.reverse.map digit_value) := by
  have htw : ds.takeWhile isdigit = ds := List.takeWhile_eq_self_iff.2 hall
  rw [htw, foldl_digits]
  exact ⟨hne, by simp⟩

/-- On an integer literal `std::stoi` returns the integer that the literal denotes. -/
theorem stoi_of_int_literal (v : Str) (n : Int) (h : int_literal_value v = some n) :
    stoi v = some n := by
  cases v with
  | nil => simp [int_literal_value] at h
  | cons c r =>
    by_cases hm : c = '-'
    · subst hm
      simp only [int_literal_value, List.head?_cons, true_or, if_true, List.tail_cons] at h
      split_ifs at h with hd hr
      obtain ⟨hne, hall⟩ := hd
      rw [List.all_eq_true] at hall
      obtain ⟨h1, h2⟩ := stoi_digits r hne hall
      have hsp : isspace '-' = false := by decide
      simp only [stoi, List.dropWhile_cons_of_neg (by simp [hsp] : ¬ isspace '-' = true),
        List.head?_cons, true_or, if_true, List.tail_cons, if_neg h1, h2, INT_MIN, INT_MAX,
        if_pos hr]
      exact h
    · by_cases hp : c = '+'
      · subst hp
        simp only [int_literal_value, List.head?_cons, or_true, if_true, List.tail_cons] at h
        rw [if_neg (by decide : ¬ (some '+' = some '-'))] at h
        split_ifs at h with hd hr
        obtain ⟨hne, hall⟩ := hd
        rw [List.all_eq_true] at hall
        obtain ⟨h1, h2⟩ := stoi_digits r hne hall
        have hsp : isspace '+' = false := by decide
        simp only [stoi, List.dropWhile_cons_of_neg (by simp [hsp] : ¬ isspace '+' = true),
          List.head?_cons, or_true, if_true, List.tail_cons, if_neg h1, h2, INT_MIN, INT_MAX]
        rw [if_neg (by decide : ¬ (some '+' = some '-')), if_pos hr]
        exact h
      · have hsign : ¬ (some c = some '-' ∨ some c = some '+') := by simpa using ⟨hm, hp⟩
        have hneg : ¬ (some c = some '-') := by simpa using hm
        simp only [int_literal_value, List.head?_cons, if_neg hsign, if_neg hneg] at h
        split_ifs at h with hd hr
        obtain ⟨hne, hall⟩ := hd
        rw [List.all_eq_true] at hall
        obtain ⟨h1, h2⟩ := stoi_digits (c :: r) hne hall
        have hsp : isspace c = false :=
          isdigit_not_isspace c (hall c (List.mem_cons_self _ _))
        simp only [stoi, List.dropWhile_cons_of_neg (by simp [hsp] : ¬ isspace c = true),
          List.head?_cons, if_neg hsign, if_neg hneg, if_neg h1, h2, INT_MIN, INT_MAX, if_pos hr]
        exact h

/-! ## Lines of a default file -/

theorem strip_eq_self_of_no_whitespace (s : Str) (h : ∀ c ∈ s, is_whitespace c = false) :
    strip s = s := by
  rw [strip_eq_self_iff]
  constructor
  · rw [dropWhile_eq_self_iff_head]
    intro c hc
    exact h c (List.mem_of_mem_head? hc)
  · rw [rdropWhile_eq_self_iff_getLast]
    intro c hc
    exact h c (List.mem_of_getLast?_eq_some hc)

theorem is_whitespace_eq_isspace (c : Char) : is_whitespace c = isspace c := by
  unfold is_whitespace isspace whitespace_chars
  rw [Bool.eq_iff_iff]
  simp only [decide_eq_true_eq, List.mem_cons, List.mem_singleton, List.not_mem_nil, or_false]
  tauto

/-- An integer literal contains no whitespace. -/
theorem int_literal_no_whitespace (v : Str) (n : Int) (h : int_literal_value v = some n) :
    v ≠ [] ∧ ∀ c ∈ v, is_whitespace c = false := by
  cases v with
  | nil => simp [int_literal_value] at h
  | cons c r =>
    refine ⟨by simp, ?_⟩
    unfold int_literal_value at h
    simp only [List.head?_cons, List.tail_cons] at h
    by_cases hs : some c = some '-' ∨ some c = some '+'
    · rw [if_pos hs] at h
      split_ifs at h with hd <;> obtain ⟨_, hall⟩ := hd <;> rw [List.all_eq_true] at hall <;>
        intro x hx <;> rcases List.mem_cons.1 hx with rfl | hx <;>
        first
          | exact (is_whitespace_eq_isspace _).trans (isdigit_not_isspace _ (hall _ hx))
          | (simp only [Option.some.injEq] at hs; rcases hs with rfl | rfl <;> decide)
    · rw [if_neg hs] at h
      split_ifs at h with hd <;> obtain ⟨_, hall⟩ := hd <;> rw [List.all_eq_true] at hall <;>
        intro x hx <;>
        exact (is_whitespace_eq_isspace _).trans (isdigit_not_isspace _ (hall _ hx))

/-- The store after a default file, as the store after a prefix of it, one line, and the
remaining lines. -/
theorem new1_split (L : FloatLib) (fs : FileSystem) (default_config_file : Str)
    (pre post : List Str) (line : Str)
    (hfile : fs default_config_file = some (pre ++ line :: post)) :
    NoSweatConfigFileParser.new1 L fs default_config_file =
      post.foldl parse_default_config_file_line
        (parse_default_config_file_line
          (pre.foldl parse_default_config_file_line
            (NoSweatConfigFileParser.init L default_config_file)) line) := by
  rw [new1_eq L fs default_config_file _ hfile, List.foldl_append, List.foldl_cons]

/-- A key that is taken after some line of the default file keeps its four entries until the
end of the file. -/
theorem new1_after_registration (L : FloatLib) (fs : FileSystem) (default_config_file : Str)
    (pre post : List Str) (line key : Str)
    (hfile : fs default_config_file = some (pre ++ line :: post))
    (s1 : NoSweatConfigFileParser L)
    (hs1 : s1 = parse_default_config_file_line
      (pre.foldl parse_default_config_file_line
        (NoSweatConfigFileParser.init L default_config_file)) line)
    (htaken : is_key_available s1 key = false) :
    (NoSweatConfigFileParser.new1 L fs default_config_file).integer_config_values_ key
      = s1.integer_config_values_ key ∧
    (NoSweatConfigFileParser.new1 L fs default_config_file).float_config_values_ key
      = s1.float_config_values_ key ∧
    (NoSweatConfigFileParser.new1 L fs default_config_file).string_config_values_ key
      = s1.string_config_values_ key ∧
    (NoSweatConfigFileParser.new1 L fs default_config_file).bool_config_values_ key
      = s1.bool_config_values_ key := by
  rw [new1_split L fs default_config_file pre post line hfile, ← hs1]
  exact foldl_parse_default_config_file_line_frame post s1 key htaken

theorem whitespace_not_assignment (w : Str) (h : ∀ c ∈ w, c ∈ whitespace_chars) :
    (∀ c ∈ w, c ∉ accepted_assignment_operators_) ∧ (∀ c ∈ w, c ∉ ['=', ':']) ∧
    (∀ c ∈ w, is_whitespace c = true) := by
  refine ⟨?_, ?_, ?_⟩ <;> intro c hc <;> have hw := h c hc
  · intro ho
    simp only [whitespace_chars, List.mem_cons, List.mem_singleton, List.not_mem_nil,
      or_false] at hw
    rcases hw with rfl | rfl | rfl | rfl | rfl | rfl <;> revert ho <;> decide
  · intro ho
    simp only [whitespace_chars, List.mem_cons, List.mem_singleton, List.not_mem_nil,
      or_false] at hw
    rcases hw with rfl | rfl | rfl | rfl | rfl | rfl <;> revert ho <;> decide
  · simpa [is_whitespace] using hw

/-- A shaped key followed by whitespace is trimmed to the key. -/
theorem strip_key_whitespace (key w : Str) (hkey : KeyShaped key)
    (hlen : key.length ≤ npos) (hw : ∀ c ∈ w, c ∈ whitespace_chars) :
    strip (key ++ w) = key ∧ strip key = key := by
  have hk : strip key = key := by
    rw [← trim_eq_strip key hlen]
    exact hkey.2.1
  exact ⟨by rw [strip_append_right _ _ (whitespace_not_assignment w hw).2.2, hk], hk⟩

/-! ## C1: integer declarations -/

/-- What the default parser does with a declaration line whose key is shaped and whose value is
trimmed: it dispatches on the keyword with exactly that key and value. -/
theorem parse_default_config_file_line_declaration (s : NoSweatConfigFileParser L) (T : VType)
    (mid rest : Str) (op : Char) (hop : op = '=' ∨ op = ':')
    (hmid : ':' ∉ mid ∧ '=' ∉ mid) (hk : strip mid ≠ []) (hv : strip rest ≠ [])
    (hlen : (T.name ++ ' ' :: (mid ++ op :: rest)).length ≤ npos) :
    parse_default_config_file_line s (T.name ++ ' ' :: (mid ++ op :: rest))
      = default_dispatch s T.name (strip mid) (strip rest) := by
  rw [parse_default_config_file_line_eq, default_tokens_of_declaration T mid rest op
    (by rcases hop with rfl | rfl <;> decide)
    (by
      intro c hc ho
      simp only [accepted_assignment_operators_, List.mem_cons, List.mem_singleton,
        List.not_mem_nil, or_false] at ho
      rcases ho with rfl | rfl
      · exact hmid.1 hc
      · exact hmid.2 hc)
    hk hv hlen]

/-- C1: in a default file, a line `int <key> = <v>` or `int <key> : <v>` (any run of
whitespace, possibly empty, may surround the assignment character) whose key is non-empty,
trimmed, free of `':'` and `'='` and not registered by an earlier line, and whose value is an
optionally signed decimal integer literal denoting the 32 bit integer `n`, makes `get_int` of
that key return `n` after `parse_default_config_file`. -/
theorem C1_default_int_declaration (L : FloatLib) (fs : FileSystem) (default_config_file : Str)
    (pre post : List Str) (key w1 w2 v : Str) (op : Char) (n : Int)
    (hfile : fs default_config_file
      = some (pre ++ (['i', 'n', 't', ' '] ++ key ++ w1 ++ [op] ++ w2 ++ v) :: post))
    (hop : op = '=' ∨ op = ':')
    (hkey : key ≠ [] ∧ trim key = key ∧ ':' ∉ key ∧ '=' ∉ key)
    (hw1 : ∀ c ∈ w1, c ∈ whitespace_chars) (hw2 : ∀ c ∈ w2, c ∈ whitespace_chars)
    (hv : int_literal_value v = some n)
    (hlen : (['i', 'n', 't', ' '] ++ key ++ w1 ++ [op] ++ w2 ++ v).length ≤ npos)
    (hfresh : is_key_available (pre.foldl parse_default_config_file_line
      (NoSweatConfigFileParser.init L default_config_file)) key = true) :
    get_int (NoSweatConfigFileParser.new1 L fs default_config_file) key = n := by
  have hline : ['i', 'n', 't', ' '] ++ key ++ w1 ++ [op] ++ w2 ++ v
      = VType.int.name ++ ' ' :: ((key ++ w1) ++ op :: (w2 ++ v)) := by
    simp [VType.name]
  rw [hline] at hfile hlen
  have hkl : key.length ≤ npos := by
    have := hlen
    simp only [List.length_append, List.length_cons] at this
    omega
  obtain ⟨hk1, _⟩ := strip_key_whitespace key w1 hkey hkl hw1
  obtain ⟨hvne, hvw⟩ := int_literal_no_whitespace v n hv
  have hv1 : strip (w2 ++ v) = v := by
    rw [strip_append_left _ _ (whitespace_not_assignment w2 hw2).2.2,
      strip_eq_self_of_no_whitespace v hvw]
  have hmid : ':' ∉ key ++ w1 ∧ '=' ∉ key ++ w1 := by
    have hw := (whitespace_not_assignment w1 hw1).1
    constructor <;> intro hc <;> rcases List.mem_append.1 hc with h | h
    · exact hkey.2.2.1 h
    · exact hw _ h (by decide)
    · exact hkey.2.2.2 h
    · exact hw _ h (by decide)
  generalize hs0 : pre.foldl parse_default_config_file_line
    (NoSweatConfigFileParser.init L default_config_file) = s0 at hfresh
  have hstep := parse_default_config_file_line_declaration s0 .int (key ++ w1) (w2 ++ v) op hop
    hmid (by rw [hk1]; exact hkey.1) (by rw [hv1]; exact hvne) hlen
  rw [hk1, hv1] at hstep
  have hreg : (default_dispatch s0 VType.int.name key v).integer_config_values_ key
      = some (n, n) := by
    simp [default_dispatch, VType.name, add_default_integer_value, hfresh,
      stoi_of_int_literal v n hv, map_assign]
  obtain ⟨h1, _⟩ := new1_after_registration L fs default_config_file pre post _ key hfile
    (default_dispatch s0 VType.int.name key v) (by rw [hs0, hstep])
    ((is_key_available_eq_false _ _).2 ⟨.int, by simp [holds, hreg]⟩)
  unfold get_int
  rw [h1, hreg]
  rfl

/-- C1 at a concrete file: the second line declares `max_number_of_users` as `-17`. -/
theorem C1_default_int_declaration_witness :
    get_int (NoSweatConfigFileParser.new1 decimal_lib
      (fun path => if path = "default_config.cfg".toList then
        some ["# users".toList, "int max_number_of_users = -17".toList,
          "int max_number_of_users = 3".toList] else none)
      "default_config.cfg".toList) "max_number_of_users".toList = -17 :=
  C1_default_int_declaration decimal_lib _ "default_config.cfg".toList
    ["# users".toList] ["int max_number_of_users = 3".toList]
    "max_number_of_users".toList [' '] [' '] "-17".toList '=' (-17)
    (by decide) (Or.inl rfl) (by decide) (by decide) (by decide) (by decide) (by decide)
    (by decide)

/-! ## C2: string declarations -/

/-- C2: a default line `string <mid><op><rest>`, where `<op>` is the first `'='` or `':'` of the
line, registers the key `trim <mid>` (the trimmed text between the first space and the first
assignment character, whatever further spaces and symbols it contains) with the value
`trim <rest>` (the trimmed text after the first assignment character, verbatim, including later
spaces, `':'` and `'='`), provided both are non-empty and no earlier line registered the key;
`get_string` of that key returns that value after the default parse. -/
theorem C2_default_string_declaration (L : FloatLib) (fs : FileSystem)
    (default_config_file : Str) (pre post : List Str) (mid rest : Str) (op : Char)
    (hfile : fs default_config_file
      = some (pre ++ (['s', 't', 'r', 'i', 'n', 'g', ' '] ++ mid ++ [op] ++ rest) :: post))
    (hop : op = '=' ∨ op = ':') (hmid : ':' ∉ mid ∧ '=' ∉ mid)
    (hk : trim mid ≠ []) (hv : trim rest ≠ [])
    (hlen : (['s', 't', 'r', 'i', 'n', 'g', ' '] ++ mid ++ [op] ++ rest).length ≤ npos)
    (hfresh : is_key_available (pre.foldl parse_default_config_file_line
      (NoSweatConfigFileParser.init L default_config_file)) (trim mid) = true) :
    parse_default_config_file_line
        (pre.foldl parse_default_config_file_line
          (NoSweatConfigFileParser.init L default_config_file))
        (['s', 't', 'r', 'i', 'n', 'g', ' '] ++ mid ++ [op] ++ rest)
      = { pre.foldl parse_default_config_file_line
            (NoSweatConfigFileParser.init L default_config_file) with
          string_config_values_ := map_assign
            (pre.foldl parse_default_config_file_line
              (NoSweatConfigFileParser.init L default_config_file)).string_config_values_
            (trim mid) (trim rest, trim rest) } ∧
    get_string (NoSweatConfigFileParser.new1 L fs default_config_file) (trim mid)
      = trim rest := by
  have hline : ['s', 't', 'r', 'i', 'n', 'g', ' '] ++ mid ++ [op] ++ rest
      = VType.string.name ++ ' ' :: (mid ++ op :: rest) := by
    simp [VType.name]
  rw [hline] at hfile hlen ⊢
  have hml : mid.length ≤ npos ∧ rest.length ≤ npos := by
    have := hlen
    simp only [List.length_append, List.length_cons] at this
    omega
  rw [trim_eq_strip mid hml.1] at hk hfresh ⊢
  rw [trim_eq_strip rest hml.2] at hv ⊢
  generalize hs0 : pre.foldl parse_default_config_file_line
    (NoSweatConfigFileParser.init L default_config_file) = s0 at hfresh ⊢
  have hstep := parse_default_config_file_line_declaration s0 .string mid rest op hop
    hmid hk hv hlen
  have hdisp : default_dispatch s0 VType.string.name (strip mid) (strip rest)
      = { s0 with string_config_values_ :=
            map_assign s0.string_config_values_ (strip mid) (strip rest, strip rest) } := by
    simp [default_dispatch, VType.name, add_default_string_value, hfresh]
  have hreg : (default_dispatch s0 VType.string.name (strip mid)
      (strip rest)).string_config_values_ (strip mid) = some (strip rest, strip rest) := by
    rw [hdisp]
    simp [map_assign]
  obtain ⟨_, _, h3, _⟩ := new1_after_registration L fs default_config_file pre post _
    (strip mid) hfile _ (by rw [hs0, hstep])
    ((is_key_available_eq_false _ _).2 ⟨.string, by simp [holds, hreg]⟩)
  refine ⟨by rw [hstep, hdisp], ?_⟩
  unfold get_string
  rw [h3, hreg]
  rfl

/-- C2 at a concrete file: a key with spaces and a value with spaces, `':'` and `'='`. -/
theorem C2_default_string_declaration_witness :
    get_string (NoSweatConfigFileParser.new1 decimal_lib
      (fun path => if path = "default_config.cfg".toList then
        some ["int speed = 1".toList,
          "string key names can have spaces: a = b, c : d ".toList] else none)
      "default_config.cfg".toList) (trim "key names can have spaces".toList)
      = trim " a = b, c : d ".toList :=
  (C2_default_string_declaration decimal_lib _ "default_config.cfg".toList
    ["int speed = 1".toList] [] "key names can have spaces".toList " a = b, c : d ".toList ':'
    (by decide) (Or.inr rfl) (by decide) (by decide) (by decide) (by decide) (by decide)).2

/-! ## C3: boolean conversion -/

theorem bool_of_value_cases (value : Str) :
    (bool_of_value value = some true ↔ value.map tolower ∈ accepted_boolean_true_values_) ∧
    (bool_of_value value = some false ↔ value.map tolower ∈ accepted_boolean_false_values_) ∧
    (bool_of_value value = none ↔ value.map tolower ∉ accepted_boolean_true_values_ ∧
      value.map tolower ∉ accepted_boolean_false_values_) := by
  have hdisj : ∀ x, x ∈ accepted_boolean_false_values_ → x ∉ accepted_boolean_true_values_ := by
    intro x hx
    simp only [accepted_boolean_false_values_, List.mem_cons, List.mem_singleton,
      List.not_mem_nil, or_false] at hx
    rcases hx with rfl | rfl | rfl | rfl | rfl | rfl <;> decide
  unfold bool_of_value
  simp only []
  split_ifs with h1 h2
  · simp [h1, hdisj _ h1]
  · simp [h1, h2]
  · simp [h1, h2]

/-- C3: for a fresh key, `add_default_bool_value` stores true exactly when the lower-cased
value is one of true, yes, y, on, 1, right, stores false exactly when it is one of false, no,
n, off, 0, wrong, and otherwise leaves the store unchanged, so that `get_bool` returns false
by absence; values that differ only in letter case are treated alike; no value is in both
lists of names. -/
theorem C3_bool_conversion (s : NoSweatConfigFileParser L) (key value : Str)
    (hfresh : is_key_available s key = true) :
    ((add_default_bool_value s key value).bool_config_values_ key = some (true, true)
      ↔ value.map tolower ∈ accepted_boolean_true_values_) ∧
    ((add_default_bool_value s key value).bool_config_values_ key = some (false, false)
      ↔ value.map tolower ∈ accepted_boolean_false_values_) ∧
    (value.map tolower ∉ accepted_boolean_true_values_ →
      value.map tolower ∉ accepted_boolean_false_values_ →
      add_default_bool_value s key value = s ∧
      (add_default_bool_value s key value).bool_config_values_ key = none ∧
      get_bool (add_default_bool_value s key value) key = false) ∧
    (∀ value', value'.map tolower = value.map tolower →
      add_default_bool_value s key value' = add_default_bool_value s key value) ∧
    (∀ x, ¬ (x ∈ accepted_boolean_true_values_ ∧ x ∈ accepted_boolean_false_values_)) ∧
    accepted_boolean_true_values_
      = ["true", "yes", "y", "on", "1", "right"].map String.toList ∧
    accepted_boolean_false_values_
      = ["false", "no", "n", "off", "0", "wrong"].map String.toList := by
  obtain ⟨ht, hf, hn⟩ := bool_of_value_cases value
  have hb : s.bool_config_values_ key = none := by
    have := (is_key_available_eq_true s key).1 hfresh .bool
    simpa [holds] using this
  have hadd : ∀ v, add_default_bool_value s key v =
      match bool_of_value v with
      | none => s
      | some b => { s with bool_config_values_ := map_assign s.bool_config_values_ key (b, b) } := by
    intro v
    unfold add_default_bool_value
    cases hbv : bool_of_value v <;> simp [hfresh]
  refine ⟨?_, ?_, ?_, ?_, ?_, by decide, by decide⟩
  · rw [← ht, hadd]
    cases hv : bool_of_value value with
    | none => simp [hb]
    | some b => cases b <;> simp [map_assign]
  · rw [← hf, hadd]
    cases hv : bool_of_value value with
    | none => simp [hb]
    | some b => cases b <;> simp [map_assign]
  · intro h1 h2
    have hnone := hn.2 ⟨h1, h2⟩
    have e : add_default_bool_value s key value = s := by
      rw [hadd, hnone]
    rw [e]
    exact ⟨rfl, hb, by simp [get_bool, hb]⟩
  · intro value' hv'
    have : bool_of_value value' = bool_of_value value := by
      unfold bool_of_value
      simp only [hv']
    rw [hadd, hadd, this]
  · intro x hx
    have hx1 := hx.1
    simp only [accepted_boolean_true_values_, List.mem_cons, List.mem_singleton,
      List.not_mem_nil, or_false] at hx1
    have hx2 := hx.2
    revert hx2
    rcases hx1 with rfl | rfl | rfl | rfl | rfl | rfl <;> decide

/-- C3 at concrete values: `RiGhT` is stored as true under a fresh key. -/
theorem C3_bool_conversion_witness :
    (add_default_bool_value (NoSweatConfigFileParser.init decimal_lib [])
      "use_accelerator".toList "RiGhT".toList).bool_config_values_ "use_accelerator".toList
      = some (true, true) :=
  (C3_bool_conversion (NoSweatConfigFileParser.init decimal_lib [])
    "use_accelerator".toList "RiGhT".toList (by decide)).1.2 (by decide)

/-! ## C4: the accessors -/

/-- C4: every accessor returns the current value (the second component) when the key is in its
own map and the zero value of its type (`0`, `0.0`, the empty string, `false`) when it is not;
in particular, in a store with disjoint maps, such as every store built from a default file, a
key held by one map makes the accessors of the three other types return their zero value. -/
theorem C4_accessors (s : NoSweatConfigFileParser L) (key : Str) :
    ((∀ p, s.integer_config_values_ key = some p → get_int s key = p.2) ∧
      (s.integer_config_values_ key = none → get_int s key = 0)) ∧
    ((∀ p, s.float_config_values_ key = some p → get_float s key = p.2) ∧
      (s.float_config_values_ key = none → get_float s key = L.zero)) ∧
    ((∀ p, s.string_config_values_ key = some p → get_string s key = p.2) ∧
      (s.string_config_values_ key = none → get_string s key = [])) ∧
    ((∀ p, s.bool_config_values_ key = some p → get_bool s key = p.2) ∧
      (s.bool_config_values_ key = none → get_bool s key = false)) ∧
    (∀ M : VType, KeysDisjoint s → holds s M key = true →
      (M ≠ .int → get_int s key = 0) ∧ (M ≠ .float → get_float s key = L.zero) ∧
      (M ≠ .string → get_string s key = []) ∧ (M ≠ .bool → get_bool s key = false)) ∧
    (∀ (fs : FileSystem) (default_config_file : Str) (M : VType),
      s = NoSweatConfigFileParser.new1 L fs default_config_file → holds s M key = true →
      (M ≠ .int → get_int s key = 0) ∧ (M ≠ .float → get_float s key = L.zero) ∧
      (M ≠ .string → get_string s key = []) ∧ (M ≠ .bool → get_bool s key = false)) := by
  have hcross : ∀ M : VType, KeysDisjoint s → holds s M key = true →
      (M ≠ .int → get_int s key = 0) ∧ (M ≠ .float → get_float s key = L.zero) ∧
      (M ≠ .string → get_string s key = []) ∧ (M ≠ .bool → get_bool s key = false) := by
    intro M hd hM
    have hnot : ∀ T, M ≠ T → holds s T key = false := by
      intro T hne
      cases h : holds s T key
      · rfl
      · exact absurd (hd key M T hM h) hne
    refine ⟨fun h => ?_, fun h => ?_, fun h => ?_, fun h => ?_⟩
    · have := hnot .int h
      simp [holds] at this
      simp [get_int, this]
    · have := hnot .float h
      simp [holds] at this
      simp [get_float, this]
    · have := hnot .string h
      simp [holds] at this
      simp [get_string, this]
    · have := hnot .bool h
      simp [holds] at this
      simp [get_bool, this]
  refine ⟨⟨?_, ?_⟩, ⟨?_, ?_⟩, ⟨?_, ?_⟩, ⟨?_, ?_⟩, hcross, ?_⟩
  · intro p hp
    simp [get_int, hp]
  · intro hp
    simp [get_int, hp]
  · intro p hp
    simp [get_float, hp]
  · intro hp
    simp [get_float, hp]
  · intro p hp
    simp [get_string, hp]
  · intro hp
    simp [get_string, hp]
  · intro p hp
    simp [get_bool, hp]
  · intro hp
    simp [get_bool, hp]
  · intro fs default_config_file M hs hM
    exact hcross M (by rw [hs]; exact new1_disjoint L fs default_config_file) hM

/-- C4 at a concrete store: `get_float` of a key declared `int` returns `0.0`. -/
theorem C4_accessors_witness :
    get_float (NoSweatConfigFileParser.new1 decimal_lib
      (fun path => if path = "default_config.cfg".toList then
        some ["int max_number_of_users = 1".toList] else none)
      "default_config.cfg".toList) "max_number_of_users".toList = decimal_lib.zero :=
  ((C4_accessors (NoSweatConfigFileParser.new1 decimal_lib
      (fun path => if path = "default_config.cfg".toList then
        some ["int max_number_of_users = 1".toList] else none)
      "default_config.cfg".toList) "max_number_of_users".toList).2.2.2.2.2
    _ "default_config.cfg".toList VType.int rfl (by decide)).2.1 (by decide)

/-! ## C5 and C7: what an overlay cannot change -/

/-- C5: `read_config_file` leaves the key set of each of the four maps as it was, whatever the
store and the overlay file are; hence a key that is in no map before the overlay still makes
every accessor return the zero value of its type after it. -/
theorem C5_no_insertion (fs : FileSystem) (s : NoSweatConfigFileParser L)
    (config_file key : Str) :
    (((read_config_file fs s config_file).integer_config_values_ key).isSome
        = (s.integer_config_values_ key).isSome ∧
      ((read_config_file fs s config_file).float_config_values_ key).isSome
        = (s.float_config_values_ key).isSome ∧
      ((read_config_file fs s config_file).string_config_values_ key).isSome
        = (s.string_config_values_ key).isSome ∧
      ((read_config_file fs s config_file).bool_config_values_ key).isSome
        = (s.bool_config_values_ key).isSome) ∧
    (is_key_available s key = true →
      get_int (read_config_file fs s config_file) key = 0 ∧
      get_float (read_config_file fs s config_file) key = L.zero ∧
      get_string (read_config_file fs s config_file) key = [] ∧
      get_bool (read_config_file fs s config_file) key = false) := by
  obtain ⟨h1, h2, h3, h4⟩ := read_config_file_keys fs s config_file key
  refine ⟨⟨h1, h2, h3, h4⟩, ?_⟩
  intro hav
  rw [is_key_available_eq_true] at hav
  have a1 := hav .int
  have a2 := hav .float
  have a3 := hav .string
  have a4 := hav .bool
  simp only [holds] at a1 a2 a3 a4
  rw [a1] at h1
  rw [a2] at h2
  rw [a3] at h3
  rw [a4] at h4
  generalize read_config_file fs s config_file = s' at h1 h2 h3 h4
  simp at h1 h2 h3 h4
  simp [get_int, get_float, get_string, get_bool, h1, h2, h3, h4]

/-- C5 at a concrete store and overlay: the overlay names a key that the default file did not
declare, with and without a type, and `get_int` of that key is still `0`. -/
theorem C5_no_insertion_witness :
    get_int (read_config_file
      (fun path => if path = "config.cfg".toList then
        some ["random stuff = 5".toList, "int random stuff = 6".toList] else
        if path = "default_config.cfg".toList then some ["int max_number_of_users = 1".toList]
        else none)
      (NoSweatConfigFileParser.new1 decimal_lib
        (fun path => if path = "config.cfg".toList then
          some ["random stuff = 5".toList, "int random stuff = 6".toList] else
          if path = "default_config.cfg".toList then some ["int max_number_of_users = 1".toList]
          else none)
        "default_config.cfg".toList)
      "config.cfg".toList) "random stuff".toList = 0 :=
  ((C5_no_insertion _ _ "config.cfg".toList "random stuff".toList).2 (by decide)).1

/-- C7: `read_config_file` leaves the default value (the first component of the pair) of every
key of every map as it was; only the second component can differ. -/
theorem C7_defaults_unchanged (fs : FileSystem) (s : NoSweatConfigFileParser L)
    (config_file key : Str) :
    ((read_config_file fs s config_file).integer_config_values_ key).map Prod.fst
      = (s.integer_config_values_ key).map Prod.fst ∧
    ((read_config_file fs s config_file).float_config_values_ key).map Prod.fst
      = (s.float_config_values_ key).map Prod.fst ∧
    ((read_config_file fs s config_file).string_config_values_ key).map Prod.fst
      = (s.string_config_values_ key).map Prod.fst ∧
    ((read_config_file fs s config_file).bool_config_values_ key).map Prod.fst
      = (s.bool_config_values_ key).map Prod.fst :=
  read_config_file_fst fs s config_file key

/-! ## C8 and C9: overlay lines without effect -/

theorem name_ne_nil (T : VType) : T.name ≠ [] := by
  cases T <;> decide

theorem name_injective (T M : VType) (h : T.name = M.name) : T = M := by
  cases T <;> cases M <;> first | rfl | (revert h; decide)

/-- An enforced type that is no keyword leads to no setter at all. -/
theorem overlay_dispatch_no_keyword (s : NoSweatConfigFileParser L) (et key value : Str)
    (hne : et ≠ []) (h : ∀ T : VType, et ≠ T.name) : overlay_dispatch s et key value = s := by
  have h1 := h .int
  have h2 := h .float
  have h3 := h .string
  have h4 := h .bool
  simp only [VType.name] at h1 h2 h3 h4
  simp [overlay_dispatch, hne, h1, h2, h3, h4]

/-- A value that fails to convert to the enforced type changes nothing. -/
theorem overlay_dispatch_typed_fails (s : NoSweatConfigFileParser L) (M : VType)
    (key value : Str) (hf : conversion_fails L M value = true) :
    overlay_dispatch s M.name key value = s := by
  cases M <;>
    simp only [conversion_fails, Option.isNone_iff_eq_none, Bool.false_eq_true] at hf <;>
    simp [overlay_dispatch, VType.name, set_integer_value, set_float_value, set_string_value,
      set_bool_value, hf]

/-- A value that fails to convert to the type of every map that holds the key changes
nothing, whatever type the line enforces. -/
theorem overlay_dispatch_all_fail (s : NoSweatConfigFileParser L) (et key value : Str)
    (hf : ∀ T, holds s T key = true → conversion_fails L T value = true) :
    overlay_dispatch s et key value = s := by
  by_cases he : et = []
  · cases hk : key_type s key with
    | none =>
      apply overlay_dispatch_missing
      intro T
      cases hh : holds s T key
      · rfl
      · exfalso
        revert hk
        unfold key_type
        cases T <;> split_ifs <;> simp_all
    | some T =>
      exact overlay_dispatch_conversion_fails s T et key value hk (Or.inl he)
        (hf T (holds_of_key_type s key T hk))
  · by_cases hn : ∃ M : VType, et = M.name
    · obtain ⟨M, rfl⟩ := hn
      cases hh : holds s M key
      · exact overlay_dispatch_typed_missing s M key value hh
      · exact overlay_dispatch_typed_fails s M key value (hf M hh)
    · exact overlay_dispatch_no_keyword s et key value he (fun M hM => hn ⟨M, hM⟩)

/-- C8: an overlay line whose key exists and whose value fails to convert to the type of the
map that holds the key (of every such map, should a store hold the key in several) leaves the
whole store as it was, whatever type prefix the line carries, and so every accessor returns
what it returned before. -/
theorem C8_conversion_failure_atomic (s : NoSweatConfigFileParser L)
    (line enforce_type key value : Str)
    (htokens : overlay_tokens line = some (enforce_type, key, value))
    (_hkey : ∃ T, holds s T key = true)
    (hfail : ∀ T, holds s T key = true → conversion_fails L T value = true) :
    read_config_file_line s line = s ∧
    get_int (read_config_file_line s line) key = get_int s key ∧
    get_float (read_config_file_line s line) key = get_float s key ∧
    get_string (read_config_file_line s line) key = get_string s key ∧
    get_bool (read_config_file_line s line) key = get_bool s key := by
  have h : read_config_file_line s line = s := by
    rw [read_config_file_line_eq, htokens]
    exact overlay_dispatch_all_fail s _ key value hfail
  rw [h]
  exact ⟨rfl, rfl, rfl, rfl, rfl⟩

/-- C8 at concrete lines: `use_accelerator = not_a_bool` on a store where `use_accelerator`
is a boolean key, and `max_number_of_users = 2147483648` (one more than the largest `int`) on
a store where `max_number_of_users` is an integer key. -/
theorem C8_conversion_failure_atomic_witness :
    get_bool (read_config_file_line
      (NoSweatConfigFileParser.new1 decimal_lib
        (fun path => if path = "default_config.cfg".toList then
          some ["bool use_accelerator = right".toList] else none)
        "default_config.cfg".toList)
      "use_accelerator = not_a_bool".toList) "use_accelerator".toList
    = get_bool (NoSweatConfigFileParser.new1 decimal_lib
        (fun path => if path = "default_config.cfg".toList then
          some ["bool use_accelerator = right".toList] else none)
        "default_config.cfg".toList) "use_accelerator".toList ∧
    get_int (read_config_file_line
      (NoSweatConfigFileParser.new1 decimal_lib
        (fun path => if path = "default_config.cfg".toList then
          some ["int max_number_of_users = 1".toList] else none)
        "default_config.cfg".toList)
      "max_number_of_users = 2147483648".toList) "max_number_of_users".toList
    = get_int (NoSweatConfigFileParser.new1 decimal_lib
        (fun path => if path = "default_config.cfg".toList then
          some ["int max_number_of_users = 1".toList] else none)
        "default_config.cfg".toList) "max_number_of_users".toList :=
  ⟨(C8_conversion_failure_atomic _ "use_accelerator = not_a_bool".toList []
    "use_accelerator".toList "not_a_bool".toList (by decide) ⟨VType.bool, by decide⟩
    (fun T => by cases T <;> decide)).2.2.2.2,
   (C8_conversion_failure_atomic _ "max_number_of_users = 2147483648".toList []
    "max_number_of_users".toList "2147483648".toList (by decide) ⟨VType.int, by decide⟩
    (fun T => by cases T <;> decide)).2.1⟩

/-- C9: in a store whose maps are disjoint, an overlay line whose key is in none of the four
maps, and a line that enforces a type other than the one of the map that holds its key, leave
the whole store (all four maps) as it was; this covers the lines
`<type> <key> <op> <value>` whose keyword differs from the type of `<key>`. -/
theorem C9_unknown_or_mismatched (s : NoSweatConfigFileParser L) (hd : KeysDisjoint s) :
    (∀ line enforce_type key value,
      overlay_tokens line = some (enforce_type, key, value) →
      (∀ T, holds s T key = false) → read_config_file_line s line = s) ∧
    (∀ line key value (T M : VType),
      overlay_tokens line = some (T.name, key, value) →
      holds s M key = true → T ≠ M → read_config_file_line s line = s) ∧
    (∀ (T M : VType) (mid rest : Str) (op : Char),
      op = '=' ∨ op = ':' → ':' ∉ mid ∧ '=' ∉ mid → trim mid ≠ [] → trim rest ≠ [] →
      (T.name ++ [' '] ++ mid ++ [op] ++ rest).length ≤ npos →
      holds s M (trim mid) = true → T ≠ M →
      read_config_file_line s (T.name ++ [' '] ++ mid ++ [op] ++ rest) = s) := by
  have hmis : ∀ key value (T M : VType), holds s M key = true → T ≠ M →
      overlay_dispatch s T.name key value = s := by
    intro key value T M hM hne
    apply overlay_dispatch_typed_missing
    cases hh : holds s T key
    · rfl
    · exact absurd (hd key T M hh hM) hne
  refine ⟨?_, ?_, ?_⟩
  · intro line et key value htok hnone
    rw [read_config_file_line_eq, htok]
    exact overlay_dispatch_missing s et key value hnone
  · intro line key value T M htok hM hne
    rw [read_config_file_line_eq, htok]
    exact hmis key value T M hM hne
  · intro T M mid rest op hop hmid hk hv hlen hM hne
    have hline : T.name ++ [' '] ++ mid ++ [op] ++ rest
        = T.name ++ ' ' :: (mid ++ op :: rest) := by simp
    rw [hline] at hlen ⊢
    have hml : mid.length ≤ npos ∧ rest.length ≤ npos := by
      have := hlen
      simp only [List.length_append, List.length_cons] at this
      omega
    rw [trim_eq_strip mid hml.1] at hk hM
    rw [trim_eq_strip rest hml.2] at hv
    have htok := overlay_tokens_of_typed T mid rest op
      (by rcases hop with rfl | rfl <;> decide)
      (by
        intro c hc ho
        simp only [List.mem_cons, List.mem_singleton, List.not_mem_nil, or_false] at ho
        rcases ho with rfl | rfl
        · exact hmid.2 hc
        · exact hmid.1 hc)
      hk hv hlen
    rw [read_config_file_line_eq, htok]
    exact hmis _ _ T M hM hne

/-- C9 at a concrete line: `username` is a string key and the line declares it `int`. -/
theorem C9_unknown_or_mismatched_witness :
    read_config_file_line
      (NoSweatConfigFileParser.new1 decimal_lib
        (fun path => if path = "default_config.cfg".toList then
          some ["string username = some_user".toList] else none)
        "default_config.cfg".toList)
      ("int".toList ++ [' '] ++ "username".toList ++ ['='] ++ " 5".toList)
    = NoSweatConfigFileParser.new1 decimal_lib
        (fun path => if path = "default_config.cfg".toList then
          some ["string username = some_user".toList] else none)
        "default_config.cfg".toList :=
  (C9_unknown_or_mismatched _ (new1_disjoint decimal_lib _ _)).2.2 VType.int VType.string
    "username".toList " 5".toList '=' (Or.inl rfl) (by decide) (by decide) (by decide)
    (by decide) (by decide) (by decide)

/-! ## C10: the first declaration wins -/

/-- C10: once a key is taken (some line of the default file has registered it), every later
declaration line with that key, whatever its type and value, leaves the store as it was, and
the four entries of the key at the end of the default parse are those it had right after the
line that registered it: its map, default value and current value are those of the first
successful declaration. -/
theorem C10_first_declaration_wins (s : NoSweatConfigFileParser L) (key : Str)
    (htaken : is_key_available s key = false) :
    (∀ line type value, default_tokens line = some (type, key, value) →
      parse_default_config_file_line s line = s) ∧
    (∀ (T : VType) (mid rest : Str) (op : Char),
      op = '=' ∨ op = ':' → ':' ∉ mid ∧ '=' ∉ mid → trim mid = key → key ≠ [] →
      trim rest ≠ [] → (T.name ++ [' '] ++ mid ++ [op] ++ rest).length ≤ npos →
      parse_default_config_file_line s (T.name ++ [' '] ++ mid ++ [op] ++ rest) = s) ∧
    (∀ lines : List Str,
      (lines.foldl parse_default_config_file_line s).integer_config_values_ key
        = s.integer_config_values_ key ∧
      (lines.foldl parse_default_config_file_line s).float_config_values_ key
        = s.float_config_values_ key ∧
      (lines.foldl parse_default_config_file_line s).string_config_values_ key
        = s.string_config_values_ key ∧
      (lines.foldl parse_default_config_file_line s).bool_config_values_ key
        = s.bool_config_values_ key) ∧
    (∀ (fs : FileSystem) (default_config_file : Str) (pre post : List Str) (line : Str),
      fs default_config_file = some (pre ++ line :: post) →
      s = parse_default_config_file_line (pre.foldl parse_default_config_file_line
        (NoSweatConfigFileParser.init L default_config_file)) line →
      (NoSweatConfigFileParser.new1 L fs default_config_file).integer_config_values_ key
        = s.integer_config_values_ key ∧
      (NoSweatConfigFileParser.new1 L fs default_config_file).float_config_values_ key
        = s.float_config_values_ key ∧
      (NoSweatConfigFileParser.new1 L fs default_config_file).string_config_values_ key
        = s.string_config_values_ key ∧
      (NoSweatConfigFileParser.new1 L fs default_config_file).bool_config_values_ key
        = s.bool_config_values_ key) := by
  refine ⟨?_, ?_, ?_, ?_⟩
  · intro line type value htok
    rw [parse_default_config_file_line_eq, htok]
    exact default_dispatch_of_taken s type key value htaken
  · intro T mid rest op hop hmid hk hkne hv hlen
    have hline : T.name ++ [' '] ++ mid ++ [op] ++ rest
        = T.name ++ ' ' :: (mid ++ op :: rest) := by simp
    rw [hline] at hlen ⊢
    have hml : mid.length ≤ npos ∧ rest.length ≤ npos := by
      have := hlen
      simp only [List.length_append, List.length_cons] at this
      omega
    rw [trim_eq_strip mid hml.1] at hk
    rw [trim_eq_strip rest hml.2] at hv
    rw [parse_default_config_file_line_declaration s T mid rest op hop hmid
      (by rw [hk]; exact hkne) hv hlen, hk]
    exact default_dispatch_of_taken s _ key _ htaken
  · intro lines
    exact foldl_parse_default_config_file_line_frame lines s key htaken
  · intro fs default_config_file pre post line hfile hs
    exact new1_after_registration L fs default_config_file pre post line key hfile s hs htaken

/-- C10 at a concrete file: `speed` is declared `float` first; the later `int` and `float`
declarations of `speed` change nothing, and `get_int` of `speed` is `0`. -/
theorem C10_first_declaration_wins_witness :
    (NoSweatConfigFileParser.new1 decimal_lib
      (fun path => if path = "default_config.cfg".toList then
        some ["float speed = 1.0".toList, "int speed = 2".toList, "float speed = 3.5".toList]
        else none)
      "default_config.cfg".toList).float_config_values_ "speed".toList
    = (parse_default_config_file_line
        (NoSweatConfigFileParser.init decimal_lib "default_config.cfg".toList)
        "float speed = 1.0".toList).float_config_values_ "speed".toList :=
  ((C10_first_declaration_wins
    (parse_default_config_file_line
      (NoSweatConfigFileParser.init decimal_lib "default_config.cfg".toList)
      "float speed = 1.0".toList) "speed".toList (by decide)).2.2.2
    (fun path => if path = "default_config.cfg".toList then
        some ["float speed = 1.0".toList, "int speed = 2".toList, "float speed = 3.5".toList]
        else none)
    "default_config.cfg".toList [] ["int speed = 2".toList, "float speed = 3.5".toList]
    "float speed = 1.0".toList (by decide) rfl).2.1

/-! ## C6: an overlay line sets the value of an existing key -/

theorem rdropWhile_append_rtakeWhile {α : Type} (p : α → Bool) (l : List α) :
    l.rdropWhile p ++ l.rtakeWhile p = l := by
  unfold List.rdropWhile List.rtakeWhile
  rw [← List.reverse_append, List.takeWhile_append_dropWhile, List.reverse_reverse]

theorem takeWhile_append_of_none {α : Type} (p : α → Bool) (a w : List α)
    (hw : ∀ x ∈ w, p x = false) : (a ++ w).takeWhile p = a.takeWhile p := by
  have hw0 : w.takeWhile p = [] := by
    cases w with
    | nil => rfl
    | cons x w => simp [List.takeWhile_cons, hw x (List.mem_cons_self _ _)]
  rw [List.takeWhile_append, hw0, List.append_nil]
  split_ifs with h
  · exact ((List.takeWhile_prefix p).eq_of_length h).symm
  · rfl

theorem whitespace_not_digit (c : Char) (h : is_whitespace c = true) : isdigit c = false := by
  cases hd : isdigit c
  · rfl
  · have := isdigit_not_isspace c hd
    rw [← is_whitespace_eq_isspace, h] at this
    exact absurd this (by decide)

theorem isspace_fun : isspace = is_whitespace := by
  funext c
  exact (is_whitespace_eq_isspace c).symm

/-- Whitespace after a text with a visible character does not change what `std::stoi` reads. -/
theorem stoi_append_whitespace (v w : Str) (hv : ∃ c ∈ v, is_whitespace c = false)
    (hw : ∀ c ∈ w, is_whitespace c = true) : stoi (v ++ w) = stoi v := by
  have hne : v.dropWhile is_whitespace ≠ [] := by
    intro e
    obtain ⟨c, hc, hcw⟩ := hv
    have := List.dropWhile_eq_nil_iff.1 e c hc
    simp [hcw] at this
  obtain ⟨c, t, hct⟩ := List.exists_cons_of_ne_nil hne
  have hdrop : (v ++ w).dropWhile is_whitespace = c :: (t ++ w) := by
    rw [List.dropWhile_append, hct]
    rfl
  have hwd : ∀ x ∈ w, isdigit x = false := fun x hx => whitespace_not_digit x (hw x hx)
  unfold stoi
  simp only [isspace_fun, hdrop, hct, List.head?_cons, List.tail_cons]
  have htw : (if some c = some '-' ∨ some c = some '+' then t ++ w
      else c :: (t ++ w)).takeWhile isdigit
      = (if some c = some '-' ∨ some c = some '+' then t else c :: t).takeWhile isdigit := by
    split_ifs
    · exact takeWhile_append_of_none isdigit t w hwd
    · exact takeWhile_append_of_none isdigit (c :: t) w hwd
  rw [htw]

/-- The value that `std::stoi` reads does not depend on surrounding whitespace. -/
theorem stoi_strip (v : Str) : stoi (strip v) = stoi v := by
  have hdw : stoi (v.dropWhile is_whitespace) = stoi v := by
    unfold stoi
    simp only [isspace_fun, List.dropWhile_idempotent]
  by_cases hv : strip v = []
  · have hall := (strip_eq_nil_iff v).1 hv
    rw [hv, ← hdw, List.dropWhile_eq_nil_iff.2 hall]
  · rw [← hdw]
    have hsplit := rdropWhile_append_rtakeWhile is_whitespace (v.dropWhile is_whitespace)
    have hex : ∃ c ∈ strip v, is_whitespace c = false := by
      have := (strip_ne_nil_iff (strip v)).1 (by rw [strip_strip]; exact hv)
      exact this
    have := stoi_append_whitespace (strip v)
      ((v.dropWhile is_whitespace).rtakeWhile is_whitespace) hex
      (fun c hc => List.mem_rtakeWhile_imp hc)
    have e : strip v ++ (v.dropWhile is_whitespace).rtakeWhile is_whitespace
        = v.dropWhile is_whitespace := hsplit
    rw [← this, e]

theorem tolower_whitespace (c : Char) (h : is_whitespace c = true) : tolower c = c := by
  simp only [is_whitespace, whitespace_chars, decide_eq_true_eq, List.mem_cons,
    List.mem_singleton, List.not_mem_nil, or_false] at h
  rcases h with rfl | rfl | rfl | rfl | rfl | rfl <;> decide

/-- A text that converts to a boolean is not empty and contains no whitespace. -/
theorem bool_of_value_no_whitespace (value : Str) (b : Bool)
    (h : bool_of_value value = some b) :
    value ≠ [] ∧ ∀ c ∈ value, is_whitespace c = false := by
  have hmem : value.map tolower ∈ accepted_boolean_true_values_ ++ accepted_boolean_false_values_ := by
    obtain ⟨ht, hf, _⟩ := bool_of_value_cases value
    rw [List.mem_append]
    cases b
    · exact Or.inr (hf.1 h)
    · exact Or.inl (ht.1 h)
  have hnames : ∀ name ∈ accepted_boolean_true_values_ ++ accepted_boolean_false_values_,
      name ≠ [] ∧ ∀ x ∈ name, is_whitespace x = false := by decide
  obtain ⟨hne, hws⟩ := hnames _ hmem
  constructor
  · intro e
    apply hne
    rw [e]
    rfl
  · intro c hc
    cases hcw : is_whitespace c
    · rfl
    · have h1 := hws (tolower c) (List.mem_map_of_mem tolower hc)
      rw [tolower_whitespace c hcw, hcw] at h1
      exact absurd h1 (by decide)
theorem key_type_with_config_file (s : NoSweatConfigFileParser L) (config_file key : Str) :
    key_type { s with config_file_ := config_file } key = key_type s key := by
  simp [key_type, holds]

/-- An overlay line `<key> <op> <value>` that does not begin with a type keyword sets the key
as `set_value` does, with the trimmed value. -/
theorem read_config_file_line_assignment (s : NoSweatConfigFileParser L)
    (key w1 w2 value : Str) (op : Char) (hop : op = '=' ∨ op = ':')
    (hkey : KeyShaped key)
    (hw1 : ∀ c ∈ w1, c ∈ whitespace_chars) (hw2 : ∀ c ∈ w2, c ∈ whitespace_chars)
    (hvalue : ∃ c ∈ value, is_whitespace c = false)
    (hlen : (key ++ w1 ++ [op] ++ w2 ++ value).length ≤ npos)
    (huntyped : ∀ type ∈ accepted_value_types_, ¬ type <+: key ++ w1 ++ [op] ++ w2 ++ value) :
    read_config_file_line s (key ++ w1 ++ [op] ++ w2 ++ value)
      = overlay_dispatch s [] key (strip value) := by
  have hline : key ++ w1 ++ [op] ++ w2 ++ value = (key ++ w1) ++ op :: (w2 ++ value) := by simp
  rw [hline] at hlen huntyped ⊢
  have hl : key.length ≤ npos := by
    have := hlen
    simp only [List.length_append, List.length_cons] at this
    omega
  obtain ⟨hk1, hk2⟩ := strip_key_whitespace key w1 hkey hl hw1
  have hv1 : strip (w2 ++ value) = strip value :=
    strip_append_left _ _ (whitespace_not_assignment w2 hw2).2.2
  have hA : ∀ c ∈ key ++ w1, c ∉ ['=', ':'] := by
    intro c hc ho
    rcases List.mem_append.1 hc with h | h
    · simp only [List.mem_cons, List.mem_singleton, List.not_mem_nil, or_false] at ho
      rcases ho with rfl | rfl
      · exact hkey.2.2.2 h
      · exact hkey.2.2.1 h
    · exact (whitespace_not_assignment w1 hw1).2.1 c h ho
  have hhead : ∀ c, (key ++ w1).head? = some c → is_whitespace c = false := by
    intro c hc
    have hd := ((strip_eq_self_iff key).1 hk2).1
    rw [dropWhile_eq_self_iff_head] at hd
    apply hd c
    cases key with
    | nil => exact absurd rfl hkey.1
    | cons a key => simpa using hc
  have hrest : ∃ c ∈ w2 ++ value, is_whitespace c = false := by
    obtain ⟨c, hc, hcw⟩ := hvalue
    exact ⟨c, List.mem_append_right _ hc, hcw⟩
  have htok := overlay_tokens_of_assignment (key ++ w1) (w2 ++ value) op
    (by rcases hop with rfl | rfl <;> decide) hA (by simp [hkey.1]) hhead hrest hlen huntyped
  rw [read_config_file_line_eq, htok, hk1, hv1]

/-- C6 (amended): for a store built from a default file, a key of the integer (string,
boolean) map, and a value text that converts for that type (for a string: a non-empty text
without leading or trailing whitespace), `read_config_file` on the single line
`<key> = <value>` (or with `':'`, with any whitespace around the assignment character) makes
the accessor of that type return the converted value, provided the line does not begin with
one of the keywords `int `, `float `, `string `, `bool `. -/
theorem C6_overlay_then_get (L : FloatLib) (fs : FileSystem)
    (default_config_file config_file key w1 w2 value : Str) (op : Char)
    (hdefault : ∀ lines, fs default_config_file = some lines →
      ∀ line ∈ lines, line.length ≤ npos)
    (hoverlay : fs config_file = some [key ++ w1 ++ [op] ++ w2 ++ value])
    (hop : op = '=' ∨ op = ':')
    (hw1 : ∀ c ∈ w1, c ∈ whitespace_chars) (hw2 : ∀ c ∈ w2, c ∈ whitespace_chars)
    (hlen : (key ++ w1 ++ [op] ++ w2 ++ value).length ≤ npos)
    (huntyped : ∀ type ∈ accepted_value_types_, ¬ type <+: key ++ w1 ++ [op] ++ w2 ++ value) :
    (∀ n, ((NoSweatConfigFileParser.new1 L fs default_config_file).integer_config_values_
        key).isSome = true → stoi value = some n →
      get_int (read_config_file fs (NoSweatConfigFileParser.new1 L fs default_config_file)
        config_file) key = n) ∧
    (((NoSweatConfigFileParser.new1 L fs default_config_file).string_config_values_
        key).isSome = true → value ≠ [] → trim value = value →
      get_string (read_config_file fs (NoSweatConfigFileParser.new1 L fs default_config_file)
        config_file) key = value) ∧
    (∀ b, ((NoSweatConfigFileParser.new1 L fs default_config_file).bool_config_values_
        key).isSome = true → bool_of_value value = some b →
      get_bool (read_config_file fs (NoSweatConfigFileParser.new1 L fs default_config_file)
        config_file) key = b) := by
  have hd := new1_disjoint L fs default_config_file
  have hs := new1_shaped L fs default_config_file hdefault
  generalize NoSweatConfigFileParser.new1 L fs default_config_file = s at hd hs ⊢
  have hvl : value.length ≤ npos := by
    have := hlen
    simp only [List.length_append, List.length_cons] at this
    omega
  have hread : ∀ T : VType, holds s T key = true → (∃ c ∈ value, is_whitespace c = false) →
      read_config_file fs s config_file
        = overlay_dispatch { s with config_file_ := config_file } [] key (strip value) ∧
      key_type { s with config_file_ := config_file } key = some T := by
    intro T hT hvalue
    rw [read_config_file_eq, hoverlay]
    simp only [List.foldl_cons, List.foldl_nil]
    refine ⟨read_config_file_line_assignment _ key w1 w2 value op hop (hs key T hT) hw1 hw2
      hvalue hlen huntyped, ?_⟩
    rw [key_type_with_config_file]
    exact key_type_of_holds s hd key T hT
  refine ⟨?_, ?_, ?_⟩
  · intro n hk hv
    have hvis : ∃ c ∈ value, is_whitespace c = false := by
      rw [← strip_ne_nil_iff]
      intro e
      have := stoi_strip value
      have h0 : stoi [] = none := by decide
      rw [e, hv, h0] at this
      exact absurd this (by simp)
    obtain ⟨h1, h2⟩ := hread .int hk hvis
    rw [h1]
    exact get_int_overlay_dispatch _ key _ n h2 (by rw [stoi_strip]; exact hv)
  · intro hk hne htrim
    have hst : strip value = value := by
      rw [← trim_eq_strip value hvl]
      exact htrim
    have hvis : ∃ c ∈ value, is_whitespace c = false := by
      rw [← strip_ne_nil_iff, hst]
      exact hne
    obtain ⟨h1, h2⟩ := hread .string hk hvis
    rw [h1, hst]
    exact get_string_overlay_dispatch _ key value h2
  · intro b hk hv
    obtain ⟨hne, hws⟩ := bool_of_value_no_whitespace value b hv
    obtain ⟨c, t, rfl⟩ := List.exists_cons_of_ne_nil hne
    obtain ⟨h1, h2⟩ := hread .bool hk ⟨c, List.mem_cons_self _ _, hws c (List.mem_cons_self _ _)⟩
    rw [h1, strip_eq_self_of_no_whitespace _ hws]
    exact get_bool_overlay_dispatch _ key _ b h2 hv

/-- C6 (amended) at a concrete pair of files: `max_number_of_users = 22` after
`int max_number_of_users = 1`. -/
theorem C6_overlay_then_get_witness :
    get_int (read_config_file
      (fun path => if path = "default_config.cfg".toList then
        some ["int max_number_of_users = 1".toList] else
        if path = "config.cfg".toList then some ["max_number_of_users = 22".toList] else none)
      (NoSweatConfigFileParser.new1 decimal_lib
        (fun path => if path = "default_config.cfg".toList then
          some ["int max_number_of_users = 1".toList] else
          if path = "config.cfg".toList then some ["max_number_of_users = 22".toList] else none)
        "default_config.cfg".toList)
      "config.cfg".toList) "max_number_of_users".toList = 22 :=
  (C6_overlay_then_get decimal_lib _ "default_config.cfg".toList "config.cfg".toList
    "max_number_of_users".toList [' '] [' '] "22".toList '='
    (by decide) (by decide) (Or.inl rfl) (by decide) (by decide) (by decide)
    (by decide)).1 22 (by decide) (by decide)

/-- C6 as stated fails. First, `float precision` is a key of the integer map, `9` converts to
an `int`, and after the overlay line `float precision = 9` the accessor `get_int` still
returns the default `6`, because the line is read as a `float` line for the key `precision`.
Second, `username` is a key of the string map and the overlay line made of `username`, ` = `
and the empty value leaves `get_string` at `some_user`, because a line that ends with the
assignment character is skipped. -/
theorem C6_counterexample :
    (((NoSweatConfigFileParser.new1 decimal_lib
        (fun path => if path = "default_config.cfg".toList then
          some ["int float precision = 6".toList] else
          if path = "config.cfg".toList then some ["float precision = 9".toList] else none)
        "default_config.cfg".toList).integer_config_values_ "float precision".toList).isSome
      = true ∧
    stoi "9".toList = some 9 ∧
    "float precision = 9".toList = "float precision".toList ++ " = ".toList ++ "9".toList ∧
    get_int (read_config_file
      (fun path => if path = "default_config.cfg".toList then
        some ["int float precision = 6".toList] else
        if path = "config.cfg".toList then some ["float precision = 9".toList] else none)
      (NoSweatConfigFileParser.new1 decimal_lib
        (fun path => if path = "default_config.cfg".toList then
          some ["int float precision = 6".toList] else
          if path = "config.cfg".toList then some ["float precision = 9".toList] else none)
        "default_config.cfg".toList)
      "config.cfg".toList) "float precision".toList = 6) ∧
    (((NoSweatConfigFileParser.new1 decimal_lib
        (fun path => if path = "default_config.cfg".toList then
          some ["string username = some_user".toList] else
          if path = "config.cfg".toList then some ["username = ".toList] else none)
        "default_config.cfg".toList).string_config_values_ "username".toList).isSome
      = true ∧
    "username = ".toList = "username".toList ++ " = ".toList ++ [] ∧
    get_string (read_config_file
      (fun path => if path = "default_config.cfg".toList then
        some ["string username = some_user".toList] else
        if path = "config.cfg".toList then some ["username = ".toList] else none)
      (NoSweatConfigFileParser.new1 decimal_lib
        (fun path => if path = "default_config.cfg".toList then
          some ["string username = some_user".toList] else
          if path = "config.cfg".toList then some ["username = ".toList] else none)
        "default_config.cfg".toList)
      "config.cfg".toList) "username".toList = "some_user".toList) := by
  decide

/-! ## C11: the invariant of the reachable stores -/

theorem read_config_file_holds (fs : FileSystem) (s : NoSweatConfigFileParser L)
    (config_file key : Str) (T : VType) :
    holds (read_config_file fs s config_file) T key = holds s T key := by
  obtain ⟨h1, h2, h3, h4⟩ := read_config_file_keys fs s config_file key
  cases T <;> simp only [holds] <;> assumption

theorem read_config_files_holds (calls : List (FileSystem × Str))
    (s : NoSweatConfigFileParser L) (key : Str) (T : VType) :
    holds (read_config_files s calls) T key = holds s T key := by
  unfold read_config_files
  induction calls generalizing s with
  | nil => rfl
  | cons call rest ih =>
    simp only [List.foldl_cons]
    rw [ih]
    exact read_config_file_holds call.1 s call.2 key T

theorem read_config_files_disjoint (calls : List (FileSystem × Str))
    (s : NoSweatConfigFileParser L) (hd : KeysDisjoint s) :
    KeysDisjoint (read_config_files s calls) := by
  unfold KeysDisjoint
  intro key T M hT hM
  rw [read_config_files_holds] at hT hM
  exact hd key T M hT hM

theorem holds_congr (s s' : NoSweatConfigFileParser L) (k : Str)
    (h1 : s'.integer_config_values_ k = s.integer_config_values_ k)
    (h2 : s'.float_config_values_ k = s.float_config_values_ k)
    (h3 : s'.string_config_values_ k = s.string_config_values_ k)
    (h4 : s'.bool_config_values_ k = s.bool_config_values_ k) (T : VType) :
    holds s' T k = holds s T k := by
  cases T <;> simp only [holds, h1, h2, h3, h4]

/-- C11: in every store reached from the empty store by the default parse followed by any
number of calls of `read_config_file`, each key is a key of at most one of the four maps; the
overlay calls leave each key in the map the default parse put it in; and during the default
parse a key that a map holds after some lines is held by the same map at the end. -/
theorem C11_reachable_invariant (L : FloatLib) (fs : FileSystem) (default_config_file : Str)
    (calls : List (FileSystem × Str)) (key : Str) :
    KeysDisjoint (read_config_files (NoSweatConfigFileParser.new1 L fs default_config_file)
      calls) ∧
    (∀ T, holds (read_config_files (NoSweatConfigFileParser.new1 L fs default_config_file)
        calls) T key
      = holds (NoSweatConfigFileParser.new1 L fs default_config_file) T key) ∧
    (∀ (pre post : List Str) (T : VType), fs default_config_file = some (pre ++ post) →
      holds (pre.foldl parse_default_config_file_line
        (NoSweatConfigFileParser.init L default_config_file)) T key = true →
      ∀ M, holds (read_config_files (NoSweatConfigFileParser.new1 L fs default_config_file)
        calls) M key = decide (M = T)) := by
  refine ⟨read_config_files_disjoint calls _ (new1_disjoint L fs default_config_file),
    fun T => read_config_files_holds calls _ key T, ?_⟩
  intro pre post T hfile hT M
  rw [read_config_files_holds, new1_eq L fs default_config_file _ hfile, List.foldl_append]
  have hd : KeysDisjoint (pre.foldl parse_default_config_file_line
      (NoSweatConfigFileParser.init L default_config_file)) :=
    foldl_parse_default_config_file_line_disjoint pre _ (keysDisjoint_init _)
  generalize pre.foldl parse_default_config_file_line
    (NoSweatConfigFileParser.init L default_config_file) = s0 at hT hd
  have htaken : is_key_available s0 key = false := (is_key_available_eq_false s0 key).2 ⟨T, hT⟩
  obtain ⟨h1, h2, h3, h4⟩ := foldl_parse_default_config_file_line_frame post s0 key htaken
  rw [holds_congr s0 _ key h1 h2 h3 h4 M]
  by_cases hMT : M = T
  · subst hMT
    simp [hT]
  · simp only [hMT, decide_False]
    cases hM : holds s0 M key
    · rfl
    · exact absurd (hd key M T hM hT) hMT

/-- C11 at a concrete run: `speed` is registered as a float by the first line; after the rest
of the default file and two overlay calls it is still a float key and no integer key. -/
theorem C11_reachable_invariant_witness :
    holds (read_config_files
      (NoSweatConfigFileParser.new1 decimal_lib
        (fun path => if path = "default_config.cfg".toList then
          some ["float speed = 1.0".toList, "int speed = 2".toList] else none)
        "default_config.cfg".toList)
      [(fun _ => some ["int speed = 3".toList, "speed = 4.5".toList], "config.cfg".toList),
       (fun _ => none, "missing.cfg".toList)]) VType.int "speed".toList
    = decide (VType.int = VType.float) :=
  (C11_reachable_invariant decimal_lib _ "default_config.cfg".toList _ "speed".toList).2.2
    ["float speed = 1.0".toList] ["int speed = 2".toList] VType.float (by decide) (by decide)
    VType.int

/-! ## Declarations by type -/

/-- A declaration whose value fails to convert to the declared type changes nothing. -/
theorem default_dispatch_conversion_fails (s : NoSweatConfigFileParser L) (T : VType)
    (key value : Str) (hf : conversion_fails L T value = true) :
    default_dispatch s T.name key value = s := by
  cases T <;>
    simp only [conversion_fails, Option.isNone_iff_eq_none, Bool.false_eq_true] at hf <;>
    simp [default_dispatch, VType.name, add_default_integer_value, add_default_float_value,
      add_default_bool_value, hf]

theorem get_int_default_dispatch (s : NoSweatConfigFileParser L) (key value : Str) (n : Int)
    (ha : is_key_available s key = true) (hv : stoi value = some n) :
    (default_dispatch s VType.int.name key value).integer_config_values_ key = some (n, n) ∧
    get_int (default_dispatch s VType.int.name key value) key = n := by
  simp [default_dispatch, VType.name, add_default_integer_value, ha, hv, get_int, map_assign]

theorem get_float_default_dispatch (s : NoSweatConfigFileParser L) (key value : Str) (x : L.F)
    (ha : is_key_available s key = true) (hv : L.stof value = some x) :
    (default_dispatch s VType.float.name key value).float_config_values_ key = some (x, x) ∧
    get_float (default_dispatch s VType.float.name key value) key = x := by
  simp [default_dispatch, VType.name, add_default_float_value, ha, hv, get_float, map_assign]

theorem get_string_default_dispatch (s : NoSweatConfigFileParser L) (key value : Str)
    (ha : is_key_available s key = true) :
    (default_dispatch s VType.string.name key value).string_config_values_ key
      = some (value, value) ∧
    get_string (default_dispatch s VType.string.name key value) key = value := by
  simp [default_dispatch, VType.name, add_default_string_value, ha, get_string, map_assign]

theorem get_bool_default_dispatch (s : NoSweatConfigFileParser L) (key value : Str) (b : Bool)
    (ha : is_key_available s key = true) (hv : bool_of_value value = some b) :
    (default_dispatch s VType.bool.name key value).bool_config_values_ key = some (b, b) ∧
    get_bool (default_dispatch s VType.bool.name key value) key = b := by
  simp [default_dispatch, VType.name, add_default_bool_value, ha, hv, get_bool, map_assign]

theorem default_dispatch_accessors_of_ne (s : NoSweatConfigFileParser L)
    (type key value k : Str) (h : k ≠ key) :
    get_int (default_dispatch s type key value) k = get_int s k ∧
    get_float (default_dispatch s type key value) k = get_float s k ∧
    get_string (default_dispatch s type key value) k = get_string s k ∧
    get_bool (default_dispatch s type key value) k = get_bool s k ∧
    is_key_available (default_dispatch s type key value) k = is_key_available s k := by
  obtain ⟨h1, h2, h3, h4⟩ := default_dispatch_of_ne s type key value k h
  refine ⟨?_, ?_, ?_, ?_, is_key_available_congr s _ k h1 h2 h3 h4⟩
  · unfold get_int
    rw [h1]
  · unfold get_float
    rw [h2]
  · unfold get_string
    rw [h3]
  · unfold get_bool
    rw [h4]

theorem parse_default_config_file_line_of_tokens (s : NoSweatConfigFileParser L)
    (line type key value : Str) (h : default_tokens line = some (type, key, value)) :
    parse_default_config_file_line s line = default_dispatch s type key value := by
  rw [parse_default_config_file_line_eq, h]

theorem available_init (L : FloatLib) (default_config_file key : Str) :
    is_key_available (NoSweatConfigFileParser.init L default_config_file) key = true := by
  simp [is_key_available, NoSweatConfigFileParser.init]

/-! ## C12 and C13: lines written with `:=` -/

/-- C12 (amended): the default parser splits a declaration at the first `':'` or `'='`, so in
the reference file written with `:=` every value starts with `'='`: the `int` and the `bool`
declarations are dropped (`get_int` returns `0`, `get_bool` returns `false`) and
`get_string` of `username` returns `= some_user`; the same four lines written with a single
`=` give `1`, `some_user` and `true`. This holds whatever `std::stof` does with the
`float` line. -/
theorem C12_reference_default_file (L : FloatLib) (fs : FileSystem) (colon equal : Str)
    (hcolon : fs colon = some ["int max_number_of_users := 1".toList,
      "float movement_speed := 12.34".toList, "string username := some_user".toList,
      "bool use_accelerator := right".toList])
    (hequal : fs equal = some ["int max_number_of_users = 1".toList,
      "float movement_speed = 12.34".toList, "string username = some_user".toList,
      "bool use_accelerator = right".toList]) :
    (get_int (NoSweatConfigFileParser.new1 L fs colon) "max_number_of_users".toList = 0 ∧
      get_string (NoSweatConfigFileParser.new1 L fs colon) "username".toList
        = "= some_user".toList ∧
      get_bool (NoSweatConfigFileParser.new1 L fs colon) "use_accelerator".toList = false) ∧
    (get_int (NoSweatConfigFileParser.new1 L fs equal) "max_number_of_users".toList = 1 ∧
      get_string (NoSweatConfigFileParser.new1 L fs equal) "username".toList
        = "some_user".toList ∧
      get_bool (NoSweatConfigFileParser.new1 L fs equal) "use_accelerator".toList = true) := by
  constructor
  · rw [new1_eq L fs colon _ hcolon]
    simp only [List.foldl_cons, List.foldl_nil]
    generalize hs0 : NoSweatConfigFileParser.init L colon = s0
    have ha0 : ∀ k, is_key_available s0 k = true := fun k => by
      rw [← hs0]
      exact available_init L colon k
    have hz : get_int s0 "max_number_of_users".toList = 0
        ∧ get_bool s0 "use_accelerator".toList = false := by
      rw [← hs0]
      exact ⟨rfl, rfl⟩
    rw [parse_default_config_file_line_of_tokens s0 _ VType.int.name
      "max_number_of_users".toList "= 1".toList (by decide),
      default_dispatch_conversion_fails s0 .int "max_number_of_users".toList
        "= 1".toList (by show (stoi "= 1".toList).isNone = true; decide),
      parse_default_config_file_line_of_tokens s0 _ VType.float.name
      "movement_speed".toList "= 12.34".toList (by decide)]
    have h2 := fun k h => default_dispatch_accessors_of_ne s0 VType.float.name
      "movement_speed".toList "= 12.34".toList k h
    generalize default_dispatch s0 VType.float.name "movement_speed".toList
      "= 12.34".toList = s2 at h2 ⊢
    rw [parse_default_config_file_line_of_tokens s2 _ VType.string.name
      "username".toList "= some_user".toList (by decide)]
    have ha2 : is_key_available s2 "username".toList = true := by
      rw [(h2 _ (by decide)).2.2.2.2]
      exact ha0 _
    have hu := (get_string_default_dispatch s2 "username".toList "= some_user".toList ha2).2
    have h3 := fun k h => default_dispatch_accessors_of_ne s2 VType.string.name
      "username".toList "= some_user".toList k h
    generalize default_dispatch s2 VType.string.name "username".toList
      "= some_user".toList = s3 at h3 hu ⊢
    rw [parse_default_config_file_line_of_tokens s3 _ VType.bool.name
      "use_accelerator".toList "= right".toList (by decide),
      default_dispatch_conversion_fails s3 .bool "use_accelerator".toList
        "= right".toList (by show (bool_of_value "= right".toList).isNone = true; decide)]
    refine ⟨?_, hu, ?_⟩
    · rw [(h3 _ (by decide)).1, (h2 _ (by decide)).1]
      exact hz.1
    · rw [(h3 _ (by decide)).2.2.2.1, (h2 _ (by decide)).2.2.2.1]
      exact hz.2
  · rw [new1_eq L fs equal _ hequal]
    simp only [List.foldl_cons, List.foldl_nil]
    generalize hs0 : NoSweatConfigFileParser.init L equal = s0
    have ha0 : ∀ k, is_key_available s0 k = true := fun k => by
      rw [← hs0]
      exact available_init L equal k
    rw [parse_default_config_file_line_of_tokens s0 _ VType.int.name
      "max_number_of_users".toList "1".toList (by decide)]
    have hm := (get_int_default_dispatch s0 "max_number_of_users".toList "1".toList 1
      (ha0 _) (by decide)).2
    have h1 := fun k h => default_dispatch_accessors_of_ne s0 VType.int.name
      "max_number_of_users".toList "1".toList k h
    generalize default_dispatch s0 VType.int.name "max_number_of_users".toList
      "1".toList = s1 at h1 hm ⊢
    rw [parse_default_config_file_line_of_tokens s1 _ VType.float.name
      "movement_speed".toList "12.34".toList (by decide)]
    have h2 := fun k h => default_dispatch_accessors_of_ne s1 VType.float.name
      "movement_speed".toList "12.34".toList k h
    generalize default_dispatch s1 VType.float.name "movement_speed".toList
      "12.34".toList = s2 at h2 ⊢
    have ha2 : ∀ k, k ≠ "max_number_of_users".toList → k ≠ "movement_speed".toList →
        is_key_available s2 k = true := by
      intro k hk1 hk2
      rw [(h2 k hk2).2.2.2.2, (h1 k hk1).2.2.2.2]
      exact ha0 k
    rw [parse_default_config_file_line_of_tokens s2 _ VType.string.name
      "username".toList "some_user".toList (by decide)]
    have hu := (get_string_default_dispatch s2 "username".toList "some_user".toList
      (ha2 _ (by decide) (by decide))).2
    have h3 := fun k h => default_dispatch_accessors_of_ne s2 VType.string.name
      "username".toList "some_user".toList k h
    generalize default_dispatch s2 VType.string.name "username".toList
      "some_user".toList = s3 at h3 hu ⊢
    have ha3 : is_key_available s3 "use_accelerator".toList = true := by
      rw [(h3 _ (by decide)).2.2.2.2]
      exact ha2 _ (by decide) (by decide)
    rw [parse_default_config_file_line_of_tokens s3 _ VType.bool.name
      "use_accelerator".toList "right".toList (by decide)]
    have hb := (get_bool_default_dispatch s3 "use_accelerator".toList "right".toList true
      ha3 (by decide)).2
    have h4 := fun k h => default_dispatch_accessors_of_ne s3 VType.bool.name
      "use_accelerator".toList "right".toList k h
    generalize default_dispatch s3 VType.bool.name "use_accelerator".toList
      "right".toList = s4 at h4 hb ⊢
    refine ⟨?_, ?_, hb⟩
    · rw [(h4 _ (by decide)).1, (h3 _ (by decide)).1, (h2 _ (by decide)).1]
      exact hm
    · rw [(h4 _ (by decide)).2.2.1]
      exact hu

/-- C12 (amended) at a concrete file system with both files. -/
theorem C12_reference_default_file_witness :
    get_string (NoSweatConfigFileParser.new1 decimal_lib
      (fun path => if path = "colon.cfg".toList then
        some ["int max_number_of_users := 1".toList,
          "float movement_speed := 12.34".toList, "string username := some_user".toList,
          "bool use_accelerator := right".toList]
        else some ["int max_number_of_users = 1".toList,
          "float movement_speed = 12.34".toList, "string username = some_user".toList,
          "bool use_accelerator = right".toList])
      "colon.cfg".toList) "username".toList = "= some_user".toList :=
  (C12_reference_default_file decimal_lib _ "colon.cfg".toList "equal.cfg".toList
    (by decide) (by decide)).1.2.1

/-- C12 as stated fails: after the default parse of the four lines written with `:=`,
`get_int` of `max_number_of_users` is `0`, not `1`, `get_string` of `username` is
`= some_user`, not `some_user`, and `get_bool` of `use_accelerator` is `false`, not `true`. -/
theorem C12_counterexample :
    get_int (NoSweatConfigFileParser.new1 decimal_lib
      (fun _ => some ["int max_number_of_users := 1".toList,
        "float movement_speed := 12.34".toList, "string username := some_user".toList,
        "bool use_accelerator := right".toList])
      "default_config.cfg".toList) "max_number_of_users".toList ≠ 1 ∧
    get_string (NoSweatConfigFileParser.new1 decimal_lib
      (fun _ => some ["int max_number_of_users := 1".toList,
        "float movement_speed := 12.34".toList, "string username := some_user".toList,
        "bool use_accelerator := right".toList])
      "default_config.cfg".toList) "username".toList ≠ "some_user".toList ∧
    get_bool (NoSweatConfigFileParser.new1 decimal_lib
      (fun _ => some ["int max_number_of_users := 1".toList,
        "float movement_speed := 12.34".toList, "string username := some_user".toList,
        "bool use_accelerator := right".toList])
      "default_config.cfg".toList) "use_accelerator".toList ≠ true := by
  decide

theorem get_string_overlay_dispatch_typed (s : NoSweatConfigFileParser L) (key value : Str)
    (hk : (s.string_config_values_ key).isSome = true) :
    get_string (overlay_dispatch s VType.string.name key value) key = value := by
  have hn : (s.string_config_values_ key).isNone = false := by
    cases h : s.string_config_values_ key <;> simp_all
  simp [overlay_dispatch, VType.name, set_string_value, hn, get_string, map_assign_second]

theorem read_config_file_single (fs : FileSystem) (s : NoSweatConfigFileParser L)
    (config_file line : Str) (h : fs config_file = some [line]) :
    read_config_file fs s config_file
      = read_config_file_line { s with config_file_ := config_file } line := by
  rw [read_config_file_eq, h]
  simp only [List.foldl_cons, List.foldl_nil]

/-- C13 (amended): on a store in which `username` is a string key, `read_config_file` on the
line `string username := some_other_user` makes `get_string` of `username` return
`= some_other_user`, the text after the first assignment character `':'`; on the line
`string username = some_other_user`, and on the line `string username : some_other_user`
with a single `':'`, it makes it return `some_other_user`. -/
theorem C13_typed_overlay_line (fs : FileSystem) (s : NoSweatConfigFileParser L)
    (colon equal single : Str)
    (hcolon : fs colon = some ["string username := some_other_user".toList])
    (hequal : fs equal = some ["string username = some_other_user".toList])
    (hsingle : fs single = some ["string username : some_other_user".toList])
    (hkey : (s.string_config_values_ "username".toList).isSome = true) :
    get_string (read_config_file fs s colon) "username".toList
      = "= some_other_user".toList ∧
    get_string (read_config_file fs s equal) "username".toList
      = "some_other_user".toList ∧
    get_string (read_config_file fs s single) "username".toList
      = "some_other_user".toList := by
  refine ⟨?_, ?_, ?_⟩
  · rw [read_config_file_single fs s colon _ hcolon, read_config_file_line_eq,
      show overlay_tokens "string username := some_other_user".toList
        = some (VType.string.name, "username".toList, "= some_other_user".toList) by decide]
    exact get_string_overlay_dispatch_typed _ _ _ hkey
  · rw [read_config_file_single fs s equal _ hequal, read_config_file_line_eq,
      show overlay_tokens "string username = some_other_user".toList
        = some (VType.string.name, "username".toList, "some_other_user".toList) by decide]
    exact get_string_overlay_dispatch_typed _ _ _ hkey
  · rw [read_config_file_single fs s single _ hsingle, read_config_file_line_eq,
      show overlay_tokens "string username : some_other_user".toList
        = some (VType.string.name, "username".toList, "some_other_user".toList) by decide]
    exact get_string_overlay_dispatch_typed _ _ _ hkey

/-- C13 (amended) at the store built from `string username = some_user`: the three overlay
files give `= some_other_user`, `some_other_user` and `some_other_user`. -/
theorem C13_typed_overlay_line_witness :
    get_string (read_config_file
      (fun path => if path = "colon.cfg".toList then
          some ["string username := some_other_user".toList]
        else if path = "equal.cfg".toList then
          some ["string username = some_other_user".toList]
        else if path = "single.cfg".toList then
          some ["string username : some_other_user".toList]
        else some ["string username = some_user".toList])
      (NoSweatConfigFileParser.new1 decimal_lib
        (fun _ => some ["string username = some_user".toList]) "default_config.cfg".toList)
      "colon.cfg".toList) "username".toList = "= some_other_user".toList ∧
    get_string (read_config_file
      (fun path => if path = "colon.cfg".toList then
          some ["string username := some_other_user".toList]
        else if path = "equal.cfg".toList then
          some ["string username = some_other_user".toList]
        else if path = "single.cfg".toList then
          some ["string username : some_other_user".toList]
        else some ["string username = some_user".toList])
      (NoSweatConfigFileParser.new1 decimal_lib
        (fun _ => some ["string username = some_user".toList]) "default_config.cfg".toList)
      "equal.cfg".toList) "username".toList = "some_other_user".toList ∧
    get_string (read_config_file
      (fun path => if path = "colon.cfg".toList then
          some ["string username := some_other_user".toList]
        else if path = "equal.cfg".toList then
          some ["string username = some_other_user".toList]
        else if path = "single.cfg".toList then
          some ["string username : some_other_user".toList]
        else some ["string username = some_user".toList])
      (NoSweatConfigFileParser.new1 decimal_lib
        (fun _ => some ["string username = some_user".toList]) "default_config.cfg".toList)
      "single.cfg".toList) "username".toList = "some_other_user".toList :=
  C13_typed_overlay_line _ _ "colon.cfg".toList "equal.cfg".toList "single.cfg".toList
    (by decide) (by decide) (by decide) (by decide)

/-- C13 as stated fails: `username` is a string key, and after the overlay line
`string username := some_other_user` the accessor `get_string` returns `= some_other_user`,
not `some_other_user`. -/
theorem C13_counterexample :
    ((NoSweatConfigFileParser.new1 decimal_lib
      (fun path => if path = "default_config.cfg".toList then
          some ["string username = some_user".toList]
        else some ["string username := some_other_user".toList])
      "default_config.cfg".toList).string_config_values_ "username".toList).isSome = true ∧
    get_string (read_config_file
      (fun path => if path = "default_config.cfg".toList then
          some ["string username = some_user".toList]
        else some ["string username := some_other_user".toList])
      (NoSweatConfigFileParser.new1 decimal_lib
        (fun path => if path = "default_config.cfg".toList then
            some ["string username = some_user".toList]
          else some ["string username := some_other_user".toList])
        "default_config.cfg".toList)
      "config.cfg".toList) "username".toList ≠ "some_other_user".toList := by
  decide

/-! ## C14: a declaration whose value does not convert -/

/-- C14: a declaration line with a fresh key whose value fails to convert to the declared type
(for `int`: `std::stoi` finds no leading integer or one outside the 32 bit range; for `bool`:
the lower-cased value is none of the twelve accepted names) leaves the whole store as it was,
so the key is still in no map; this covers the lines `<type> <key> <op> <value>`. -/
theorem C14_default_conversion_failure (s : NoSweatConfigFileParser L) (T : VType)
    (key value : Str) (hfresh : is_key_available s key = true)
    (hfail : conversion_fails L T value = true) :
    (∀ line, default_tokens line = some (T.name, key, value) →
      parse_default_config_file_line s line = s ∧
      ∀ M, holds (parse_default_config_file_line s line) M key = false) ∧
    (∀ (mid rest : Str) (op : Char),
      op = '=' ∨ op = ':' → ':' ∉ mid ∧ '=' ∉ mid → trim mid = key → key ≠ [] →
      trim rest = value → value ≠ [] →
      (T.name ++ [' '] ++ mid ++ [op] ++ rest).length ≤ npos →
      parse_default_config_file_line s (T.name ++ [' '] ++ mid ++ [op] ++ rest) = s) ∧
    (conversion_fails L .int value = true ↔ stoi value = none) ∧
    (conversion_fails L .bool value = true ↔
      value.map tolower ∉ accepted_boolean_true_values_ ∧
      value.map tolower ∉ accepted_boolean_false_values_) ∧
    conversion_fails L .int "abc".toList = true ∧
    conversion_fails L .int "2147483648".toList = true ∧
    conversion_fails L .int "-2147483649".toList = true := by
  have hnone := (is_key_available_eq_true s key).1 hfresh
  refine ⟨?_, ?_, ?_, ?_, ?_, ?_, ?_⟩
  · intro line htok
    have e : parse_default_config_file_line s line = s := by
      rw [parse_default_config_file_line_of_tokens s line _ _ _ htok]
      exact default_dispatch_conversion_fails s T key value hfail
    rw [e]
    exact ⟨rfl, hnone⟩
  · intro mid rest op hop hmid hk hkne hv hvne hlen
    have hline : T.name ++ [' '] ++ mid ++ [op] ++ rest
        = T.name ++ ' ' :: (mid ++ op :: rest) := by simp
    rw [hline] at hlen ⊢
    have hml : mid.length ≤ npos ∧ rest.length ≤ npos := by
      have := hlen
      simp only [List.length_append, List.length_cons] at this
      omega
    rw [trim_eq_strip mid hml.1] at hk
    rw [trim_eq_strip rest hml.2] at hv
    rw [parse_default_config_file_line_declaration s T mid rest op hop hmid
      (by rw [hk]; exact hkne) (by rw [hv]; exact hvne) hlen, hk, hv]
    exact default_dispatch_conversion_fails s T key value hfail
  · simp [conversion_fails]
  · rw [← (bool_of_value_cases value).2.2]
    simp [conversion_fails]
  · show (stoi "abc".toList).isNone = true
    decide
  · show (stoi "2147483648".toList).isNone = true
    decide
  · show (stoi "-2147483649".toList).isNone = true
    decide

/-- C14 at concrete lines: `int asdf = abc` and `bool boolean = maybe` on the empty store. -/
theorem C14_default_conversion_failure_witness :
    (∀ M, holds (parse_default_config_file_line
        (NoSweatConfigFileParser.init decimal_lib "default_config.cfg".toList)
        "int asdf = abc".toList) M "asdf".toList = false) ∧
    (∀ M, holds (parse_default_config_file_line
        (NoSweatConfigFileParser.init decimal_lib "default_config.cfg".toList)
        "bool boolean = maybe".toList) M "boolean".toList = false) :=
  ⟨((C14_default_conversion_failure
      (NoSweatConfigFileParser.init decimal_lib "default_config.cfg".toList) VType.int
      "asdf".toList "abc".toList (by decide) (by decide)).1
      "int asdf = abc".toList (by decide)).2,
   ((C14_default_conversion_failure
      (NoSweatConfigFileParser.init decimal_lib "default_config.cfg".toList) VType.bool
      "boolean".toList "maybe".toList (by decide) (by decide)).1
      "bool boolean = maybe".toList (by decide)).2⟩

/-! ## C17: the two constructors -/

theorem parse_default_config_file_line_paths (s : NoSweatConfigFileParser L) (line : Str) :
    (parse_default_config_file_line s line).default_config_file_ = s.default_config_file_ ∧
    (parse_default_config_file_line s line).config_file_ = s.config_file_ := by
  rw [parse_default_config_file_line_eq]
  split
  · exact ⟨rfl, rfl⟩
  · exact default_dispatch_paths s _ _ _

theorem foldl_parse_default_config_file_line_paths (lines : List Str)
    (s : NoSweatConfigFileParser L) :
    (lines.foldl parse_default_config_file_line s).default_config_file_
      = s.default_config_file_ ∧
    (lines.foldl parse_default_config_file_line s).config_file_ = s.config_file_ := by
  induction lines generalizing s with
  | nil => exact ⟨rfl, rfl⟩
  | cons line rest ih =>
    simp only [List.foldl_cons]
    have h := parse_default_config_file_line_paths s line
    generalize parse_default_config_file_line s line = s' at h
    exact ⟨(ih s').1.trans h.1, (ih s').2.trans h.2⟩

theorem foldl_read_config_file_line_paths (lines : List Str)
    (s : NoSweatConfigFileParser L) :
    (lines.foldl read_config_file_line s).default_config_file_ = s.default_config_file_ ∧
    (lines.foldl read_config_file_line s).config_file_ = s.config_file_ := by
  induction lines generalizing s with
  | nil => exact ⟨rfl, rfl⟩
  | cons line rest ih =>
    simp only [List.foldl_cons]
    have h := read_config_file_line_paths s line
    generalize read_config_file_line s line = s' at h
    exact ⟨(ih s').1.trans h.1, (ih s').2.trans h.2⟩

theorem new1_paths (L : FloatLib) (fs : FileSystem) (default_config_file : Str) :
    (NoSweatConfigFileParser.new1 L fs default_config_file).default_config_file_
      = default_config_file ∧
    (NoSweatConfigFileParser.new1 L fs default_config_file).config_file_ = [] := by
  cases h : fs default_config_file with
  | none =>
    have e : NoSweatConfigFileParser.new1 L fs default_config_file
        = NoSweatConfigFileParser.init L default_config_file := by
      unfold NoSweatConfigFileParser.new1 parse_default_config_file
      simp [NoSweatConfigFileParser.init, h]
    rw [e]
    exact ⟨rfl, rfl⟩
  | some lines =>
    rw [new1_eq L fs default_config_file lines h]
    exact foldl_parse_default_config_file_line_paths lines _

theorem read_config_file_paths (fs : FileSystem) (s : NoSweatConfigFileParser L)
    (config_file : Str) :
    (read_config_file fs s config_file).default_config_file_ = s.default_config_file_ ∧
    (read_config_file fs s config_file).config_file_ = config_file := by
  rw [read_config_file_eq]
  split
  · exact foldl_read_config_file_line_paths _ _
  · exact ⟨rfl, rfl⟩

/-- C17: the store built by the two-argument constructor is the store built by the
one-argument constructor followed by one call of `read_config_file` on the overlay path: the
four maps and the two recorded paths are the same (the default path is the first argument, the
overlay path the second), and so is every accessor result. -/
theorem C17_constructors_agree (L : FloatLib) (fs : FileSystem)
    (default_config_file config_file : Str) :
    NoSweatConfigFileParser.new2 L fs default_config_file config_file
      = read_config_file fs (NoSweatConfigFileParser.new1 L fs default_config_file)
          config_file ∧
    (NoSweatConfigFileParser.new2 L fs default_config_file config_file).default_config_file_
      = default_config_file ∧
    (NoSweatConfigFileParser.new2 L fs default_config_file config_file).config_file_
      = config_file ∧
    (∀ key,
      get_int (NoSweatConfigFileParser.new2 L fs default_config_file config_file) key
        = get_int (read_config_file fs
          (NoSweatConfigFileParser.new1 L fs default_config_file) config_file) key ∧
      get_float (NoSweatConfigFileParser.new2 L fs default_config_file config_file) key
        = get_float (read_config_file fs
          (NoSweatConfigFileParser.new1 L fs default_config_file) config_file) key ∧
      get_string (NoSweatConfigFileParser.new2 L fs default_config_file config_file) key
        = get_string (read_config_file fs
          (NoSweatConfigFileParser.new1 L fs default_config_file) config_file) key ∧
      get_bool (NoSweatConfigFileParser.new2 L fs default_config_file config_file) key
        = get_bool (read_config_file fs
          (NoSweatConfigFileParser.new1 L fs default_config_file) config_file) key) := by
  have e : NoSweatConfigFileParser.new2 L fs default_config_file config_file
      = read_config_file fs (NoSweatConfigFileParser.new1 L fs default_config_file)
          config_file := by
    unfold NoSweatConfigFileParser.new2 NoSweatConfigFileParser.new1
    rfl
  rw [e]
  obtain ⟨h1, h2⟩ := read_config_file_paths fs
    (NoSweatConfigFileParser.new1 L fs default_config_file) config_file
  exact ⟨rfl, h1.trans (new1_paths L fs default_config_file).1, h2,
    fun _ => ⟨rfl, rfl, rfl, rfl⟩⟩

/-! ## C20: the shape of the keys of a reachable store -/

theorem substr_length_le (str : Str) (pos n : Nat) : (substr str pos n).length ≤ str.length := by
  unfold substr
  rw [List.length_take, List.length_drop]
  omega

theorem default_tokens_key_length (line type key value : Str) (hlen : line.length ≤ npos)
    (h : default_tokens line = some (type, key, value)) : key.length ≤ npos := by
  unfold default_tokens at h
  simp only [] at h
  split_ifs at h
  simp only [Option.some.injEq, Prod.mk.injEq] at h
  obtain ⟨_, hkey, _⟩ := h
  have b1 : (trim line).length ≤ npos := Nat.le_trans (length_trim_le line hlen) hlen
  generalize trim line = cl at hkey b1
  generalize find_first_of cl accepted_assignment_operators_ = i at hkey
  have b2 : (substr cl 0 i).length ≤ npos := Nat.le_trans (substr_length_le _ _ _) b1
  generalize substr cl 0 i = a at hkey b2
  have b3 : (trim a).length ≤ npos := Nat.le_trans (length_trim_le a b2) b2
  generalize trim a = tk at hkey b3
  generalize size_add (find tk [' ']) 1 = j at hkey
  have b4 : (substr tk j npos).length ≤ npos := Nat.le_trans (substr_length_le _ _ _) b3
  rw [← hkey]
  exact Nat.le_trans (length_trim_le _ b4) b4

theorem parse_default_config_file_line_bounded (s : NoSweatConfigFileParser L) (line : Str)
    (hlen : line.length ≤ npos) (hs : ∀ key T, holds s T key = true → key.length ≤ npos) :
    ∀ key T, holds (parse_default_config_file_line s line) T key = true →
      key.length ≤ npos := by
  rw [parse_default_config_file_line_eq]
  cases ht : default_tokens line with
  | none => exact hs
  | some tkv =>
    obtain ⟨type, key, value⟩ := tkv
    simp only []
    intro k T hT
    rcases default_dispatch_holds s type key value k T hT with h | ⟨rfl, _⟩
    · exact hs k T h
    · exact default_tokens_key_length line type k value hlen ht

theorem foldl_parse_default_config_file_line_bounded (lines : List Str)
    (s : NoSweatConfigFileParser L) (hlen : ∀ line ∈ lines, line.length ≤ npos)
    (hs : ∀ key T, holds s T key = true → key.length ≤ npos) :
    ∀ key T, holds (lines.foldl parse_default_config_file_line s) T key = true →
      key.length ≤ npos := by
  induction lines generalizing s with
  | nil => exact hs
  | cons line rest ih =>
    simp only [List.foldl_cons]
    have hs' := parse_default_config_file_line_bounded s line
      (hlen line (List.mem_cons_self _ _)) hs
    generalize parse_default_config_file_line s line = s' at hs'
    exact ih s' (fun l hl => hlen l (List.mem_cons_of_mem _ hl)) hs'

theorem new1_bounded (L : FloatLib) (fs : FileSystem) (default_config_file : Str)
    (hlen : ∀ lines, fs default_config_file = some lines → ∀ line ∈ lines, line.length ≤ npos) :
    ∀ key T, holds (NoSweatConfigFileParser.new1 L fs default_config_file) T key = true →
      key.length ≤ npos := by
  have hinit : ∀ key T, holds (NoSweatConfigFileParser.init L default_config_file) T key = true →
      key.length ≤ npos := by
    intro key T hT
    cases T <;> simp [holds, NoSweatConfigFileParser.init] at hT
  cases h : fs default_config_file with
  | none =>
    have e : NoSweatConfigFileParser.new1 L fs default_config_file
        = NoSweatConfigFileParser.init L default_config_file := by
      unfold NoSweatConfigFileParser.new1 parse_default_config_file
      simp [NoSweatConfigFileParser.init, h]
    rw [e]
    exact hinit
  | some lines =>
    rw [new1_eq L fs default_config_file lines h]
    exact foldl_parse_default_config_file_line_bounded _ _ (hlen lines h) hinit

theorem is_whitespace_iff (c : Char) : is_whitespace c = false ↔ c ∉ whitespace_chars := by
  simp [is_whitespace]

/-- C20: in every store reached by the default parse (of a file whose lines are representable
strings) and any number of calls of `read_config_file`, every key of every map is non-empty,
has no whitespace character (space, tab, LF, CR, VT, FF) at its start or end, and contains
neither `':'` nor `'='`; hence an accessor called with a key that is empty, starts or ends
with whitespace, or contains `':'` or `'='` returns the zero value of its type. -/
theorem C20_key_shape (L : FloatLib) (fs : FileSystem) (default_config_file : Str)
    (calls : List (FileSystem × Str)) (key : Str)
    (hlines : ∀ lines, fs default_config_file = some lines →
      ∀ line ∈ lines, line.length ≤ npos) :
    (∀ T, holds (read_config_files (NoSweatConfigFileParser.new1 L fs default_config_file)
        calls) T key = true →
      key ≠ [] ∧ trim key = key ∧
      (∀ c, key.head? = some c → c ∉ whitespace_chars) ∧
      (∀ c, key.getLast? = some c → c ∉ whitespace_chars) ∧
      ':' ∉ key ∧ '=' ∉ key) ∧
    ((key = [] ∨ (∃ c, key.head? = some c ∧ c ∈ whitespace_chars) ∨
        (∃ c, key.getLast? = some c ∧ c ∈ whitespace_chars) ∨ ':' ∈ key ∨ '=' ∈ key) →
      get_int (read_config_files (NoSweatConfigFileParser.new1 L fs default_config_file)
        calls) key = 0 ∧
      get_float (read_config_files (NoSweatConfigFileParser.new1 L fs default_config_file)
        calls) key = L.zero ∧
      get_string (read_config_files (NoSweatConfigFileParser.new1 L fs default_config_file)
        calls) key = [] ∧
      get_bool (read_config_files (NoSweatConfigFileParser.new1 L fs default_config_file)
        calls) key = false) := by
  have hshape : ∀ T, holds (read_config_files
      (NoSweatConfigFileParser.new1 L fs default_config_file) calls) T key = true →
      key ≠ [] ∧ trim key = key ∧
      (∀ c, key.head? = some c → c ∉ whitespace_chars) ∧
      (∀ c, key.getLast? = some c → c ∉ whitespace_chars) ∧
      ':' ∉ key ∧ '=' ∉ key := by
    intro T hT
    rw [read_config_files_holds] at hT
    obtain ⟨h1, h2, h3, h4⟩ := new1_shaped L fs default_config_file hlines key T hT
    have hb := new1_bounded L fs default_config_file hlines key T hT
    have hst : strip key = key := by
      rw [← trim_eq_strip key hb]
      exact h2
    obtain ⟨hd, hr⟩ := (strip_eq_self_iff key).1 hst
    rw [dropWhile_eq_self_iff_head] at hd
    rw [rdropWhile_eq_self_iff_getLast] at hr
    exact ⟨h1, h2, fun c hc => (is_whitespace_iff c).1 (hd c hc),
      fun c hc => (is_whitespace_iff c).1 (hr c hc), h3, h4⟩
  refine ⟨hshape, ?_⟩
  intro hbad
  have hnone : ∀ T, holds (read_config_files
      (NoSweatConfigFileParser.new1 L fs default_config_file) calls) T key = false := by
    intro T
    cases hT : holds (read_config_files
      (NoSweatConfigFileParser.new1 L fs default_config_file) calls) T key
    · rfl
    · exfalso
      obtain ⟨h1, _, h3, h4, h5, h6⟩ := hshape T hT
      rcases hbad with h | ⟨c, hc, hw⟩ | ⟨c, hc, hw⟩ | h | h
      · exact h1 h
      · exact h3 c hc hw
      · exact h4 c hc hw
      · exact h5 h
      · exact h6 h
  generalize read_config_files (NoSweatConfigFileParser.new1 L fs default_config_file) calls
    = s at hnone
  have a1 := hnone .int
  have a2 := hnone .float
  have a3 := hnone .string
  have a4 := hnone .bool
  simp [holds] at a1 a2 a3 a4
  simp [get_int, get_float, get_string, get_bool, a1, a2, a3, a4]

/-- C20 at a concrete run: the key ` users` with a leading space is in no map. -/
theorem C20_key_shape_witness :
    get_int (read_config_files
      (NoSweatConfigFileParser.new1 decimal_lib
        (fun _ => some ["int  users  = 3".toList]) "default_config.cfg".toList)
      [(fun _ => some [" users = 4".toList], "config.cfg".toList)]) " users".toList = 0 :=
  ((C20_key_shape decimal_lib (fun _ => some ["int  users  = 3".toList])
    "default_config.cfg".toList
    [(fun _ => some [" users = 4".toList], "config.cfg".toList)] " users".toList
    (by decide)).2 (Or.inr (Or.inl ⟨' ', by decide, by decide⟩))).1

/-! ## C16: malformed lines of a default file -/

theorem any_starts_with_eq (text : Str) :
    accepted_value_types_.any (fun type => starts_with text type)
      = accepted_value_types_.any (fun type => decide (type <+: text)) := by
  congr 1
  funext type
  rw [Bool.eq_iff_iff, starts_with_iff]
  simp

/-- The default parser extracts no tokens from a malformed line. -/
theorem default_tokens_of_malformed (line : Str) (hlen : line.length ≤ npos)
    (h : malformed_declaration line = true) : default_tokens line = none := by
  unfold malformed_declaration at h
  have hcl : (trim line).length ≤ npos := Nat.le_trans (length_trim_le line hlen) hlen
  unfold default_tokens
  simp only []
  generalize trim line = cl at h hcl
  rw [any_starts_with_eq]
  by_cases h1 : accepted_value_types_.any (fun type => decide (type <+: cl)) = true
  · rw [if_neg (not_not.2 h1)]
    simp only [h1, Bool.not_true, Bool.false_or, Bool.or_eq_true, List.all_eq_true,
      decide_eq_true_eq] at h
    have hidx : find_first_of cl accepted_assignment_operators_ = npos ∨
        find_first_of cl accepted_assignment_operators_ = size_sub cl.length 1 := by
      rcases find_first_of_cases cl accepted_assignment_operators_ with
        ⟨hn, _⟩ | ⟨a, op, b, rfl, hop, ha, hi⟩
      · exact Or.inl hn
      · right
        rcases h with h | h
        · exact absurd (by simpa [accepted_assignment_operators_] using hop) (h op (by simp))
        · have hdw : (a ++ op :: b).dropWhile (fun c => decide (c ∉ [':', '=']))
              = op :: b := by
            rw [List.dropWhile_append_of_pos (fun c hc => by
              simpa [accepted_assignment_operators_] using ha c hc),
              List.dropWhile_cons_of_neg
                (by rw [decide_eq_true_eq]; exact fun hn => hn hop)]
          rw [hdw] at h
          have hb : b = [] := by
            cases b with
            | nil => rfl
            | cons x b => simp at h
          subst hb
          have hal : a.length + 1 ≤ npos := by simpa using hcl
          rw [hi, size_sub_one _ (by simp) hcl]
          simp
    rw [if_pos hidx]
  · rw [if_pos h1]

/-- C16: a line whose trimmed text does not start with `int `, `float `, `string ` or `bool `,
or contains neither `':'` nor `'='`, or has its first `':'` or `'='` as its final character,
leaves the store as it was when the default parser processes it; consequently the default
parse of a file is the default parse of the file without these lines. -/
theorem C16_malformed_lines_ignored (s : NoSweatConfigFileParser L) :
    (∀ line, line.length ≤ npos → malformed_declaration line = true →
      parse_default_config_file_line s line = s) ∧
    (∀ lines : List Str, (∀ line ∈ lines, line.length ≤ npos) →
      lines.foldl parse_default_config_file_line s
        = (lines.filter (fun line => !malformed_declaration line)).foldl
            parse_default_config_file_line s) ∧
    (∀ (fs fs' : FileSystem) (default_config_file : Str) (lines : List Str),
      fs default_config_file = some lines → (∀ line ∈ lines, line.length ≤ npos) →
      fs' default_config_file = some (lines.filter (fun line => !malformed_declaration line)) →
      NoSweatConfigFileParser.new1 L fs default_config_file
        = NoSweatConfigFileParser.new1 L fs' default_config_file) := by
  have hstep : ∀ (t : NoSweatConfigFileParser L) line, line.length ≤ npos →
      malformed_declaration line = true → parse_default_config_file_line t line = t := by
    intro t line hlen hm
    rw [parse_default_config_file_line_eq, default_tokens_of_malformed line hlen hm]
  have hfold : ∀ (lines : List Str) (t : NoSweatConfigFileParser L),
      (∀ line ∈ lines, line.length ≤ npos) →
      lines.foldl parse_default_config_file_line t
        = (lines.filter (fun line => !malformed_declaration line)).foldl
            parse_default_config_file_line t := by
    intro lines
    induction lines with
    | nil => intro t _; rfl
    | cons line rest ih =>
      intro t hlen
      have hrest := fun l hl => hlen l (List.mem_cons_of_mem _ hl)
      cases hm : malformed_declaration line
      · rw [List.filter_cons_of_pos (by simp [hm])]
        simp only [List.foldl_cons]
        exact ih _ hrest
      · rw [List.filter_cons_of_neg (by simp [hm])]
        simp only [List.foldl_cons]
        rw [hstep t line (hlen line (List.mem_cons_self _ _)) hm]
        exact ih t hrest
  refine ⟨hstep s, fun lines => hfold lines s, ?_⟩
  intro fs fs' default_config_file lines hfs hlen hfs'
  rw [new1_eq L fs default_config_file _ hfs, new1_eq L fs' default_config_file _ hfs']
  exact hfold lines _ hlen

/-- C16 at concrete lines: a comment, a blank line, a keyword line without assignment
character and a line that ends with the assignment character are skipped. -/
theorem C16_malformed_lines_ignored_witness :
    ["# a comment".toList, [], "int users".toList, "int users =".toList,
      "int users = 3".toList].foldl parse_default_config_file_line
      (NoSweatConfigFileParser.init decimal_lib "default_config.cfg".toList)
    = ["int users = 3".toList].foldl parse_default_config_file_line
      (NoSweatConfigFileParser.init decimal_lib "default_config.cfg".toList) :=
  (C16_malformed_lines_ignored
    (NoSweatConfigFileParser.init decimal_lib "default_config.cfg".toList)).2.1
    ["# a comment".toList, [], "int users".toList, "int users =".toList,
      "int users = 3".toList] (by decide)

/-! ## C15: what `std::stoi` accepts -/

theorem takeWhile_nil_of_head {α : Type} (p : α → Bool) (l : List α)
    (h : ∀ c, l.head? = some c → p c = false) : l.takeWhile p = [] := by
  cases l with
  | nil => rfl
  | cons x l => simp [List.takeWhile_cons, h x rfl]

/-- The digits read by `std::stoi` when digits are followed by a text that does not start
with a digit. -/
theorem stoi_digits_append (ds rest : List Char) (hne : ds ≠ [])
    (hall : ∀ c ∈ ds, isdigit c = true)
    (hrest : ∀ c, rest.head? = some c → isdigit c = false) :
    ((ds ++ rest).takeWhile isdigit ≠ []) ∧
    ((ds ++ rest).takeWhile isdigit).foldl (fun acc c => 10 * acc + digit_value c) 0
      = Nat.ofDigits 10 (ds.reverse.map digit_value) := by
  have htw : (ds ++ rest).takeWhile isdigit = ds := by
    rw [List.takeWhile_append_of_pos hall, takeWhile_nil_of_head isdigit rest hrest,
      List.append_nil]
  rw [htw, foldl_digits]
  exact ⟨hne, by simp⟩

theorem stoi_dropWhile (value : Str) : stoi (value.dropWhile isspace) = stoi value := by
  unfold stoi
  simp only [List.dropWhile_idempotent]

/-- After an integer literal and a text that does not start with a digit `std::stoi` returns
the integer that the literal denotes. -/
theorem stoi_literal_append (lit rest : Str) (n : Int) (h : int_literal_value lit = some n)
    (hrest : ∀ c, rest.head? = some c → isdigit c = false) : stoi (lit ++ rest) = some n := by
  cases lit with
  | nil => simp [int_literal_value] at h
  | cons c r =>
    by_cases hm : c = '-'
    · subst hm
      simp only [int_literal_value, List.head?_cons, true_or, if_true, List.tail_cons] at h
      split_ifs at h with hd hr
      obtain ⟨hne, hall⟩ := hd
      rw [List.all_eq_true] at hall
      obtain ⟨h1, h2⟩ := stoi_digits_append r rest hne hall hrest
      have hsp : isspace '-' = false := by decide
      simp only [stoi, List.cons_append,
        List.dropWhile_cons_of_neg (by simp [hsp] : ¬ isspace '-' = true),
        List.head?_cons, true_or, if_true, List.tail_cons, if_neg h1, h2, INT_MIN, INT_MAX,
        if_pos hr]
      exact h
    · by_cases hp : c = '+'
      · subst hp
        simp only [int_literal_value, List.head?_cons, or_true, if_true, List.tail_cons] at h
        rw [if_neg (by decide : ¬ (some '+' = some '-'))] at h
        split_ifs at h with hd hr
        obtain ⟨hne, hall⟩ := hd
        rw [List.all_eq_true] at hall
        obtain ⟨h1, h2⟩ := stoi_digits_append r rest hne hall hrest
        have hsp : isspace '+' = false := by decide
        simp only [stoi, List.cons_append,
          List.dropWhile_cons_of_neg (by simp [hsp] : ¬ isspace '+' = true),
          List.head?_cons, or_true, if_true, List.tail_cons, if_neg h1, h2, INT_MIN, INT_MAX]
        rw [if_neg (by decide : ¬ (some '+' = some '-')), if_pos hr]
        exact h
      · have hsign : ¬ (some c = some '-' ∨ some c = some '+') := by simpa using ⟨hm, hp⟩
        have hneg : ¬ (some c = some '-') := by simpa using hm
        simp only [int_literal_value, List.head?_cons, if_neg hsign, if_neg hneg] at h
        split_ifs at h with hd hr
        obtain ⟨hne, hall⟩ := hd
        rw [List.all_eq_true] at hall
        obtain ⟨h1, h2⟩ := stoi_digits_append (c :: r) rest hne hall hrest
        have hsp : isspace c = false :=
          isdigit_not_isspace c (hall c (List.mem_cons_self _ _))
        rw [List.cons_append] at h1 h2
        simp only [stoi, List.cons_append,
          List.dropWhile_cons_of_neg (by simp [hsp] : ¬ isspace c = true),
          List.head?_cons, if_neg hsign, if_neg hneg, if_neg h1, h2, INT_MIN, INT_MAX, if_pos hr]
        exact h

theorem int_literal_of_digits (sign : Str) (ds : List Char) (negative : Bool)
    (hsign : (sign = ['-'] ∧ negative = true) ∨ (sign = ['+'] ∧ negative = false) ∨
      (sign = [] ∧ negative = false ∧ ds.head? ≠ some '-' ∧ ds.head? ≠ some '+'))
    (hne : ds ≠ []) (hall : ∀ c ∈ ds, isdigit c = true)
    (hr : INT_MIN ≤ (if negative = true
        then - ((ds.foldl (fun acc c => 10 * acc + digit_value c) 0 : Nat) : Int)
        else ((ds.foldl (fun acc c => 10 * acc + digit_value c) 0 : Nat) : Int)) ∧
      (if negative = true
        then - ((ds.foldl (fun acc c => 10 * acc + digit_value c) 0 : Nat) : Int)
        else ((ds.foldl (fun acc c => 10 * acc + digit_value c) 0 : Nat) : Int)) ≤ INT_MAX) :
    int_literal_value (sign ++ ds)
      = some (if negative = true
        then - ((ds.foldl (fun acc c => 10 * acc + digit_value c) 0 : Nat) : Int)
        else ((ds.foldl (fun acc c => 10 * acc + digit_value c) 0 : Nat) : Int)) := by
  have hfold : ds.foldl (fun acc c => 10 * acc + digit_value c) 0
      = Nat.ofDigits 10 (ds.reverse.map digit_value) := by
    rw [foldl_digits]
    simp
  have hall' : ds.all isdigit = true := List.all_eq_true.2 hall
  rw [hfold] at hr ⊢
  simp only [INT_MIN, INT_MAX] at hr
  rcases hsign with ⟨rfl, rfl⟩ | ⟨rfl, rfl⟩ | ⟨rfl, rfl, h1, h2⟩
  · simp only [if_true] at hr ⊢
    simp only [int_literal_value, List.cons_append, List.nil_append, List.head?_cons, true_or,
      if_true, List.tail_cons]
    rw [if_pos ⟨hne, hall'⟩, if_pos hr]
  · simp only [Bool.false_eq_true, if_false] at hr ⊢
    simp only [int_literal_value, List.cons_append, List.nil_append, List.head?_cons, or_true,
      if_true, List.tail_cons]
    rw [if_neg (by decide : ¬ (some '+' = some '-')), if_pos ⟨hne, hall'⟩, if_pos hr]
  · simp only [Bool.false_eq_true, if_false] at hr ⊢
    simp only [int_literal_value, List.nil_append]
    rw [if_neg (not_or.2 ⟨h1, h2⟩), if_neg h1, if_pos ⟨hne, hall'⟩, if_pos hr]

/-- What `std::stoi` returns, it reads from an integer literal at the start of the text (after
the leading white space) that is followed by no further digit. -/
theorem stoi_some_split (value : Str) (n : Int) (h : stoi value = some n) :
    ∃ lit rest, value.dropWhile isspace = lit ++ rest ∧
      (∀ c, rest.head? = some c → isdigit c = false) ∧ int_literal_value lit = some n := by
  unfold stoi at h
  simp only [] at h
  generalize value.dropWhile isspace = s1 at h ⊢
  have hnd : ∀ r : List Char, ∀ c, (r.dropWhile isdigit).head? = some c → isdigit c = false := by
    intro r c hc
    have := List.head?_dropWhile_not isdigit r
    rw [hc] at this
    simpa using this
  have hmem : ∀ r : List Char, ∀ c ∈ r.takeWhile isdigit, isdigit c = true :=
    fun r c hc => List.mem_takeWhile_imp hc
  cases s1 with
  | nil => simp at h
  | cons c r =>
    simp only [List.head?_cons, List.tail_cons] at h
    by_cases hm : c = '-'
    · subst hm
      simp only [true_or, if_true] at h
      split_ifs at h with h1 h2
      simp only [Option.some.injEq] at h
      refine ⟨'-' :: r.takeWhile isdigit, r.dropWhile isdigit, ?_, hnd r, ?_⟩
      · simp [List.takeWhile_append_dropWhile]
      · rw [← h]
        have := int_literal_of_digits ['-'] (r.takeWhile isdigit) true (Or.inl ⟨rfl, rfl⟩)
          h1 (hmem r) (by simpa using h2)
        simpa using this
    · by_cases hp : c = '+'
      · subst hp
        simp only [or_true, if_true] at h
        rw [if_neg (by decide : ¬ (some '+' = some '-'))] at h
        split_ifs at h with h1 h2
        simp only [Option.some.injEq] at h
        refine ⟨'+' :: r.takeWhile isdigit, r.dropWhile isdigit, ?_, hnd r, ?_⟩
        · simp [List.takeWhile_append_dropWhile]
        · rw [← h]
          have := int_literal_of_digits ['+'] (r.takeWhile isdigit) false
            (Or.inr (Or.inl ⟨rfl, rfl⟩)) h1 (hmem r) (by simpa using h2)
          simpa using this
      · have hsign : ¬ (some c = some '-' ∨ some c = some '+') := by simpa using ⟨hm, hp⟩
        have hneg : ¬ (some c = some '-') := by simpa using hm
        rw [if_neg hsign, if_neg hneg] at h
        split_ifs at h with h1 h2
        simp only [Option.some.injEq] at h
        refine ⟨(c :: r).takeWhile isdigit, (c :: r).dropWhile isdigit,
          (List.takeWhile_append_dropWhile _ _).symm, hnd (c :: r), ?_⟩
        rw [← h]
        have hhead : ((c :: r).takeWhile isdigit).head? = some c := by
          cases hc : isdigit c
          · simp [List.takeWhile_cons, hc] at h1
          · simp [List.takeWhile_cons, hc]
        have := int_literal_of_digits [] ((c :: r).takeWhile isdigit) false
          (Or.inr (Or.inr ⟨rfl, rfl, by rw [hhead]; exact hneg,
            by rw [hhead]; exact fun e => hsign (Or.inr e)⟩))
          h1 (hmem (c :: r)) (by simpa using h2)
        simpa using this

/-- `std::stoi` returns `n` exactly when the text, after its leading white space, starts with
an integer literal denoting `n` that is followed by no further digit. -/
theorem stoi_eq_some_iff (value : Str) (n : Int) :
    stoi value = some n ↔
      ∃ lit rest, value.dropWhile isspace = lit ++ rest ∧
        (∀ c, rest.head? = some c → isdigit c = false) ∧ int_literal_value lit = some n := by
  constructor
  · exact stoi_some_split value n
  · rintro ⟨lit, rest, hv, hrest, hlit⟩
    rw [← stoi_dropWhile, hv]
    exact stoi_literal_append lit rest n hlit hrest

/-- C15 (amended): `std::stoi` reads a leading integer. For a fresh key, an `int` declaration
creates the entry `(n, n)` exactly when the value, after its leading white space, starts with
an optionally signed decimal literal that denotes the 32 bit integer `n` and is followed by no
further digit; the text after the literal is ignored, so `12abc` gives `12` and `1.5` gives
`1`. When the value has no such start (no digit, or an integer outside the range) the
declaration creates no entry and the store is unchanged, and `set_integer_value` leaves any
store unchanged; when it has one, `set_integer_value` sets the current value of an existing
key to `n`. -/
theorem C15_int_conversion (s : NoSweatConfigFileParser L) (key value : Str)
    (hfresh : is_key_available s key = true) :
    (∀ n, (add_default_integer_value s key value).integer_config_values_ key = some (n, n) ↔
      ∃ lit rest, value.dropWhile isspace = lit ++ rest ∧
        (∀ c, rest.head? = some c → isdigit c = false) ∧ int_literal_value lit = some n) ∧
    ((¬ ∃ n lit rest, value.dropWhile isspace = lit ++ rest ∧
        (∀ c, rest.head? = some c → isdigit c = false) ∧ int_literal_value lit = some n) →
      add_default_integer_value s key value = s ∧
      (add_default_integer_value s key value).integer_config_values_ key = none ∧
      ∀ t : NoSweatConfigFileParser L, set_integer_value t key value = t) ∧
    (∀ (t : NoSweatConfigFileParser L) (n : Int),
      (t.integer_config_values_ key).isSome = true →
      (∃ lit rest, value.dropWhile isspace = lit ++ rest ∧
        (∀ c, rest.head? = some c → isdigit c = false) ∧ int_literal_value lit = some n) →
      get_int (set_integer_value t key value) key = n) ∧
    stoi "12abc".toList = some 12 ∧ stoi "1.5".toList = some 1 ∧
    stoi "abc".toList = none := by
  have hnone : s.integer_config_values_ key = none := by
    have := (is_key_available_eq_true s key).1 hfresh .int
    simpa [holds] using this
  refine ⟨?_, ?_, ?_, by decide, by decide, by decide⟩
  · intro n
    rw [← stoi_eq_some_iff]
    unfold add_default_integer_value
    cases hv : stoi value with
    | none => simp [hfresh, hnone]
    | some m => simp [hfresh, map_assign]
  · intro hno
    have hv : stoi value = none := by
      cases hv : stoi value with
      | none => rfl
      | some m => exact absurd ⟨m, (stoi_eq_some_iff value m).1 hv⟩ hno
    have e : add_default_integer_value s key value = s := by
      unfold add_default_integer_value
      simp [hv]
    rw [e]
    refine ⟨rfl, hnone, ?_⟩
    intro t
    unfold set_integer_value
    simp [hv]
  · intro t n hk hex
    have hv := (stoi_eq_some_iff value n).2 hex
    have hn : (t.integer_config_values_ key).isNone = false := by
      cases h : t.integer_config_values_ key <;> simp_all
    simp [set_integer_value, hn, hv, get_int, map_assign_second]

/-- C15 (amended) at a concrete declaration: the value `12abc` under the fresh key `z`. -/
theorem C15_int_conversion_witness :
    (add_default_integer_value
      (NoSweatConfigFileParser.init decimal_lib "default_config.cfg".toList)
      "z".toList "12abc".toList).integer_config_values_ "z".toList = some (12, 12) :=
  ((C15_int_conversion (NoSweatConfigFileParser.init decimal_lib "default_config.cfg".toList)
    "z".toList "12abc".toList (by decide)).1 12).2
    ⟨"12".toList, "abc".toList, by decide, by decide, by decide⟩

/-- C15 as stated fails: `12abc` and `1.5` are not integer literals as a whole, yet the
declarations `int z = 12abc` and `int y = 1.5` create the entries `12` and `1`, and the
overlay line `z = 7up` sets `z` to `7`. -/
theorem C15_counterexample :
    int_literal_value "12abc".toList = none ∧ int_literal_value "1.5".toList = none ∧
    (NoSweatConfigFileParser.new1 decimal_lib
      (fun _ => some ["int z = 12abc".toList, "int y = 1.5".toList])
      "default_config.cfg".toList).integer_config_values_ "z".toList = some (12, 12) ∧
    (NoSweatConfigFileParser.new1 decimal_lib
      (fun _ => some ["int z = 12abc".toList, "int y = 1.5".toList])
      "default_config.cfg".toList).integer_config_values_ "y".toList = some (1, 1) ∧
    int_literal_value "7up".toList = none ∧
    get_int (read_config_file (fun _ => some ["z = 7up".toList])
      (NoSweatConfigFileParser.new1 decimal_lib
        (fun _ => some ["int z = 12abc".toList, "int y = 1.5".toList])
        "default_config.cfg".toList) "config.cfg".toList) "z".toList = 7 := by
  decide

/-! ## Overlay lines as assignments -/

theorem last_assigned_append {V : Type} (key : Str) (assignments : List (Option (Str × V)))
    (a : Option (Str × V)) :
    last_assigned key (assignments ++ [a]) =
      match a with
      | some (k, value) => if k = key then some value else last_assigned key assignments
      | none => last_assigned key assignments := by
  unfold last_assigned
  rw [List.foldl_append]
  rfl

/-- The entry of a key after a list of assignments: the last value assigned to it, next to the
default it had, or the entry it had. -/
theorem foldl_map_update_apply {V : Type} (dflt : V × V) (m : Str → Option (V × V))
    (assignments : List (Option (Str × V))) (key : Str) :
    (assignments.foldl (map_update dflt) m) key =
      match last_assigned key assignments with
      | some value => some (((m key).getD dflt).1, value)
      | none => m key := by
  induction assignments using List.reverseRecOn with
  | nil => rfl
  | append_singleton init a ih =>
    rw [List.foldl_append, last_assigned_append]
    simp only [List.foldl_cons, List.foldl_nil]
    cases a with
    | none =>
      simp only [map_update]
      exact ih
    | some kv =>
      obtain ⟨k, value⟩ := kv
      simp only [map_update, map_assign_second]
      by_cases hk : key = k
      · subst hk
        simp only [if_true]
        rw [ih]
        cases last_assigned key init <;> simp
      · rw [if_neg hk, if_neg (fun e => hk e.symm)]
        exact ih

/-- Performing a list of assignments twice is performing it once. -/
theorem foldl_map_update_idem {V : Type} (dflt : V × V) (m : Str → Option (V × V))
    (assignments : List (Option (Str × V))) :
    assignments.foldl (map_update dflt) (assignments.foldl (map_update dflt) m)
      = assignments.foldl (map_update dflt) m := by
  funext key
  rw [foldl_map_update_apply dflt (assignments.foldl (map_update dflt) m),
    foldl_map_update_apply dflt m]
  cases last_assigned key assignments <;> simp

theorem assign_fields (s : NoSweatConfigFileParser L) (e : Option (Assignment L)) :
    (assign s e).integer_config_values_
      = map_update (0, 0) s.integer_config_values_ (e.bind Assignment.int_part) ∧
    (assign s e).float_config_values_
      = map_update (L.zero, L.zero) s.float_config_values_ (e.bind Assignment.float_part) ∧
    (assign s e).string_config_values_
      = map_update ([], []) s.string_config_values_ (e.bind Assignment.string_part) ∧
    (assign s e).bool_config_values_
      = map_update (false, false) s.bool_config_values_ (e.bind Assignment.bool_part) ∧
    (assign s e).default_config_file_ = s.default_config_file_ ∧
    (assign s e).config_file_ = s.config_file_ := by
  cases e with
  | none => exact ⟨rfl, rfl, rfl, rfl, rfl, rfl⟩
  | some a => cases a <;> exact ⟨rfl, rfl, rfl, rfl, rfl, rfl⟩

theorem foldl_assign_fields (effects : List (Option (Assignment L)))
    (s : NoSweatConfigFileParser L) :
    (effects.foldl assign s).integer_config_values_
      = (effects.map (fun e => e.bind Assignment.int_part)).foldl (map_update (0, 0))
          s.integer_config_values_ ∧
    (effects.foldl assign s).float_config_values_
      = (effects.map (fun e => e.bind Assignment.float_part)).foldl
          (map_update (L.zero, L.zero)) s.float_config_values_ ∧
    (effects.foldl assign s).string_config_values_
      = (effects.map (fun e => e.bind Assignment.string_part)).foldl (map_update ([], []))
          s.string_config_values_ ∧
    (effects.foldl assign s).bool_config_values_
      = (effects.map (fun e => e.bind Assignment.bool_part)).foldl
          (map_update (false, false)) s.bool_config_values_ ∧
    (effects.foldl assign s).default_config_file_ = s.default_config_file_ ∧
    (effects.foldl assign s).config_file_ = s.config_file_ := by
  induction effects generalizing s with
  | nil => exact ⟨rfl, rfl, rfl, rfl, rfl, rfl⟩
  | cons e rest ih =>
    simp only [List.foldl_cons, List.map_cons]
    obtain ⟨a1, a2, a3, a4, a5, a6⟩ := ih (assign s e)
    obtain ⟨b1, b2, b3, b4, b5, b6⟩ := assign_fields s e
    rw [a1, a2, a3, a4, a5, a6, b1, b2, b3, b4, b5, b6]
    exact ⟨rfl, rfl, rfl, rfl, rfl, rfl⟩

theorem store_ext (s t : NoSweatConfigFileParser L)
    (h1 : s.integer_config_values_ = t.integer_config_values_)
    (h2 : s.float_config_values_ = t.float_config_values_)
    (h3 : s.string_config_values_ = t.string_config_values_)
    (h4 : s.bool_config_values_ = t.bool_config_values_)
    (h5 : s.default_config_file_ = t.default_config_file_)
    (h6 : s.config_file_ = t.config_file_) : s = t := by
  cases s
  cases t
  simp only [NoSweatConfigFileParser.mk.injEq]
  exact ⟨h5, h6, h1, h2, h3, h4⟩

/-- Performing the assignments of a list twice gives the store that performing them once
gives. -/
theorem foldl_assign_idem (effects : List (Option (Assignment L)))
    (s : NoSweatConfigFileParser L) :
    effects.foldl assign (effects.foldl assign s) = effects.foldl assign s := by
  obtain ⟨a1, a2, a3, a4, a5, a6⟩ := foldl_assign_fields effects (effects.foldl assign s)
  obtain ⟨b1, b2, b3, b4, _, _⟩ := foldl_assign_fields effects s
  apply store_ext
  · rw [a1, b1, foldl_map_update_idem]
  · rw [a2, b2, foldl_map_update_idem]
  · rw [a3, b3, foldl_map_update_idem]
  · rw [a4, b4, foldl_map_update_idem]
  · exact a5
  · exact a6

theorem overlay_dispatch_typed_eq_assign (s : NoSweatConfigFileParser L) (T : VType)
    (key value : Str) :
    overlay_dispatch s T.name key value = assign s (setter_effect s T key value) := by
  cases T
  · simp only [overlay_dispatch, VType.name, setter_effect, set_integer_value]
    cases hk : (s.integer_config_values_ key).isNone <;> cases hv : stoi value <;>
      simp [assign]
  · simp only [overlay_dispatch, VType.name, setter_effect, set_float_value]
    cases hk : (s.float_config_values_ key).isNone <;> cases hv : L.stof value <;>
      simp [assign]
  · simp only [overlay_dispatch, VType.name, setter_effect, set_string_value]
    cases hk : (s.string_config_values_ key).isNone <;> simp [assign]
  · simp only [overlay_dispatch, VType.name, setter_effect, set_bool_value]
    cases hk : (s.bool_config_values_ key).isNone <;> cases hv : bool_of_value value <;>
      simp [assign]

theorem overlay_dispatch_untyped_eq (s : NoSweatConfigFileParser L) (key value : Str) :
    overlay_dispatch s [] key value =
      match key_type s key with
      | some T => overlay_dispatch s T.name key value
      | none => s := by
  unfold key_type
  simp only [holds]
  split_ifs <;> simp_all [overlay_dispatch, set_value, VType.name]

/-- The loop body of `read_config_file` performs the assignment `overlay_effect`. -/
theorem read_config_file_line_eq_assign (s : NoSweatConfigFileParser L) (line : Str) :
    read_config_file_line s line = assign s (overlay_effect s line) := by
  rw [read_config_file_line_eq]
  unfold overlay_effect
  cases overlay_tokens line with
  | none => rfl
  | some tkv =>
    obtain ⟨et, key, value⟩ := tkv
    simp only []
    by_cases he : et = []
    · subst he
      rw [overlay_dispatch_untyped_eq]
      simp only [ne_eq, not_true_eq_false, if_false]
      cases key_type s key with
      | none => rfl
      | some T => exact overlay_dispatch_typed_eq_assign s T key value
    · rw [if_pos he]
      by_cases hn : ∃ M : VType, et = M.name
      · obtain ⟨M, rfl⟩ := hn
        rw [overlay_dispatch_typed_eq_assign]
        cases M <;> simp [VType.name]
      · rw [overlay_dispatch_no_keyword s et key value he (fun M hM => hn ⟨M, hM⟩)]
        have h1 : et ≠ ['i', 'n', 't'] := fun e => hn ⟨.int, e⟩
        have h2 : et ≠ ['f', 'l', 'o', 'a', 't'] := fun e => hn ⟨.float, e⟩
        have h3 : et ≠ ['s', 't', 'r', 'i', 'n', 'g'] := fun e => hn ⟨.string, e⟩
        have h4 : et ≠ ['b', 'o', 'o', 'l'] := fun e => hn ⟨.bool, e⟩
        simp [h1, h2, h3, h4, assign]

theorem isNone_eq_of_isSome_eq {α β : Type} (a : Option α) (b : Option β)
    (h : a.isSome = b.isSome) : a.isNone = b.isNone := by
  cases a <;> cases b <;> simp_all

theorem setter_effect_congr (s t : NoSweatConfigFileParser L)
    (h : ∀ k T, holds t T k = holds s T k) (T : VType) (key value : Str) :
    setter_effect t T key value = setter_effect s T key value := by
  have hT := h key T
  cases T <;> simp only [holds] at hT <;>
    simp only [setter_effect, isNone_eq_of_isSome_eq _ _ hT]

theorem key_type_congr (s t : NoSweatConfigFileParser L)
    (h : ∀ k T, holds t T k = holds s T k) (key : Str) : key_type t key = key_type s key := by
  unfold key_type
  rw [h key .int, h key .float, h key .string, h key .bool]

/-- The assignment made by a line depends on the store only through the keys of its maps. -/
theorem overlay_effect_congr (s t : NoSweatConfigFileParser L)
    (h : ∀ k T, holds t T k = holds s T k) (line : Str) :
    overlay_effect t line = overlay_effect s line := by
  unfold overlay_effect
  cases overlay_tokens line with
  | none => rfl
  | some tkv =>
    obtain ⟨et, key, value⟩ := tkv
    simp only [setter_effect_congr s t h, key_type_congr s t h]

theorem read_config_file_line_holds (s : NoSweatConfigFileParser L) (line k : Str)
    (T : VType) : holds (read_config_file_line s line) T k = holds s T k := by
  rw [read_config_file_line_eq]
  split
  · rfl
  · exact overlay_dispatch_holds s _ _ _ k T

/-- The lines of an overlay file act on a store as a list of assignments that is fixed by the
keys of the maps. -/
theorem foldl_read_config_file_line_eq_assign (lines : List Str)
    (s t : NoSweatConfigFileParser L) (h : ∀ k T, holds t T k = holds s T k) :
    lines.foldl read_config_file_line t
      = (lines.map (overlay_effect s)).foldl assign t := by
  induction lines generalizing t with
  | nil => rfl
  | cons line rest ih =>
    simp only [List.foldl_cons, List.map_cons]
    have hstep : read_config_file_line t line = assign t (overlay_effect s line) := by
      rw [read_config_file_line_eq_assign, overlay_effect_congr s t h]
    have hh : ∀ k T, holds (read_config_file_line t line) T k = holds s T k :=
      fun k T => (read_config_file_line_holds t line k T).trans (h k T)
    rw [← hstep]
    generalize read_config_file_line t line = t' at hh
    exact ih t' hh

/-! ## C18: reading an overlay twice -/

theorem with_config_file_eq (s : NoSweatConfigFileParser L) (config_file : Str)
    (h : s.config_file_ = config_file) : { s with config_file_ := config_file } = s := by
  cases s
  simp only at h
  subst h
  rfl

/-- C18: for every store, file system and path, calling `read_config_file` on the path twice in a
row (the file being the same at both calls, present or not) gives exactly the store that
calling it once gives: the four maps and the two recorded paths are equal. -/
theorem C18_overlay_idempotent (fs : FileSystem) (s : NoSweatConfigFileParser L)
    (config_file : Str) :
    read_config_file fs (read_config_file fs s config_file) config_file
      = read_config_file fs s config_file := by
  have hp := (read_config_file_paths fs s config_file).2
  rw [read_config_file_eq fs (read_config_file fs s config_file),
    with_config_file_eq _ config_file hp]
  cases hfs : fs config_file with
  | none => rfl
  | some lines =>
    simp only []
    rw [read_config_file_eq, hfs]
    simp only []
    generalize hs0 : ({ s with config_file_ := config_file } : NoSweatConfigFileParser L) = s0
    have h1 := foldl_read_config_file_line_eq_assign lines s0 s0 (fun _ _ => rfl)
    have hh : ∀ k T, holds (lines.foldl read_config_file_line s0) T k = holds s0 T k := by
      intro k T
      obtain ⟨a1, a2, a3, a4⟩ := foldl_read_config_file_line_keys lines s0 k
      cases T
      · exact a1
      · exact a2
      · exact a3
      · exact a4
    have h2 := foldl_read_config_file_line_eq_assign lines s0
      (lines.foldl read_config_file_line s0) hh
    rw [h2, h1]
    exact foldl_assign_idem _ s0

/-! ## C19: the last line that targets a key -/

/-- The setter that an overlay line calls: the one of the enforced type, or, with no enforced
type, the one of the first map that holds the key. -/
theorem overlay_effect_setter (s : NoSweatConfigFileParser L) (line et k v : Str)
    (h : overlay_tokens line = some (et, k, v)) :
    ∃ oM : Option VType, overlay_effect s line = oM.bind (fun M => setter_effect s M k v) ∧
      ∀ M, oM = some M ↔ (et = M.name ∨ (et = [] ∧ key_type s k = some M)) := by
  unfold overlay_effect
  rw [h]
  simp only []
  by_cases he : et = []
  · subst he
    refine ⟨key_type s k, ?_, ?_⟩
    · simp only [ne_eq, not_true_eq_false, if_false]
      cases key_type s k <;> rfl
    · intro M
      constructor
      · intro hM
        exact Or.inr ⟨rfl, hM⟩
      · rintro (hM | ⟨_, hM⟩)
        · exact absurd hM.symm (name_ne_nil M)
        · exact hM
  · rw [if_pos he]
    by_cases hn : ∃ M : VType, et = M.name
    · obtain ⟨M0, rfl⟩ := hn
      refine ⟨some M0, ?_, ?_⟩
      · cases M0 <;> simp [VType.name]
      · intro M
        constructor
        · intro hM
          simp only [Option.some.injEq] at hM
          subst hM
          exact Or.inl rfl
        · rintro (hM | ⟨hM, _⟩)
          · rw [name_injective M0 M hM]
          · exact absurd hM he
    · refine ⟨none, ?_, ?_⟩
      · have h1 : et ≠ ['i', 'n', 't'] := fun e => hn ⟨.int, e⟩
        have h2 : et ≠ ['f', 'l', 'o', 'a', 't'] := fun e => hn ⟨.float, e⟩
        have h3 : et ≠ ['s', 't', 'r', 'i', 'n', 'g'] := fun e => hn ⟨.string, e⟩
        have h4 : et ≠ ['b', 'o', 'o', 'l'] := fun e => hn ⟨.bool, e⟩
        simp [h1, h2, h3, h4]
      · intro M
        constructor
        · intro hM
          simp at hM
        · rintro (hM | ⟨hM, _⟩)
          · exact absurd ⟨M, hM⟩ hn
          · exact absurd hM he

theorem setter_effect_int_part (s : NoSweatConfigFileParser L) (M : VType) (k v : Str) :
    (setter_effect s M k v).bind Assignment.int_part
      = if M = .int ∧ holds s .int k = true then (stoi v).map (fun n => (k, n)) else none := by
  cases M
  · simp only [setter_effect, holds]
    cases s.integer_config_values_ k <;> cases stoi v <;> simp [Assignment.int_part]
  · simp only [setter_effect]
    cases s.float_config_values_ k <;> cases L.stof v <;> simp [Assignment.int_part]
  · simp only [setter_effect]
    cases s.string_config_values_ k <;> simp [Assignment.int_part]
  · simp only [setter_effect]
    cases s.bool_config_values_ k <;> cases bool_of_value v <;> simp [Assignment.int_part]

theorem setter_effect_float_part (s : NoSweatConfigFileParser L) (M : VType) (k v : Str) :
    (setter_effect s M k v).bind Assignment.float_part
      = if M = .float ∧ holds s .float k = true then (L.stof v).map (fun x => (k, x))
        else none := by
  cases M
  · simp only [setter_effect]
    cases s.integer_config_values_ k <;> cases stoi v <;> simp [Assignment.float_part]
  · simp only [setter_effect, holds]
    cases s.float_config_values_ k <;> cases L.stof v <;> simp [Assignment.float_part]
  · simp only [setter_effect]
    cases s.string_config_values_ k <;> simp [Assignment.float_part]
  · simp only [setter_effect]
    cases s.bool_config_values_ k <;> cases bool_of_value v <;> simp [Assignment.float_part]

theorem setter_effect_string_part (s : NoSweatConfigFileParser L) (M : VType) (k v : Str) :
    (setter_effect s M k v).bind Assignment.string_part
      = if M = .string ∧ holds s .string k = true then some (k, v) else none := by
  cases M
  · simp only [setter_effect]
    cases s.integer_config_values_ k <;> cases stoi v <;> simp [Assignment.string_part]
  · simp only [setter_effect]
    cases s.float_config_values_ k <;> cases L.stof v <;> simp [Assignment.string_part]
  · simp only [setter_effect, holds]
    cases s.string_config_values_ k <;> simp [Assignment.string_part]
  · simp only [setter_effect]
    cases s.bool_config_values_ k <;> cases bool_of_value v <;> simp [Assignment.string_part]

theorem setter_effect_bool_part (s : NoSweatConfigFileParser L) (M : VType) (k v : Str) :
    (setter_effect s M k v).bind Assignment.bool_part
      = if M = .bool ∧ holds s .bool k = true then (bool_of_value v).map (fun b => (k, b))
        else none := by
  cases M
  · simp only [setter_effect]
    cases s.integer_config_values_ k <;> cases stoi v <;> simp [Assignment.bool_part]
  · simp only [setter_effect]
    cases s.float_config_values_ k <;> cases L.stof v <;> simp [Assignment.bool_part]
  · simp only [setter_effect]
    cases s.string_config_values_ k <;> simp [Assignment.bool_part]
  · simp only [setter_effect, holds]
    cases s.bool_config_values_ k <;> cases bool_of_value v <;> simp [Assignment.bool_part]

theorem overlay_effect_of_no_tokens (s : NoSweatConfigFileParser L) (line : Str)
    (h : overlay_tokens line = none) : overlay_effect s line = none := by
  unfold overlay_effect
  rw [h]

theorem targeting_value_of_no_tokens (L : FloatLib) (T : VType) (key line : Str)
    (h : overlay_tokens line = none) : targeting_value L T key line = none := by
  unfold targeting_value
  rw [h]

theorem targeting_value_of_tokens (L : FloatLib) (T : VType) (key line et k v : Str)
    (h : overlay_tokens line = some (et, k, v)) :
    targeting_value L T key line =
      if k = key ∧ (et = T.name ∨ et = []) ∧ conversion_fails L T v = false then some v
      else none := by
  unfold targeting_value
  rw [h]

/-- The assignment to `key` in the map of type `T` that an overlay line makes, when `T` is the
first map that holds `key`: the converted value of the line if the line targets the key. -/
theorem overlay_effect_targeting {V : Type} (s : NoSweatConfigFileParser L) (T : VType)
    (key : Str) (hkt : key_type s key = some T)
    (part : Assignment L → Option (Str × V)) (conv : Str → Option V)
    (hpart : ∀ M k v, (setter_effect s M k v).bind part
      = if M = T ∧ holds s T k = true then (conv v).map (fun n => (k, n)) else none)
    (hconv : ∀ v, conversion_fails L T v = (conv v).isNone) (line : Str) :
    ((overlay_effect s line).bind part).bind (fun kv => if kv.1 = key then some kv.2 else none)
      = (targeting_value L T key line).bind conv := by
  rcases ht : overlay_tokens line with _ | ⟨et, k, v⟩
  · rw [overlay_effect_of_no_tokens s line ht, targeting_value_of_no_tokens L T key line ht]
    rfl
  · obtain ⟨oM, he, hM⟩ := overlay_effect_setter s line et k v ht
    rw [he, targeting_value_of_tokens L T key line et k v ht]
    generalize overlay_effect s line = oe at he
    generalize overlay_tokens line = ot at ht
    have hholds := holds_of_key_type s key T hkt
    by_cases hk : k = key
    · subst hk
      by_cases hT : oM = some T
      · subst hT
        have hor : et = T.name ∨ et = [] := by
          rcases (hM T).1 rfl with h1 | ⟨h1, _⟩
          · exact Or.inl h1
          · exact Or.inr h1
        simp only [Option.some_bind, hpart, hholds, and_self, if_true, true_and, hor, hconv]
        cases hcv : conv v <;> simp [hcv]
      · have hnor : ¬ (et = T.name ∨ et = []) := by
          rintro (h1 | h1)
          · exact hT ((hM T).2 (Or.inl h1))
          · exact hT ((hM T).2 (Or.inr ⟨h1, hkt⟩))
        rw [if_neg (fun h => hnor h.2.1)]
        cases oM with
        | none => rfl
        | some M =>
          have hne : M ≠ T := fun e => hT (by rw [e])
          simp only [Option.some_bind, hpart, hne, false_and, if_false, Option.none_bind,
            Option.bind_none]
    · rw [if_neg (fun h => hk h.1)]
      cases oM with
      | none => rfl
      | some M =>
        simp only [Option.some_bind, hpart]
        split_ifs
        · cases conv v <;> simp [hk]
        · rfl

theorem last_assigned_map {V : Type} (key : Str) (part : Str → Option (Str × V))
    (tv : Str → Option Str) (conv : Str → Option V)
    (h : ∀ l, (part l).bind (fun kv => if kv.1 = key then some kv.2 else none)
      = (tv l).bind conv)
    (hc : ∀ l w, tv l = some w → conv w ≠ none) (lines : List Str) :
    last_assigned key (lines.map part)
      = (lines.foldl (fun acc l =>
          match tv l with
          | some v => some v
          | none => acc) none).bind conv := by
  induction lines using List.reverseRecOn with
  | nil => rfl
  | append_singleton init l ih =>
    rw [List.map_append, List.map_singleton, last_assigned_append, List.foldl_append]
    simp only [List.foldl_cons, List.foldl_nil]
    have hl := h l
    cases ht : tv l with
    | none =>
      rw [ht] at hl
      simp only [Option.none_bind] at hl
      cases hp : part l with
      | none => exact ih
      | some kv =>
        obtain ⟨k, v⟩ := kv
        rw [hp] at hl
        simp only [Option.some_bind] at hl
        by_cases hk : k = key
        · simp [hk] at hl
        · simp only [if_neg hk]
          exact ih
    | some w =>
      rw [ht] at hl
      simp only [Option.some_bind] at hl
      cases hp : part l with
      | none =>
        rw [hp] at hl
        simp only [Option.none_bind] at hl
        exact absurd hl.symm (hc l w ht)
      | some kv =>
        obtain ⟨k, v⟩ := kv
        rw [hp] at hl
        simp only [Option.some_bind] at hl
        by_cases hk : k = key
        · simp only [hk, if_true] at hl ⊢
          simp only [Option.some_bind]
          exact hl
        · rw [if_neg hk] at hl
          exact absurd hl.symm (hc l w ht)

/-- The value found by `last_targeting_value` converts. -/
theorem last_targeting_value_converts (L : FloatLib) (T : VType) (key : Str)
    (lines : List Str) (v : Str) (h : last_targeting_value L T key lines = some v) :
    conversion_fails L T v = false := by
  unfold last_targeting_value at h
  induction lines using List.reverseRecOn with
  | nil => simp at h
  | append_singleton init l ih =>
    rw [List.foldl_append] at h
    simp only [List.foldl_cons, List.foldl_nil] at h
    cases ht : targeting_value L T key l with
    | none =>
      rw [ht] at h
      exact ih h
    | some w =>
      rw [ht] at h
      simp only [Option.some.injEq] at h
      subst h
      rcases hto : overlay_tokens l with _ | ⟨et, k, value⟩
      · rw [targeting_value_of_no_tokens L T key l hto] at ht
        simp at ht
      · rw [targeting_value_of_tokens L T key l et k value hto] at ht
        split_ifs at ht with hc
        simp only [Option.some.injEq] at ht
        subst ht
        exact hc.2.2

/-- The entry of `key` in the map of type `T` after `read_config_file`, when `T` is the first
map that holds `key`: the second component is the converted value of the last line that
targets the key, or the entry is as before. -/
theorem read_config_file_entry {V : Type} (fs : FileSystem) (s : NoSweatConfigFileParser L)
    (config_file key : Str) (lines : List Str) (hfs : fs config_file = some lines)
    (T : VType) (hkt : key_type s key = some T)
    (proj : NoSweatConfigFileParser L → Str → Option (V × V)) (dflt : V × V)
    (part : Assignment L → Option (Str × V)) (conv : Str → Option V)
    (hproj : ∀ (t : NoSweatConfigFileParser L) (effects : List (Option (Assignment L))),
      proj (effects.foldl assign t)
        = (effects.map (fun e => e.bind part)).foldl (map_update dflt) (proj t))
    (hcf : ∀ (t : NoSweatConfigFileParser L) (cf : Str),
      proj { t with config_file_ := cf } = proj t)
    (hpart : ∀ (t : NoSweatConfigFileParser L) M k v,
      (setter_effect t M k v).bind part
        = if M = T ∧ holds t T k = true then (conv v).map (fun n => (k, n)) else none)
    (hconv : ∀ v, conversion_fails L T v = (conv v).isNone) :
    proj (read_config_file fs s config_file) key =
      match (last_targeting_value L T key lines).bind conv with
      | some value => some (((proj s key).getD dflt).1, value)
      | none => proj s key := by
  rw [read_config_file_eq, hfs]
  simp only []
  have hkt0 : key_type ({ s with config_file_ := config_file } : NoSweatConfigFileParser L) key
      = some T := by
    rw [key_type_with_config_file]
    exact hkt
  have hp0 := hcf s config_file
  generalize ({ s with config_file_ := config_file } : NoSweatConfigFileParser L) = s0
    at hkt0 hp0 ⊢
  rw [foldl_read_config_file_line_eq_assign lines s0 s0 (fun _ _ => rfl), hproj,
    foldl_map_update_apply, List.map_map, hp0]
  have hlast := last_assigned_map key (fun l => (overlay_effect s0 l).bind part)
    (targeting_value L T key) conv
    (overlay_effect_targeting s0 T key hkt0 part conv (hpart s0) hconv)
    (fun l w hw => by
      have hc := last_targeting_value_converts L T key [l] w (by
        unfold last_targeting_value
        simp only [List.foldl_cons, List.foldl_nil, hw])
      rw [hconv] at hc
      intro hn
      rw [hn] at hc
      simp at hc) lines
  have hfun : ((fun e => Option.bind e part) ∘ overlay_effect s0)
      = (fun l => (overlay_effect s0 l).bind part) := by
    funext l
    simp only [Function.comp_apply]
  rw [hfun, hlast]
  unfold last_targeting_value
  generalize targeting_value L T key = tv
  rfl

/-- C19: within one overlay file the last effective line wins. In every store whose maps hold
each key at most once (every store the program reaches), for every overlay file and every key
of the string, integer or boolean map: when some line of the file targets the key (its key is
the key, its type prefix is the one of the map or absent, its value converts), the value of
the key after `read_config_file` is the converted value of the last such line; when no line
does, the value is the one from before the call. -/
theorem C19_last_line_wins (fs : FileSystem) (s : NoSweatConfigFileParser L)
    (config_file key : Str) (lines : List Str) (hfs : fs config_file = some lines)
    (hd : KeysDisjoint s) :
    (holds s .string key = true →
      (∀ value, last_targeting_value L .string key lines = some value →
        get_string (read_config_file fs s config_file) key = value) ∧
      (last_targeting_value L .string key lines = none →
        get_string (read_config_file fs s config_file) key = get_string s key)) ∧
    (holds s .int key = true →
      (∀ value, last_targeting_value L .int key lines = some value →
        stoi value = some (get_int (read_config_file fs s config_file) key)) ∧
      (last_targeting_value L .int key lines = none →
        get_int (read_config_file fs s config_file) key = get_int s key)) ∧
    (holds s .bool key = true →
      (∀ value, last_targeting_value L .bool key lines = some value →
        bool_of_value value = some (get_bool (read_config_file fs s config_file) key)) ∧
      (last_targeting_value L .bool key lines = none →
        get_bool (read_config_file fs s config_file) key = get_bool s key)) := by
  refine ⟨?_, ?_, ?_⟩
  · intro hh
    have hkt := key_type_of_holds s hd key .string hh
    have he := read_config_file_entry fs s config_file key lines hfs .string hkt
      (fun t => t.string_config_values_) ([], []) Assignment.string_part some
      (fun t effects => (foldl_assign_fields effects t).2.2.1) (fun _ _ => rfl)
      (fun t M k v => setter_effect_string_part t M k v) (fun _ => rfl)
    simp only [] at he
    generalize read_config_file fs s config_file = s' at he ⊢
    constructor
    · intro value hv
      rw [hv] at he
      simp only [Option.some_bind] at he
      simp [get_string, he]
    · intro hv
      rw [hv] at he
      simp only [Option.none_bind] at he
      simp only [get_string, he]
  · intro hh
    have hkt := key_type_of_holds s hd key .int hh
    have he := read_config_file_entry fs s config_file key lines hfs .int hkt
      (fun t => t.integer_config_values_) (0, 0) Assignment.int_part stoi
      (fun t effects => (foldl_assign_fields effects t).1) (fun _ _ => rfl)
      (fun t M k v => setter_effect_int_part t M k v) (fun _ => rfl)
    simp only [] at he
    generalize read_config_file fs s config_file = s' at he ⊢
    constructor
    · intro value hv
      have hc := last_targeting_value_converts L .int key lines value hv
      rw [hv] at he
      simp only [Option.some_bind] at he
      simp only [conversion_fails] at hc
      cases hs : stoi value with
      | none => simp [hs] at hc
      | some n =>
        rw [hs] at he
        simp [get_int, he]
    · intro hv
      rw [hv] at he
      simp only [Option.none_bind] at he
      simp only [get_int, he]
  · intro hh
    have hkt := key_type_of_holds s hd key .bool hh
    have he := read_config_file_entry fs s config_file key lines hfs .bool hkt
      (fun t => t.bool_config_values_) (false, false) Assignment.bool_part bool_of_value
      (fun t effects => (foldl_assign_fields effects t).2.2.2.1) (fun _ _ => rfl)
      (fun t M k v => setter_effect_bool_part t M k v) (fun _ => rfl)
    simp only [] at he
    generalize read_config_file fs s config_file = s' at he ⊢
    constructor
    · intro value hv
      have hc := last_targeting_value_converts L .bool key lines value hv
      rw [hv] at he
      simp only [Option.some_bind] at he
      simp only [conversion_fails] at hc
      cases hs : bool_of_value value with
      | none => simp [hs] at hc
      | some n =>
        rw [hs] at he
        simp [get_bool, he]
    · intro hv
      rw [hv] at he
      simp only [Option.none_bind] at he
      simp only [get_bool, he]

/-- C19 at a concrete overlay file: of the four lines for `max_number_of_users`, the last one
that targets the integer key is `int max_number_of_users = 3`. -/
theorem C19_last_line_wins_witness :
    stoi "3".toList = some (get_int
      (read_config_file
        (fun path => if path = "default_config.cfg".toList then
          some ["int max_number_of_users = 1".toList, "string username = some_user".toList]
          else some ["max_number_of_users = 2".toList, "int max_number_of_users = 3".toList,
            "max_number_of_users = many".toList, "string max_number_of_users = 9".toList,
            "username = alice".toList])
        (NoSweatConfigFileParser.new1 decimal_lib
          (fun path => if path = "default_config.cfg".toList then
            some ["int max_number_of_users = 1".toList, "string username = some_user".toList]
            else none)
          "default_config.cfg".toList)
        "config.cfg".toList) "max_number_of_users".toList) :=
  ((C19_last_line_wins
    (fun path => if path = "default_config.cfg".toList then
      some ["int max_number_of_users = 1".toList, "string username = some_user".toList]
      else some ["max_number_of_users = 2".toList, "int max_number_of_users = 3".toList,
        "max_number_of_users = many".toList, "string max_number_of_users = 9".toList,
        "username = alice".toList])
    _ "config.cfg".toList "max_number_of_users".toList
    ["max_number_of_users = 2".toList, "int max_number_of_users = 3".toList,
      "max_number_of_users = many".toList, "string max_number_of_users = 9".toList,
      "username = alice".toList]
    (by decide) (new1_disjoint decimal_lib _ _)).2.1 (by decide)).1 "3".toList (by decide)

/-! ## C23: `trim` -/

/-- C23: on every string that C++ can hold, `trim` returns the string without its longest
prefix and its longest suffix of characters among space, tab, LF, CR, VT and FF (the two can be
removed in either order); the result is a contiguous part of the string, what is cut off on
both sides is whitespace only, the result is empty exactly when every character of the string
is one of the six, its first and its last character are not among them, and `trim` of the
result is the result. -/
theorem C23_trim_exact (s : Str) (hlen : s.length ≤ npos) :
    trim s = (s.dropWhile is_whitespace).rdropWhile is_whitespace ∧
    trim s = (s.rdropWhile is_whitespace).dropWhile is_whitespace ∧
    (∀ c, is_whitespace c = true ↔ c ∈ [' ', '\t', '\n', '\r', '\x0b', '\x0c']) ∧
    (∃ pre suf, s = pre ++ trim s ++ suf ∧ (∀ c ∈ pre, is_whitespace c = true) ∧
      (∀ c ∈ suf, is_whitespace c = true)) ∧
    (trim s = [] ↔ ∀ c ∈ s, is_whitespace c = true) ∧
    (∀ c, (trim s).head? = some c → is_whitespace c = false) ∧
    (∀ c, (trim s).getLast? = some c → is_whitespace c = false) ∧
    trim (trim s) = trim s := by
  rw [trim_trim s hlen, trim_eq_strip s hlen]
  have hself := (strip_eq_self_iff (strip s)).1 (strip_strip s)
  refine ⟨rfl, ?_, ?_, ?_, strip_eq_nil_iff s, ?_, ?_, rfl⟩
  · unfold strip
    rw [dropWhile_rdropWhile_comm]
  · intro c
    simp [is_whitespace, whitespace_chars]
  · refine ⟨s.takeWhile is_whitespace, (s.dropWhile is_whitespace).rtakeWhile is_whitespace,
      ?_, ?_, ?_⟩
    · unfold strip
      rw [List.append_assoc, rdropWhile_append_rtakeWhile, List.takeWhile_append_dropWhile]
    · intro c hc
      exact List.mem_takeWhile_imp hc
    · intro c hc
      unfold List.rtakeWhile at hc
      exact List.mem_takeWhile_imp (List.mem_reverse.1 hc)
  · exact (dropWhile_eq_self_iff_head _ _).1 hself.1
  · exact (rdropWhile_eq_self_iff_getLast _ _).1 hself.2

/-- C23 at a concrete string with whitespace of several kinds on both sides and inside. -/
theorem C23_trim_exact_witness :
    trim " \t\n int  x\t= 1 \r\x0b\x0c ".toList = "int  x\t= 1".toList :=
  (C23_trim_exact " \t\n int  x\t= 1 \r\x0b\x0c ".toList (by decide)).1.trans (by decide)

/-! ## C24: the lines that reach the type dispatch -/

/-- The tokens of a line in terms of the two checks and the local variables of the loop
body. -/
theorem default_tokens_eq_locals (line : Str) :
    default_tokens line =
      if passes_type_check line = true ∧ passes_assignment_check line = true ∧
          ¬ ((default_type_and_key line).length = 0 ∨ (default_value line).length = 0) then
        some (default_type line, default_key line, default_value line)
      else none := by
  unfold default_tokens passes_type_check passes_assignment_check default_type default_key
    default_type_and_key default_value
  generalize trim line = cl
  simp only []
  split_ifs <;> simp_all

theorem default_tokens_trim (line : Str) (hlen : line.length ≤ npos) :
    default_tokens (trim line) = default_tokens line := by
  unfold default_tokens
  simp only [trim_trim line hlen]

theorem name_no_space (T : VType) : ∀ c ∈ T.name, c ∉ [' '] := by
  cases T <;> decide

/-- The tokens of a declaration line with no key text: the keyword is both type and key. -/
theorem default_tokens_of_bare_declaration (T : VType) (mid rest : Str) (op : Char)
    (hop : op ∈ accepted_assignment_operators_)
    (hmid : ∀ c ∈ mid, is_whitespace c = true) (hv : strip rest ≠ [])
    (hlen : (T.name ++ ' ' :: (mid ++ op :: rest)).length ≤ npos) :
    default_tokens (T.name ++ ' ' :: (mid ++ op :: rest))
      = some (T.name, T.name, strip rest) := by
  have hassoc : T.name ++ ' ' :: (mid ++ op :: rest) = (T.name ++ ' ' :: mid) ++ op :: rest := by
    simp
  have hmid' : ∀ c ∈ mid, c ∉ accepted_assignment_operators_ := by
    intro c hc
    exact (whitespace_not_assignment mid (fun d hd => by
      have := hmid d hd
      simpa [is_whitespace] using this)).1 c hc
  have hA : ∀ c ∈ T.name ++ ' ' :: mid, c ∉ accepted_assignment_operators_ := by
    intro c hc
    rw [show T.name ++ ' ' :: mid = (T.name ++ [' ']) ++ mid by simp, List.mem_append] at hc
    rcases hc with hc | hc
    · exact name_not_assignment T _ (Or.inl rfl) c hc
    · exact hmid' c hc
  have hne : T.name ++ ' ' :: mid ≠ [] := by simp
  rw [hassoc] at hlen ⊢
  obtain ⟨h1, h2, h3, _, h5, h6, h7⟩ := split_at_assignment accepted_assignment_operators_
    (T.name ++ ' ' :: mid) rest op hop hA hne (name_head T mid) ((strip_ne_nil_iff rest).1 hv) hlen
  have hany : accepted_value_types_.any
      (fun type => starts_with (trim ((T.name ++ ' ' :: mid) ++ op :: rest)) type) = true := by
    rw [h1, List.append_assoc]
    exact any_starts_with_name T _
  have hstrip : strip (T.name ++ ' ' :: mid) = T.name := by
    rw [strip_append_right T.name (' ' :: mid) (by
      intro c hc
      rcases List.mem_cons.1 hc with rfl | hc
      · decide
      · exact hmid c hc), strip_name]
  have hTl : T.name.length ≤ npos := by cases T <;> decide
  have hTne : T.name.length ≠ 0 := by cases T <;> decide
  have hsp : find T.name [' '] = npos := by
    rw [find_single]
    exact find_first_of_eq_npos [' '] T.name (name_no_space T)
  have e0 : size_add npos 1 = 0 := by decide
  have hsub : substr T.name 0 npos = T.name := by
    rw [substr_zero, List.take_of_length_le hTl]
  unfold default_tokens
  simp only []
  rw [if_neg (not_not.2 hany), h2, if_neg (not_or.2 ⟨h3, h5⟩), h6, h7, hstrip,
    if_neg (by simp [hv, hTne]), hsp, e0, hsub, trim_eq_strip T.name hTl, strip_name]

theorem whitespace_chars_of_is_whitespace (w : Str) (h : ∀ c ∈ w, is_whitespace c = true) :
    ∀ c ∈ w, c ∈ whitespace_chars := by
  intro c hc
  simpa [is_whitespace] using h c hc

/-- A trimmed line that passes the two checks is a keyword, a space, a text without assignment
character, an assignment character and a text that is not only whitespace. -/
theorem shape_of_checked_line (line : Str) (hlen : line.length ≤ npos)
    (htype : passes_type_check line = true) (hassign : passes_assignment_check line = true) :
    ∃ (T : VType) (mid rest : Str) (op : Char),
      trim line = T.name ++ ' ' :: (mid ++ op :: rest) ∧
      op ∈ accepted_assignment_operators_ ∧
      (∀ c ∈ mid, c ∉ accepted_assignment_operators_) ∧ strip rest ≠ [] := by
  unfold passes_type_check at htype
  unfold passes_assignment_check at hassign
  have hcl : (trim line).length ≤ npos := Nat.le_trans (length_trim_le line hlen) hlen
  have hself : strip (trim line) = trim line := by
    rw [trim_eq_strip line hlen, strip_strip]
  generalize trim line = cl at htype hassign hcl hself
  rw [List.any_eq_true] at htype
  obtain ⟨type, hmem, hst⟩ := htype
  rw [starts_with_iff] at hst
  have hT : ∃ T : VType, type = T.name ++ [' '] := by
    simp only [accepted_value_types_, List.mem_cons, List.mem_singleton, List.not_mem_nil,
      or_false] at hmem
    rcases hmem with h | h | h | h
    · exact ⟨.int, h⟩
    · exact ⟨.float, h⟩
    · exact ⟨.string, h⟩
    · exact ⟨.bool, h⟩
  obtain ⟨T, rfl⟩ := hT
  obtain ⟨tail, rfl⟩ := hst
  simp only [Bool.not_eq_true', decide_eq_false_iff_not, not_or] at hassign
  have hassoc : T.name ++ [' '] ++ tail = T.name ++ ' ' :: tail := by simp
  rcases find_first_of_cases tail accepted_assignment_operators_ with
    ⟨_, hnone⟩ | ⟨mid, op, rest, rfl, hop, hmid, _⟩
  · exfalso
    apply hassign.1
    apply find_first_of_eq_npos
    intro c hc
    rcases List.mem_append.1 hc with h | h
    · exact name_not_assignment T _ (Or.inl rfl) c h
    · exact hnone c h
  · have hA : ∀ c ∈ T.name ++ ' ' :: mid, c ∉ accepted_assignment_operators_ := by
      intro c hc
      rw [show T.name ++ ' ' :: mid = (T.name ++ [' ']) ++ mid by simp, List.mem_append] at hc
      rcases hc with hc | hc
      · exact name_not_assignment T _ (Or.inl rfl) c hc
      · exact hmid c hc
    have hsplit : T.name ++ [' '] ++ (mid ++ op :: rest) = (T.name ++ ' ' :: mid) ++ op :: rest := by
      simp
    have hidx := find_first_of_append accepted_assignment_operators_ (T.name ++ ' ' :: mid) rest
      op hA hop
    rw [hsplit] at hassign hcl hself
    rw [hidx] at hassign
    have hrest : rest ≠ [] := by
      intro e
      apply hassign.2
      rw [size_sub_one _ (by simp) hcl, e]
      simp
    refine ⟨T, mid, rest, op, by rw [hsplit]; simp, hop, hmid, ?_⟩
    rw [strip_ne_nil_iff]
    have hlast := (rdropWhile_eq_self_iff_getLast _ _).1 ((strip_eq_self_iff _).1 hself).2
    obtain ⟨l, hl⟩ : ∃ l, rest.getLast? = some l := by
      cases hg : rest.getLast? with
      | none => exact absurd (List.getLast?_eq_none_iff.1 hg) hrest
      | some l => exact ⟨l, rfl⟩
    refine ⟨l, List.mem_of_getLast?_eq_some hl, hlast l ?_⟩
    rw [← hl, show (T.name ++ ' ' :: mid) ++ op :: rest = ((T.name ++ ' ' :: mid) ++ [op]) ++ rest
      by simp]
    exact List.getLast?_append_of_ne_nil _ hrest

/-- The tokens of a line that passes the two checks: the type is a keyword and the value is
not empty. -/
theorem default_tokens_of_checked_line (line : Str) (hlen : line.length ≤ npos)
    (htype : passes_type_check line = true) (hassign : passes_assignment_check line = true) :
    ∃ (T : VType) (key value : Str), value ≠ [] ∧
      default_tokens line = some (T.name, key, value) := by
  obtain ⟨T, mid, rest, op, hcl, hop, hmid, hv⟩ := shape_of_checked_line line hlen htype hassign
  have hl : (T.name ++ ' ' :: (mid ++ op :: rest)).length ≤ npos := by
    rw [← hcl]
    exact Nat.le_trans (length_trim_le line hlen) hlen
  rw [← default_tokens_trim line hlen, hcl]
  by_cases hk : strip mid = []
  · exact ⟨T, T.name, strip rest, hv, default_tokens_of_bare_declaration T mid rest op hop
      ((strip_eq_nil_iff mid).1 hk) hv hl⟩
  · exact ⟨T, strip mid, strip rest, hv, default_tokens_of_declaration T mid rest op hop hmid
      hk hv hl⟩

/-- C24: for every line that passes the check for a type keyword and the check for an
assignment character in the loop body of `parse_default_config_file`, the trimmed
`type_and_key` and the trimmed `value` have non-zero length and the extracted `type` is one of
`int`, `float`, `string`, `bool`; so the loop body calls one of the four `add_default`
functions: neither the zero-length `continue` nor the final `else continue` is taken. -/
theorem C24_defensive_branches_unreachable (line : Str) (hlen : line.length ≤ npos)
    (htype : passes_type_check line = true) (hassign : passes_assignment_check line = true) :
    (default_type_and_key line).length ≠ 0 ∧ (default_value line).length ≠ 0 ∧
    (default_type line = ['i', 'n', 't'] ∨ default_type line = ['f', 'l', 'o', 'a', 't'] ∨
      default_type line = ['s', 't', 'r', 'i', 'n', 'g'] ∨
      default_type line = ['b', 'o', 'o', 'l']) ∧
    ∀ s : NoSweatConfigFileParser L,
      parse_default_config_file_line s line =
        if default_type line = ['i', 'n', 't'] then
          add_default_integer_value s (default_key line) (default_value line)
        else if default_type line = ['f', 'l', 'o', 'a', 't'] then
          add_default_float_value s (default_key line) (default_value line)
        else if default_type line = ['s', 't', 'r', 'i', 'n', 'g'] then
          add_default_string_value s (default_key line) (default_value line)
        else add_default_bool_value s (default_key line) (default_value line) := by
  obtain ⟨T, key, value, _, htok⟩ := default_tokens_of_checked_line line hlen htype hassign
  have hloc := default_tokens_eq_locals line
  rw [htok] at hloc
  split_ifs at hloc with hc
  simp only [Option.some.injEq, Prod.mk.injEq] at hloc
  obtain ⟨h1, h2, h3⟩ := hloc
  rw [not_or] at hc
  refine ⟨hc.2.2.1, hc.2.2.2, ?_, ?_⟩
  · rw [← h1]
    cases T
    · exact Or.inl rfl
    · exact Or.inr (Or.inl rfl)
    · exact Or.inr (Or.inr (Or.inl rfl))
    · exact Or.inr (Or.inr (Or.inr rfl))
  · intro s
    rw [parse_default_config_file_line_of_tokens s line T.name key value htok, ← h1, ← h2, ← h3]
    cases T <;> simp [default_dispatch, VType.name]

/-- C24 at concrete lines: a declaration with no key text, `int = 5`, and one with no space
around the assignment character reach the type dispatch with the type `int`. -/
theorem C24_defensive_branches_unreachable_witness :
    default_type "  int =5".toList = ['i', 'n', 't'] ∨
      default_type "  int =5".toList = ['f', 'l', 'o', 'a', 't'] ∨
      default_type "  int =5".toList = ['s', 't', 'r', 'i', 'n', 'g'] ∨
      default_type "  int =5".toList = ['b', 'o', 'o', 'l'] :=
  (@C24_defensive_branches_unreachable decimal_lib "  int =5".toList (by decide) (by decide)
    (by decide)).2.2.1

/-! ## C22: a declaration with no key text -/

theorem strip_name_whitespace (T : VType) (mid : Str)
    (hmid : ∀ c ∈ mid, is_whitespace c = true) : strip (T.name ++ ' ' :: mid) = T.name := by
  rw [strip_append_right T.name (' ' :: mid) (by
    intro c hc
    rcases List.mem_cons.1 hc with rfl | hc
    · decide
    · exact hmid c hc), strip_name]

/-- The `type_and_key` of a declaration line with no key text is the keyword. -/
theorem default_type_and_key_of_bare_declaration (T : VType) (mid rest : Str) (op : Char)
    (hop : op ∈ accepted_assignment_operators_)
    (hmid : ∀ c ∈ mid, is_whitespace c = true) (hv : strip rest ≠ [])
    (hlen : (T.name ++ ' ' :: (mid ++ op :: rest)).length ≤ npos) :
    default_type_and_key (T.name ++ ' ' :: (mid ++ op :: rest)) = T.name := by
  have hassoc : T.name ++ ' ' :: (mid ++ op :: rest) = (T.name ++ ' ' :: mid) ++ op :: rest := by
    simp
  have hA : ∀ c ∈ T.name ++ ' ' :: mid, c ∉ accepted_assignment_operators_ := by
    intro c hc
    rw [show T.name ++ ' ' :: mid = (T.name ++ [' ']) ++ mid by simp, List.mem_append] at hc
    rcases hc with hc | hc
    · exact name_not_assignment T _ (Or.inl rfl) c hc
    · exact (whitespace_not_assignment mid (whitespace_chars_of_is_whitespace mid hmid)).1 c hc
  rw [hassoc] at hlen ⊢
  obtain ⟨_, h2, _, _, _, h6, _⟩ := split_at_assignment accepted_assignment_operators_
    (T.name ++ ' ' :: mid) rest op hop hA (by simp) (name_head T mid)
    ((strip_ne_nil_iff rest).1 hv) hlen
  unfold default_type_and_key
  rw [h2, h6, strip_name_whitespace T mid hmid]

/-- The tokens that the overlay parser extracts from a line with a keyword and no key text:
the keyword is the enforced type and the key is empty. -/
theorem overlay_tokens_of_bare_typed (T : VType) (mid rest : Str) (op : Char)
    (hop : op ∈ ['=', ':']) (hmid : ∀ c ∈ mid, is_whitespace c = true)
    (hv : strip rest ≠ [])
    (hlen : (T.name ++ ' ' :: (mid ++ op :: rest)).length ≤ npos) :
    overlay_tokens (T.name ++ ' ' :: (mid ++ op :: rest)) = some (T.name, [], strip rest) := by
  have hassoc : T.name ++ ' ' :: (mid ++ op :: rest) = (T.name ++ ' ' :: mid) ++ op :: rest := by
    simp
  have hA : ∀ c ∈ T.name ++ ' ' :: mid, c ∉ ['=', ':'] := by
    intro c hc
    rw [show T.name ++ ' ' :: mid = (T.name ++ [' ']) ++ mid by simp, List.mem_append] at hc
    rcases hc with hc | hc
    · exact name_not_assignment T _ (Or.inr rfl) c hc
    · exact (whitespace_not_assignment mid
        (whitespace_chars_of_is_whitespace mid hmid)).2.1 c hc
  rw [hassoc] at hlen ⊢
  obtain ⟨h1, h2, h3, h4, h5, h6, h7⟩ := split_at_assignment ['=', ':']
    (T.name ++ ' ' :: mid) rest op hop hA (by simp) (name_head T mid)
    ((strip_ne_nil_iff rest).1 hv) hlen
  have hany : accepted_value_types_.any
      (fun type => starts_with (trim ((T.name ++ ' ' :: mid) ++ op :: rest)) type) = true := by
    rw [h1, List.append_assoc]
    exact any_starts_with_name T _
  have hTl : T.name.length ≤ npos := by cases T <;> decide
  have hsp : find_first_of T.name [' ', '\t'] = npos :=
    find_first_of_eq_npos [' ', '\t'] T.name (by cases T <;> decide)
  have htrim : trim ([] : Str) = [] := by decide
  unfold overlay_tokens
  simp only []
  rw [h2, if_neg (not_or.2 ⟨h3, not_or.2 ⟨h4, h5⟩⟩), h6, h7, hany,
    strip_name_whitespace T mid hmid, hsp]
  simp only [if_true]
  rw [substr_zero, List.take_of_length_le hTl, erase_zero, List.drop_of_length_le hTl, htrim]

/-- C22: a declaration with no key text registers the type name as the key. For a line made of
`int`, a space, optional whitespace, an assignment character and a value that converts to the
integer `n` (such as `int = 5`): the default parser finds no space in the trimmed
`type_and_key`, which is `int`, takes it as both type and key, and on a store in which the key
`int` is free stores `(n, n)` under `int` in the integer map, so `get_int` of `int` is `n`; the
overlay parser reads the same line as the enforced type `int` with the empty key, so on every
store whose keys have the shape of registered keys (every store the program reaches) it
changes nothing. -/
theorem C22_type_name_as_key (s t : NoSweatConfigFileParser L) (w rest : Str) (op : Char)
    (n : Int) (hop : op = '=' ∨ op = ':') (hw : ∀ c ∈ w, is_whitespace c = true)
    (hn : stoi rest = some n)
    (hlen : (['i', 'n', 't'] ++ ' ' :: (w ++ op :: rest)).length ≤ npos)
    (hfresh : is_key_available s ['i', 'n', 't'] = true) (ht : KeysShaped t) :
    default_type_and_key (['i', 'n', 't'] ++ ' ' :: (w ++ op :: rest)) = ['i', 'n', 't'] ∧
    find (default_type_and_key (['i', 'n', 't'] ++ ' ' :: (w ++ op :: rest))) [' '] = npos ∧
    default_type (['i', 'n', 't'] ++ ' ' :: (w ++ op :: rest)) = ['i', 'n', 't'] ∧
    default_key (['i', 'n', 't'] ++ ' ' :: (w ++ op :: rest)) = ['i', 'n', 't'] ∧
    (parse_default_config_file_line s
      (['i', 'n', 't'] ++ ' ' :: (w ++ op :: rest))).integer_config_values_ ['i', 'n', 't']
        = some (n, n) ∧
    get_int (parse_default_config_file_line s (['i', 'n', 't'] ++ ' ' :: (w ++ op :: rest)))
      ['i', 'n', 't'] = n ∧
    overlay_tokens (['i', 'n', 't'] ++ ' ' :: (w ++ op :: rest))
      = some (['i', 'n', 't'], [], trim rest) ∧
    read_config_file_line t (['i', 'n', 't'] ++ ' ' :: (w ++ op :: rest)) = t := by
  have hop1 : op ∈ accepted_assignment_operators_ := by
    rcases hop with rfl | rfl <;> decide
  have hop2 : op ∈ ['=', ':'] := by
    rcases hop with rfl | rfl <;> decide
  have hv : strip rest ≠ [] := by
    intro e
    have h0 : stoi [] = none := by decide
    rw [← stoi_strip, e, h0] at hn
    exact absurd hn (by simp)
  have hrl : rest.length ≤ npos := by
    simp only [List.length_append, List.length_cons] at hlen
    omega
  have htk := default_type_and_key_of_bare_declaration .int w rest op hop1 hw hv hlen
  have htok := default_tokens_of_bare_declaration .int w rest op hop1 hw hv hlen
  have hotok := overlay_tokens_of_bare_typed .int w rest op hop2 hw hv hlen
  simp only [VType.name] at htk htok hotok
  have hloc := default_tokens_eq_locals (['i', 'n', 't'] ++ ' ' :: (w ++ op :: rest))
  rw [htok] at hloc
  split_ifs at hloc with hc
  simp only [Option.some.injEq, Prod.mk.injEq] at hloc
  obtain ⟨h1, h2, _⟩ := hloc
  have hd := get_int_default_dispatch s ['i', 'n', 't'] (strip rest) n hfresh
    (by rw [stoi_strip]; exact hn)
  simp only [VType.name] at hd
  refine ⟨htk, ?_, h1.symm, h2.symm, ?_, ?_, ?_, ?_⟩
  · rw [htk]
    decide
  · rw [parse_default_config_file_line_of_tokens s _ _ _ _ htok]
    exact hd.1
  · rw [parse_default_config_file_line_of_tokens s _ _ _ _ htok]
    exact hd.2
  · rw [hotok, trim_eq_strip rest hrl]
  · rw [read_config_file_line_eq, hotok]
    simp only []
    have hmiss : holds t .int [] = false := by
      cases hh : holds t .int []
      · rfl
      · exact absurd rfl (ht [] .int hh).1
    exact overlay_dispatch_typed_missing t .int [] (strip rest) hmiss

/-- C22 at the lines of the claim: `int = 5` read by the default parser on the empty store
gives `get_int` of `int` the value 5, and the overlay line `int = 7` leaves the store
unchanged. -/
theorem C22_type_name_as_key_witness :
    get_int (parse_default_config_file_line
      (NoSweatConfigFileParser.init decimal_lib "default_config.cfg".toList)
      "int = 5".toList) "int".toList = 5 ∧
    read_config_file_line (parse_default_config_file_line
      (NoSweatConfigFileParser.init decimal_lib "default_config.cfg".toList)
      "int = 5".toList) "int = 7".toList
    = parse_default_config_file_line
      (NoSweatConfigFileParser.init decimal_lib "default_config.cfg".toList)
      "int = 5".toList :=
  ⟨(C22_type_name_as_key
      (NoSweatConfigFileParser.init decimal_lib "default_config.cfg".toList)
      (NoSweatConfigFileParser.init decimal_lib "default_config.cfg".toList)
      [] " 5".toList '=' 5 (Or.inl rfl) (by decide) (by decide) (by decide) (by decide)
      (keysShaped_init _)).2.2.2.2.2.1,
    (C22_type_name_as_key
      (NoSweatConfigFileParser.init decimal_lib "default_config.cfg".toList)
      (parse_default_config_file_line
        (NoSweatConfigFileParser.init decimal_lib "default_config.cfg".toList)
        "int = 5".toList)
      [] " 7".toList '=' 7 (Or.inl rfl) (by decide) (by decide) (by decide) (by decide)
      (parse_default_config_file_line_shaped _ _ (by decide) (keysShaped_init _))).2.2.2.2.2.2.2⟩

/-! ## C21: a declaration that fails does not take its key -/

theorem of_name_name (T : VType) : VType.of_name T.name = some T := by
  cases T <;> decide

theorem of_name_eq_some (type : Str) (T : VType) (h : VType.of_name type = some T) :
    type = T.name := by
  unfold VType.of_name at h
  split_ifs at h with h1 h2 h3 h4 <;> simp only [Option.some.injEq] at h <;> subst h <;>
    assumption

theorem of_name_eq_none (type : Str) (h : VType.of_name type = none) :
    ∀ T : VType, type ≠ T.name := by
  intro T e
  rw [e, of_name_name] at h
  exact absurd h (by simp)

theorem default_dispatch_no_keyword (s : NoSweatConfigFileParser L) (type key value : Str)
    (h : ∀ T : VType, type ≠ T.name) : default_dispatch s type key value = s := by
  have h1 := h .int
  have h2 := h .float
  have h3 := h .string
  have h4 := h .bool
  simp only [VType.name] at h1 h2 h3 h4
  simp [default_dispatch, h1, h2, h3, h4]

theorem effective_declaration_of_no_tokens (L : FloatLib) (key line : Str)
    (h : default_tokens line = none) : effective_declaration L key line = none := by
  unfold effective_declaration
  rw [h]

theorem effective_declaration_of_tokens (L : FloatLib) (key line type k value : Str)
    (h : default_tokens line = some (type, k, value)) :
    effective_declaration L key line =
      if k = key then
        match VType.of_name type with
        | some T => if conversion_fails L T value then none else some (T, value)
        | none => none
      else none := by
  unfold effective_declaration
  rw [h]

/-- A line that does not declare `key` with a convertible value leaves the key free. -/
theorem parse_default_config_file_line_available (s : NoSweatConfigFileParser L)
    (line key : Str) (he : effective_declaration L key line = none)
    (ha : is_key_available s key = true) :
    is_key_available (parse_default_config_file_line s line) key = true := by
  rcases ht : default_tokens line with _ | ⟨type, k, value⟩
  · rw [parse_default_config_file_line_eq, ht]
    exact ha
  · rw [parse_default_config_file_line_of_tokens s line type k value ht]
    rw [effective_declaration_of_tokens L key line type k value ht] at he
    generalize default_tokens line = dt at ht
    by_cases hk : k = key
    · subst hk
      rw [if_pos rfl] at he
      cases ho : VType.of_name type with
      | none =>
        rw [default_dispatch_no_keyword s type k value (of_name_eq_none type ho)]
        exact ha
      | some T =>
        rw [ho] at he
        simp only [] at he
        have hf : conversion_fails L T value = true := by
          cases hc : conversion_fails L T value
          · rw [hc] at he
            simp at he
          · rfl
        rw [of_name_eq_some type T ho, default_dispatch_conversion_fails s T k value hf]
        exact ha
    · obtain ⟨h1, h2, h3, h4⟩ := default_dispatch_of_ne s type k value key (fun e => hk e.symm)
      rw [is_key_available_congr s _ key h1 h2 h3 h4]
      exact ha

theorem foldl_parse_default_config_file_line_available (lines : List Str)
    (s : NoSweatConfigFileParser L) (key : Str)
    (he : ∀ line ∈ lines, effective_declaration L key line = none)
    (ha : is_key_available s key = true) :
    is_key_available (lines.foldl parse_default_config_file_line s) key = true := by
  induction lines generalizing s with
  | nil => exact ha
  | cons line rest ih =>
    simp only [List.foldl_cons]
    have h1 := parse_default_config_file_line_available s line key
      (he line (List.mem_cons_self _ _)) ha
    generalize parse_default_config_file_line s line = s' at h1
    exact ih s' (fun l hl => he l (List.mem_cons_of_mem _ hl)) h1

/-- A declaration of a free key with a value that converts puts the key in the map of the
declared type, and in no other, with the converted value. -/
theorem default_dispatch_registers (s : NoSweatConfigFileParser L) (M : VType)
    (key value : Str) (ha : is_key_available s key = true)
    (hc : conversion_fails L M value = false) :
    (∀ M' : VType, holds (default_dispatch s M.name key value) M' key = decide (M' = M)) ∧
    (M = .int → stoi value = some (get_int (default_dispatch s M.name key value) key)) ∧
    (M = .float →
      L.stof value = some (get_float (default_dispatch s M.name key value) key)) ∧
    (M = .string → get_string (default_dispatch s M.name key value) key = value) ∧
    (M = .bool →
      bool_of_value value = some (get_bool (default_dispatch s M.name key value) key)) := by
  have hown : holds (default_dispatch s M.name key value) M key = true := by
    cases M
    · simp only [conversion_fails] at hc
      cases hv : stoi value with
      | none => simp [hv] at hc
      | some n =>
        simp only [holds, (get_int_default_dispatch s key value n ha hv).1, Option.isSome_some]
    · simp only [conversion_fails] at hc
      cases hv : L.stof value with
      | none => simp [hv] at hc
      | some x =>
        simp only [holds, (get_float_default_dispatch s key value x ha hv).1,
          Option.isSome_some]
    · simp only [holds, (get_string_default_dispatch s key value ha).1, Option.isSome_some]
    · simp only [conversion_fails] at hc
      cases hv : bool_of_value value with
      | none => simp [hv] at hc
      | some b =>
        simp only [holds, (get_bool_default_dispatch s key value b ha hv).1,
          Option.isSome_some]
  refine ⟨?_, ?_, ?_, ?_, ?_⟩
  · intro M'
    by_cases hM : M' = M
    · subst hM
      rw [hown]
      simp
    · rw [decide_eq_false hM]
      cases hh : holds (default_dispatch s M.name key value) M' key
      · rfl
      · exact absurd (default_dispatch_holds_key s M.name key value ha M' M hh hown) hM
  · intro hM
    subst hM
    simp only [conversion_fails] at hc
    cases hv : stoi value with
    | none => simp [hv] at hc
    | some n => rw [(get_int_default_dispatch s key value n ha hv).2]
  · intro hM
    subst hM
    simp only [conversion_fails] at hc
    cases hv : L.stof value with
    | none => simp [hv] at hc
    | some x => rw [(get_float_default_dispatch s key value x ha hv).2]
  · intro hM
    subst hM
    exact (get_string_default_dispatch s key value ha).2
  · intro hM
    subst hM
    simp only [conversion_fails] at hc
    cases hv : bool_of_value value with
    | none => simp [hv] at hc
    | some b => rw [(get_bool_default_dispatch s key value b ha hv).2]

/-- C21 (amended): a failed declaration does not reserve its key. In a default file where a
line declares `key` with a value that fails to convert to the declared type, a later line
declares `key` with a value that converts to its declared type, and no other line before that
later line declares `key` with a value that converts: the failed line leaves the store as it
was, and after the default parse the key is in the map of the later line's type, and in no
other, with the later line's converted value. -/
theorem C21_first_convertible_declaration (L : FloatLib) (fs : FileSystem)
    (default_config_file : Str) (pre mid post : List Str) (failed later key : Str)
    (T M : VType) (v1 v2 : Str)
    (hfile : fs default_config_file = some (pre ++ failed :: mid ++ later :: post))
    (hfailed : default_tokens failed = some (T.name, key, v1))
    (hfails : conversion_fails L T v1 = true)
    (hlater : default_tokens later = some (M.name, key, v2))
    (hconverts : conversion_fails L M v2 = false)
    (hothers : ∀ line ∈ pre ++ mid, effective_declaration L key line = none) :
    parse_default_config_file_line
        (pre.foldl parse_default_config_file_line
          (NoSweatConfigFileParser.init L default_config_file)) failed
      = pre.foldl parse_default_config_file_line
          (NoSweatConfigFileParser.init L default_config_file) ∧
    (∀ M' : VType,
      holds (NoSweatConfigFileParser.new1 L fs default_config_file) M' key
        = decide (M' = M)) ∧
    (M = .int →
      stoi v2 = some (get_int (NoSweatConfigFileParser.new1 L fs default_config_file) key)) ∧
    (M = .float →
      L.stof v2
        = some (get_float (NoSweatConfigFileParser.new1 L fs default_config_file) key)) ∧
    (M = .string →
      get_string (NoSweatConfigFileParser.new1 L fs default_config_file) key = v2) ∧
    (M = .bool →
      bool_of_value v2
        = some (get_bool (NoSweatConfigFileParser.new1 L fs default_config_file) key)) := by
  constructor
  · rw [parse_default_config_file_line_of_tokens _ failed T.name key v1 hfailed]
    exact default_dispatch_conversion_fails _ T key v1 hfails
  have hfe : effective_declaration L key failed = none := by
    rw [effective_declaration_of_tokens L key failed T.name key v1 hfailed, if_pos rfl,
      of_name_name]
    simp only [hfails, if_true]
  have hall : ∀ line ∈ pre ++ failed :: mid, effective_declaration L key line = none := by
    intro line hl
    rcases List.mem_append.1 hl with h | h
    · exact hothers line (List.mem_append_left _ h)
    · rcases List.mem_cons.1 h with rfl | h
      · exact hfe
      · exact hothers line (List.mem_append_right _ h)
  have ha := foldl_parse_default_config_file_line_available (pre ++ failed :: mid)
    (NoSweatConfigFileParser.init L default_config_file) key hall
    (available_init L default_config_file key)
  rw [new1_eq L fs default_config_file _ hfile,
    show pre ++ failed :: mid ++ later :: post = (pre ++ failed :: mid) ++ later :: post by simp,
    List.foldl_append, List.foldl_cons]
  generalize (pre ++ failed :: mid).foldl parse_default_config_file_line
    (NoSweatConfigFileParser.init L default_config_file) = s2 at ha
  rw [parse_default_config_file_line_of_tokens s2 later M.name key v2 hlater]
  obtain ⟨r1, r2, r3, r4, r5⟩ := default_dispatch_registers s2 M key v2 ha hconverts
  have htaken : is_key_available (default_dispatch s2 M.name key v2) key = false :=
    (is_key_available_eq_false _ key).2 ⟨M, by rw [r1]; simp⟩
  obtain ⟨f1, f2, f3, f4⟩ := foldl_parse_default_config_file_line_frame post
    (default_dispatch s2 M.name key v2) key htaken
  generalize default_dispatch s2 M.name key v2 = s3 at r1 r2 r3 r4 r5 f1 f2 f3 f4
  generalize post.foldl parse_default_config_file_line s3 = s4 at f1 f2 f3 f4
  refine ⟨?_, ?_, ?_, ?_, ?_⟩
  · intro M'
    rw [holds_congr s3 s4 key f1 f2 f3 f4 M']
    exact r1 M'
  · intro hM
    rw [r2 hM]
    simp only [get_int, f1]
  · intro hM
    rw [r3 hM]
    simp only [get_float, f2]
  · intro hM
    rw [← r4 hM]
    simp only [get_string, f3]
  · intro hM
    rw [r5 hM]
    simp only [get_bool, f4]

/-- C21 (amended) at the file of the claim: `int x = abc` fails, `string x = hello` is the
first declaration of `x` that converts, and `x` ends as the string `hello`. -/
theorem C21_first_convertible_declaration_witness :
    get_string (NoSweatConfigFileParser.new1 decimal_lib
      (fun _ => some ["int y = 1".toList, "int x = abc".toList, "# comment".toList,
        "string x = hello".toList, "string x = bye".toList])
      "default_config.cfg".toList) "x".toList = "hello".toList :=
  (C21_first_convertible_declaration decimal_lib
    (fun _ => some ["int y = 1".toList, "int x = abc".toList, "# comment".toList,
      "string x = hello".toList, "string x = bye".toList])
    "default_config.cfg".toList ["int y = 1".toList] ["# comment".toList]
    ["string x = bye".toList] "int x = abc".toList "string x = hello".toList "x".toList
    .int .string "abc".toList "hello".toList rfl (by decide) (by decide) (by decide)
    (by decide) (by decide)).2.2.2.2.1 rfl

/-- C21 as stated fails: in the file `int x = abc`, `string x = hello`, `string x = bye` the
first line is dropped because `abc` does not convert, the third line is a later line that
declares `x` with a convertible value, yet the key ends with the value `hello` of the second
line, not with the value `bye` of the third. -/
theorem C21_counterexample :
    default_tokens "int x = abc".toList = some ("int".toList, "x".toList, "abc".toList) ∧
    conversion_fails decimal_lib .int "abc".toList = true ∧
    default_tokens "string x = bye".toList
      = some ("string".toList, "x".toList, "bye".toList) ∧
    conversion_fails decimal_lib .string "bye".toList = false ∧
    get_string (NoSweatConfigFileParser.new1 decimal_lib
      (fun _ => some ["int x = abc".toList, "string x = hello".toList,
        "string x = bye".toList])
      "default_config.cfg".toList) "x".toList = "hello".toList ∧
    get_string (NoSweatConfigFileParser.new1 decimal_lib
      (fun _ => some ["int x = abc".toList, "string x = hello".toList,
        "string x = bye".toList])
      "default_config.cfg".toList) "x".toList ≠ "bye".toList := by
  decide

end NoSweat
